import Mathlib

/-!
# FindAnyMail: scorer, candidate generator, transport verifier, cache, batch controller

A shallow embedding of `src/lib/confidenceScorer.js`, `src/lib/patternGenerator.js`,
`src/lib/smtpVerifier.js`, `src/lib/cache.js`, `src/lib/emailVerifier.js`,
`src/lib/csvProcessor.js` and the scoring stage of `src/lib/emailFinder.js`,
followed by the properties proved about them.

* JavaScript strings are lists of characters (`JsString`); numbers that the
  code only ever holds as integers (weights, scores, reply codes) are `Nat` or
  `Int`.
* A function that may throw returns `Except`; `verifyEmails` catches every
  exception itself and is a total function.
* The clock of the cache, the collaborators of `verifyEmail` and the
  settlements of the lookups of `processBulk` are explicit arguments too; the
  order in which the lookups of `processBulk` settle is a list of picks among
  the pending ones.
* The server and the network of `verifyEmails` are an explicit argument
  (`Network`) that fixes how the connection attempt ends and what every read of
  a reply yields, as a function of the commands written before it; the function
  returns its result array together with the trace of its network actions.
-/

namespace FindAnyMail

/-- A JavaScript string, as the list of its characters. -/
abbrev JsString := List Char

/-! ## confidenceScorer.js -/

/-- The transport status of a probe outcome (`smtpStatus`). -/
inductive SmtpStatus where
  | valid
  | invalid
  | unknown
  | error
  deriving DecidableEq, Repr

/-- The confidence tier (`confidence`). -/
inductive Confidence where
  | verified
  | likely
  | possible
  | low
  | invalid
  deriving DecidableEq, Repr

/-- The signal tags pushed to `signals`, and the two extra `method` tags. -/
inductive Tag where
  | smtp_verified
  | found_on_website
  | website_pattern
  | strong_pattern
  | provider_pattern
  | gravatar
  | disify_valid
  | ai_pick
  | hunter_verified
  | catchall_domain
  | smtp_rejected
  | pattern
  deriving DecidableEq, Repr

/-- The `SCORES` table. -/
structure Scores where
  smtpValid : Int
  smtpInvalid : Int
  foundOnWebsite : Int
  websitePatternMatch : Int
  multipleWebsiteEmails : Int
  providerPatternMatch : Int
  gravatarFound : Int
  disifyValid : Int
  aiRecommends : Int
  hunterConfirms : Int
  catchAllPenalty : Int

/-- The constants of `SCORES`. -/
def SCORES : Scores where
  smtpValid := 45
  smtpInvalid := -999
  foundOnWebsite := 55
  websitePatternMatch := 50
  multipleWebsiteEmails := 10
  providerPatternMatch := 15
  gravatarFound := 15
  disifyValid := 20
  aiRecommends := 15
  hunterConfirms := 20
  catchAllPenalty := -20

/-- The parameter record of `scoreEmail`. Truthiness tests on the flag fields are
modelled by `Bool`; `patternWeight` and `websiteEmailCount` may be absent
(`undefined`), and are integers when present. -/
structure Params where
  email : JsString
  smtpStatus : SmtpStatus
  patternWeight : Option Int
  matchesWebsitePattern : Bool
  foundOnWebsite : Bool
  matchesProviderPattern : Bool
  hasGravatar : Bool
  aiRecommended : Bool
  hunterConfirmed : Bool
  isCatchAll : Bool
  disifyValid : Bool
  websiteEmailCount : Option Nat

/-- The record `scoreEmail` returns. -/
structure Scored where
  email : JsString
  score : Int
  confidence : Confidence
  signals : List Tag
  method : Tag
  deriving DecidableEq, Repr

/-- The value of `patternWeight || 1`: an absent or zero weight becomes 1. -/
def rawWeight (w : Option Int) : Int :=
  match w with
  | none => 1
  | some v => if v = 0 then 1 else v

/-- The value of `Math.round(rawWeight / 60 * 20)` for an integer weight: the
nearest integer to a third of the weight (a third of an integer is never
half-way between two integers). -/
def roundThird (w : Int) : Int := (2 * w + 3) / 6

/-- The pattern frequency bonus,
`Math.max(3, Math.min(20, Math.round(rawWeight / 60 * 20)))`. -/
def patternBonus (w : Option Int) : Int :=
  max 3 (min 20 (roundThird (rawWeight w)))

/-- One `if (cond) { score += pts; signals.push(tag) }` step of `scoreEmail`. -/
def addSignal (cond : Bool) (pts : Int) (tag : Tag) (acc : Int × List Tag) :
    Int × List Tag :=
  if cond then (acc.1 + pts, acc.2 ++ [tag]) else acc

/-- The accumulation of `scoreEmail` between `let score = 0` and the clamp:
the unclamped total and the signal list, the steps taken in source order. -/
def accumulate (p : Params) : Int × List Tag :=
  let acc : Int × List Tag := (0, [])
  let acc := addSignal (p.smtpStatus == SmtpStatus.valid) SCORES.smtpValid Tag.smtp_verified acc
  let acc := addSignal p.foundOnWebsite SCORES.foundOnWebsite Tag.found_on_website acc
  let acc := addSignal p.matchesWebsitePattern SCORES.websitePatternMatch Tag.website_pattern acc
  let acc := addSignal (decide (p.websiteEmailCount.getD 0 ≥ 3) && p.matchesWebsitePattern)
    SCORES.multipleWebsiteEmails Tag.strong_pattern acc
  let acc := addSignal p.matchesProviderPattern SCORES.providerPatternMatch Tag.provider_pattern acc
  let acc := addSignal p.hasGravatar SCORES.gravatarFound Tag.gravatar acc
  let acc := addSignal p.disifyValid SCORES.disifyValid Tag.disify_valid acc
  let acc := addSignal p.aiRecommended SCORES.aiRecommends Tag.ai_pick acc
  let acc := addSignal p.hunterConfirmed SCORES.hunterConfirms Tag.hunter_verified acc
  let acc : Int × List Tag := (acc.1 + patternBonus p.patternWeight, acc.2)
  addSignal (p.isCatchAll && p.smtpStatus == SmtpStatus.valid)
    SCORES.catchAllPenalty Tag.catchall_domain acc

/-- The unclamped total of `scoreEmail`. -/
def rawScore (p : Params) : Int := (accumulate p).1

/-- The clamp `Math.max(0, Math.min(100, score))`. -/
def clampScore (s : Int) : Int := max 0 (min 100 s)

/-- The tier chain of `scoreEmail`. -/
def tierOf (score : Int) : Confidence :=
  if score ≥ 75 then Confidence.verified
  else if score ≥ 50 then Confidence.likely
  else if score ≥ 30 then Confidence.possible
  else Confidence.low

/-- The function `scoreEmail`. -/
def scoreEmail (p : Params) : Scored :=
  if p.smtpStatus = SmtpStatus.invalid then
    { email := p.email, score := 0, confidence := Confidence.invalid,
      signals := [Tag.smtp_rejected], method := Tag.smtp_rejected }
  else
    let acc := accumulate p
    let score := clampScore acc.1
    { email := p.email, score := score, confidence := tierOf score,
      signals := acc.2, method := acc.2.headD Tag.pattern }

/-- The stable sort of `Array.prototype.sort`, by insertion: `a` is placed in
front of the first element `b` that the comparator does not order before it
(`before a b` is `compare(a, b) <= 0`), so equal elements keep their order. -/
def insertSorted {α : Type} (before : α → α → Bool) (a : α) : List α → List α
  | [] => [a]
  | b :: l => if before a b then a :: b :: l else b :: insertSorted before a l

/-- The stable sort of a list under the comparator `before`. -/
def stableSort {α : Type} (before : α → α → Bool) : List α → List α
  | [] => []
  | a :: l => insertSorted before a (stableSort before l)

/-- The function `scoreAndRank`: map `scoreEmail`, drop tier `invalid`, sort by
`b.score - a.score`. -/
def scoreAndRank (results : List Params) : List Scored :=
  stableSort (fun a b => decide (b.score ≤ a.score))
    ((results.map scoreEmail).filter (fun r => r.confidence != Confidence.invalid))

/-! ## patternGenerator.js -/

/-- The characters `\s` matches and `trim` removes: the ECMAScript white space
and line terminator code points. -/
def isJsSpace (c : Char) : Bool :=
  c.val ∈ [0x09, 0x0A, 0x0B, 0x0C, 0x0D, 0x20, 0xA0, 0x1680, 0x2000, 0x2001, 0x2002,
    0x2003, 0x2004, 0x2005, 0x2006, 0x2007, 0x2008, 0x2009, 0x200A, 0x2028, 0x2029,
    0x202F, 0x205F, 0x3000, 0xFEFF]

/-- The lower-case form of one character under `toLowerCase`. The ASCII capitals
map to their small letters; U+0130 and U+212A are the two other code points
whose lower-case form contains an ASCII letter. Every other character is kept:
its lower-case form is not ASCII either. -/
def lowerChar (c : Char) : List Char :=
  if c.val = 0x130 then ['i', Char.ofNat 0x307]
  else if c.val = 0x212A then ['k']
  else [c.toLower]

/-- The method `String.prototype.toLowerCase`. -/
def toLowerCase (s : JsString) : JsString := s.flatMap lowerChar

/-- The method `String.prototype.trim`. -/
def trim (s : JsString) : JsString :=
  ((s.dropWhile isJsSpace).reverse.dropWhile isJsSpace).reverse

/-- Worker of `splitWs`: `cur` is the current piece, reversed; `inWs` tells
that the previous character was white space. -/
def splitWsAux : List Char → List Char → Bool → List JsString
  | [], cur, _ => [cur.reverse]
  | c :: cs, cur, inWs =>
    if isJsSpace c then
      if inWs then splitWsAux cs cur true else cur.reverse :: splitWsAux cs [] true
    else splitWsAux cs (c :: cur) false

/-- The call `s.split(/\s+/)`: the pieces of `s` between maximal runs of white
space (the empty string gives one empty piece). -/
def splitWs (s : JsString) : List JsString := splitWsAux s [] false

/-- The call `s.replace(/[^a-z]/g, '')`. -/
def stripNonLetters (s : JsString) : JsString :=
  s.filter (fun c => decide ('a' ≤ c ∧ c ≤ 'z'))

/-- The token `f`: `firstParts[0].replace(/[^a-z]/g, '')`. -/
def normFirst (firstName : JsString) : JsString :=
  let firstParts := splitWs (trim (toLowerCase firstName))
  stripNonLetters (firstParts.headD [])

/-- The token `l`: `lastParts[lastParts.length - 1].replace(/[^a-z]/g, '')`. -/
def normLast (lastName : JsString) : JsString :=
  let lastParts := splitWs (trim (toLowerCase lastName))
  stripNonLetters (lastParts.getLastD [])

/-- The domain part `d`: `domain.toLowerCase().trim()`. -/
def normDomain (domain : JsString) : JsString := trim (toLowerCase domain)

/-- An entry of `ALL_PATTERNS`. -/
structure Template where
  id : JsString
  fn : JsString → JsString → JsString
  weight : Nat

/-- The table `ALL_PATTERNS`. The expressions `f[0]` and `l[0]` are the first
characters of tokens that the guard of `generatePatterns` has found non-empty. -/
def ALL_PATTERNS : List Template := [
  { id := "first.last".toList, fn := fun f l => f ++ '.' :: l, weight := 33 },
  { id := "first".toList, fn := fun f _ => f, weight := 15 },
  { id := "flast".toList, fn := fun f l => f.take 1 ++ l, weight := 13 },
  { id := "firstlast".toList, fn := fun f l => f ++ l, weight := 10 },
  { id := "first_last".toList, fn := fun f l => f ++ '_' :: l, weight := 5 },
  { id := "f.last".toList, fn := fun f l => f.take 1 ++ '.' :: l, weight := 5 },
  { id := "last.first".toList, fn := fun f l => l ++ '.' :: f, weight := 4 },
  { id := "firstl".toList, fn := fun f l => f ++ l.take 1, weight := 3 },
  { id := "last".toList, fn := fun _ l => l, weight := 3 },
  { id := "lastfirst".toList, fn := fun f l => l ++ f, weight := 2 },
  { id := "last_first".toList, fn := fun f l => l ++ '_' :: f, weight := 2 },
  { id := "lastf".toList, fn := fun f l => l ++ f.take 1, weight := 2 },
  { id := "last.f".toList, fn := fun f l => l ++ '.' :: f.take 1, weight := 1 },
  { id := "first-last".toList, fn := fun f l => f ++ '-' :: l, weight := 1 },
  { id := "f_last".toList, fn := fun f l => f.take 1 ++ '_' :: l, weight := 1 },
  { id := "first.l".toList, fn := fun f l => f ++ '.' :: l.take 1, weight := 1 }]

/-- The property names every plain object inherits from `Object.prototype`. -/
def objectPrototypeKeys : List JsString := [
  "constructor".toList, "__defineGetter__".toList, "__defineSetter__".toList,
  "hasOwnProperty".toList, "__lookupGetter__".toList, "__lookupSetter__".toList,
  "isPrototypeOf".toList, "propertyIsEnumerable".toList, "toString".toList,
  "valueOf".toList, "__proto__".toList, "toLocaleString".toList]

/-- The result of reading a property of `PATTERN_MAP`. -/
inductive Lookup where
  | template (t : Template)
  | inherited
  | undefined

/-- The read `PATTERN_MAP[key]`. The map is the plain object filled from
`ALL_PATTERNS`, so a key that is no template id but names a property of
`Object.prototype` reads that inherited (truthy) value. -/
def PATTERN_MAP (key : JsString) : Lookup :=
  match ALL_PATTERNS.find? (fun p => p.id == key) with
  | some t => Lookup.template t
  | none => if key ∈ objectPrototypeKeys then Lookup.inherited else Lookup.undefined

/-- A generated candidate. -/
structure Candidate where
  email : JsString
  pattern : JsString
  weight : Nat
  deriving DecidableEq, Repr

/-- The closure state of `generatePatterns`: the set `seen` and the array
`results`. -/
structure GenState where
  seen : List JsString
  results : List Candidate

/-- The closure `addPattern(template, extraWeight)`. -/
def addPattern (f l d : JsString) (st : GenState) (template : Template) (extraWeight : Nat) :
    GenState :=
  let local_ := template.fn f l
  let email := local_ ++ '@' :: d
  if email ∈ st.seen then st
  else
    { seen := st.seen ++ [email],
      results := st.results ++
        [{ email := email, pattern := template.id, weight := template.weight + extraWeight }] }

/-- The ways `generatePatterns` throws: its own `required` error, and the
`TypeError` of calling `template.fn` on an inherited property value. -/
inductive GenError where
  | required
  | typeError
  deriving DecidableEq, Repr

/-- The guarded call `if (PATTERN_MAP[key]) addPattern(PATTERN_MAP[key], extra)`. -/
def addIfKnown (f l d : JsString) (st : GenState) (key : JsString) (extra : Nat) :
    Except GenError GenState :=
  match PATTERN_MAP key with
  | Lookup.template t => Except.ok (addPattern f l d st t extra)
  | Lookup.inherited => Except.error GenError.typeError
  | Lookup.undefined => Except.ok st

/-- The loop `for (const pid of providerPatterns)`. -/
def addProviders (f l d : JsString) : GenState → List JsString → Except GenError GenState
  | st, [] => Except.ok st
  | st, pid :: rest =>
    match addIfKnown f l d st pid 20 with
    | Except.ok st1 => addProviders f l d st1 rest
    | Except.error e => Except.error e

/-- The loop `for (const template of ALL_PATTERNS) addPattern(template)`. -/
def addAll (f l d : JsString) (st : GenState) : GenState :=
  ALL_PATTERNS.foldl (fun s t => addPattern f l d s t 0) st

/-- The `options` argument: each field may be absent or `null`. -/
structure Options where
  detectedPattern : Option JsString
  providerPatterns : Option (List JsString)

/-- The comparator `(a, b) => b.weight - a.weight`: `a` is not ordered after
`b` when the difference is not positive. -/
def byWeight (a b : Candidate) : Bool := decide (b.weight ≤ a.weight)

/-- The steps of `generatePatterns` after its guard, on the tokens `f`, `l`
and the domain part `d`. -/
def generateFrom (f l d : JsString) (options : Options) : Except GenError (List Candidate) :=
  let st0 : GenState := { seen := [], results := [] }
  let r1 : Except GenError GenState :=
    match options.detectedPattern with
    | none => Except.ok st0
    | some dp => if dp = [] then Except.ok st0 else addIfKnown f l d st0 dp 50
  match r1 with
  | Except.error e => Except.error e
  | Except.ok st1 =>
    let r2 : Except GenError GenState :=
      match options.providerPatterns with
      | none => Except.ok st1
      | some ps => addProviders f l d st1 ps
    match r2 with
    | Except.error e => Except.error e
    | Except.ok st2 =>
      Except.ok (stableSort byWeight (addAll f l d st2).results)

/-- The function `generatePatterns`. -/
def generatePatterns (firstName lastName domain : JsString) (options : Options) :
    Except GenError (List Candidate) :=
  let f := normFirst firstName
  let l := normLast lastName
  let d := normDomain domain
  if f = [] ∨ l = [] ∨ d = [] then Except.error GenError.required
  else generateFrom f l d options

/-- The address a template yields for the given names and domain. -/
def templateAddress (t : Template) (firstName lastName domain : JsString) : JsString :=
  t.fn (normFirst firstName) (normLast lastName) ++ '@' :: normDomain domain

/-- The characters a local part may be made of: those of the two tokens and the
three separators. -/
def fromTokens (f l : JsString) (ch : Char) : Prop :=
  ch ∈ f ∨ ch ∈ l ∨ ch = '.' ∨ ch = '_' ∨ ch = '-'

/-- The option ids are ordinary: none of them names a property inherited from
`Object.prototype`. The ids `detectPattern` returns and the ids of the
`PROVIDERS` table are ordinary, and so are absent options. -/
def Options.ordinary (o : Options) : Prop :=
  (∀ dp, o.detectedPattern = some dp → dp ∉ objectPrototypeKeys) ∧
    (∀ ps, o.providerPatterns = some ps → ∀ pid ∈ ps, pid ∉ objectPrototypeKeys)

/-- The invariant of the closure state: `seen` holds the addresses of
`results`, these are pairwise distinct, and every element of `results` was
built by a template of the table. -/
def GenState.WellFormed (f l d : JsString) (st : GenState) : Prop :=
  st.seen = st.results.map (fun c => c.email) ∧
    (st.results.map (fun c => c.email)).Nodup ∧
    ∀ c ∈ st.results, ∃ t ∈ ALL_PATTERNS, ∃ extra : Nat,
      c = { email := t.fn f l ++ '@' :: d, pattern := t.id, weight := t.weight + extra }

/-- The sample options: the underscore convention detected on the site, and
the conventions of the `google` entry of `PROVIDERS`. -/
def adaOptions : Options where
  detectedPattern := some "first_last".toList
  providerPatterns := some ["first.last".toList, "firstlast".toList, "first".toList]

/-- The candidates of the sample call, in the order returned. -/
def adaCandidates : List Candidate := [
  { email := "ada_lovelace@example.com".toList, pattern := "first_last".toList, weight := 55 },
  { email := "ada.lovelace@example.com".toList, pattern := "first.last".toList, weight := 53 },
  { email := "ada@example.com".toList, pattern := "first".toList, weight := 35 },
  { email := "adalovelace@example.com".toList, pattern := "firstlast".toList, weight := 30 },
  { email := "alovelace@example.com".toList, pattern := "flast".toList, weight := 13 },
  { email := "a.lovelace@example.com".toList, pattern := "f.last".toList, weight := 5 },
  { email := "lovelace.ada@example.com".toList, pattern := "last.first".toList, weight := 4 },
  { email := "adal@example.com".toList, pattern := "firstl".toList, weight := 3 },
  { email := "lovelace@example.com".toList, pattern := "last".toList, weight := 3 },
  { email := "lovelaceada@example.com".toList, pattern := "lastfirst".toList, weight := 2 },
  { email := "lovelace_ada@example.com".toList, pattern := "last_first".toList, weight := 2 },
  { email := "lovelacea@example.com".toList, pattern := "lastf".toList, weight := 2 },
  { email := "lovelace.a@example.com".toList, pattern := "last.f".toList, weight := 1 },
  { email := "ada-lovelace@example.com".toList, pattern := "first-last".toList, weight := 1 },
  { email := "a_lovelace@example.com".toList, pattern := "f_last".toList, weight := 1 },
  { email := "ada.l@example.com".toList, pattern := "first.l".toList, weight := 1 }]

/-- The array `results` starts with `c0`, and no later element outweighs it. -/
def GenState.HeadedBy (c0 : Candidate) (st : GenState) : Prop :=
  ∃ rest, st.results = c0 :: rest ∧ ∀ c ∈ rest, c.weight ≤ c0.weight

/-- Options with the hyphen convention detected on the site and the
conventions of the `google` entry of `PROVIDERS`. -/
def hyphenOptions : Options where
  detectedPattern := some "first-last".toList
  providerPatterns := some ["first.last".toList, "firstlast".toList, "first".toList]

/-! ## smtpVerifier.js -/

/-- The commands `verifyEmails` writes to the socket. -/
inductive Command where
  /-- The line `EHLO mail.findanymail.com`. -/
  | ehlo
  /-- The line `MAIL FROM:<>`. -/
  | mailFromEmpty
  /-- The line `MAIL FROM:<verify@mail.findanymail.com>`. -/
  | mailFromVerify
  /-- The line `RCPT TO:<email>`. -/
  | rcptTo (email : JsString)
  /-- The line `RSET`. -/
  | rset
  /-- The line `QUIT`. -/
  | quit
  deriving DecidableEq, Repr

/-- What `verifyEmails` does on the network: `net.createConnection`, a command
written to the socket, `socket.destroy()`. -/
inductive Action where
  | connect
  | send (c : Command)
  | destroy
  deriving DecidableEq, Repr

/-- The ways the connection promise of `verifyEmails` settles: the socket
connects, it emits an error, or the timer fires (and destroys the socket). -/
inductive ConnectResult where
  | connected
  | failed
  | timedOut
  deriving DecidableEq, Repr

/-- The server and the network as one call of `verifyEmails` meets them.
`connect` tells how the connection attempt ends; `greeting` is the code `readResponse` resolves with for the
greeting, `none` when it rejects (timeout or socket error); `reply sent c` is
the same for the command `c`, written after the commands `sent`. -/
structure Network where
  connect : ConnectResult
  greeting : Option Int
  reply : List Command → Command → Option Int

/-- An element of the array `verifyEmails` returns; `code` is `null` or the
reply code. -/
structure ProbeOutcome where
  email : JsString
  status : SmtpStatus
  code : Option Int
  deriving DecidableEq, Repr

/-- The state of the session loop: the array `results` and the commands
written so far. -/
structure Session where
  results : List ProbeOutcome
  sent : List Command

/-- The call `sendCommand(socket, command)`: the command is written and the
reply awaited; `none` is a rejected promise. -/
def sendCommand (net : Network) (s : Session) (c : Command) : Session × Option Int :=
  ({ s with sent := s.sent ++ [c] }, net.reply s.sent c)

/-- The statement `results.push(...)`. -/
def pushResult (s : Session) (r : ProbeOutcome) : Session :=
  { s with results := s.results ++ [r] }

/-- The status chain on the `RCPT TO` reply code. -/
def classify (code : Int) : SmtpStatus :=
  if code = 250 ∨ code = 251 then SmtpStatus.valid
  else if code ≥ 550 ∧ code ≤ 559 then SmtpStatus.invalid
  else if code ≥ 450 ∧ code ≤ 459 then SmtpStatus.unknown
  else SmtpStatus.unknown

/-- The loop body from `RCPT TO` on: the verdict is pushed, then `RSET` is
sent; a rejected promise at either command runs the `catch` of the body, which
pushes an `error` outcome. -/
def rcptPhase (net : Network) (s : Session) (email : JsString) : Session :=
  match sendCommand net s (Command.rcptTo email) with
  | (s1, none) => pushResult s1 { email := email, status := SmtpStatus.error, code := none }
  | (s1, some code) =>
    let s2 := pushResult s1 { email := email, status := classify code, code := some code }
    match sendCommand net s2 Command.rset with
    | (s3, none) => pushResult s3 { email := email, status := SmtpStatus.error, code := none }
    | (s3, some _) => s3

/-- One iteration of the loop `for (let i = 0; i < emails.length; i++)`. -/
def probeOne (net : Network) (s : Session) (email : JsString) : Session :=
  match sendCommand net s Command.mailFromEmpty with
  | (s1, none) => pushResult s1 { email := email, status := SmtpStatus.error, code := none }
  | (s1, some c1) =>
    if c1 ≠ 250 then
      match sendCommand net s1 Command.mailFromVerify with
      | (s2, none) => pushResult s2 { email := email, status := SmtpStatus.error, code := none }
      | (s2, some c2) =>
        if c2 ≠ 250 then
          pushResult s2 { email := email, status := SmtpStatus.error, code := some c2 }
        else rcptPhase net s2 email
    else rcptPhase net s1 email

/-- One step of the outer `catch` loop of `verifyEmails`. -/
def markError (res : List ProbeOutcome) (email : JsString) : List ProbeOutcome :=
  if res.any (fun r => r.email == email) then res
  else res ++ [{ email := email, status := SmtpStatus.error, code := none }]

/-- The outer `catch`: every address without an entry in `results` gets an
`error` outcome. -/
def markAllError (emails : List JsString) (results : List ProbeOutcome) : List ProbeOutcome :=
  emails.foldl markError results

/-- The function `verifyEmails`: the array it resolves with, and the trace of
its network actions. The host argument only names the peer, which `net`
stands for. -/
def verifyEmails (net : Network) (emails : List JsString) : List ProbeOutcome × List Action :=
  match net.connect with
  | ConnectResult.failed => (markAllError emails [], [Action.connect])
  | ConnectResult.timedOut => (markAllError emails [], [Action.connect, Action.destroy])
  | ConnectResult.connected =>
    match net.greeting with
    | none => (markAllError emails [], [Action.connect, Action.destroy])
    | some g =>
      if g ≠ 220 then (markAllError emails [], [Action.connect, Action.destroy])
      else
        match sendCommand net { results := [], sent := [] } Command.ehlo with
        | (s0, none) =>
          (markAllError emails s0.results,
            Action.connect :: (s0.sent.map Action.send ++ [Action.destroy]))
        | (s0, some e) =>
          if e ≠ 250 then
            (markAllError emails s0.results,
              Action.connect :: (s0.sent.map Action.send ++ [Action.destroy]))
          else
            let s1 := emails.foldl (probeOne net) s0
            (s1.results,
              Action.connect :: ((s1.sent ++ [Command.quit]).map Action.send ++ [Action.destroy]))

/-! ## Sample inputs -/

/-- A network on which every reply is 250 except that the reply to `RSET`
never arrives. -/
def rsetTimeoutNet : Network where
  connect := ConnectResult.connected
  greeting := some 220
  reply := fun _ c => if c = Command.rset then none else some 250

/-- A network that refuses the connection. -/
def refusedNet : Network where
  connect := ConnectResult.failed
  greeting := none
  reply := fun _ _ => none

/-- A server that accepts everything. -/
def acceptAllNet : Network where
  connect := ConnectResult.connected
  greeting := some 220
  reply := fun _ _ => some 250

/-- A network on which the greeting is 554 (service not available). -/
def badGreetingNet : Network where
  connect := ConnectResult.connected
  greeting := some 554
  reply := fun _ _ => some 250

/-- The commands written for one address when every reply is 250. -/
def acceptedCommands (email : JsString) : List Command :=
  [Command.mailFromEmpty, Command.rcptTo email, Command.rset]

/-- A record with transport status `valid` and the address found on the site,
with the given catch-all flag. -/
def foundValidParams (catchAll : Bool) : Params where
  email := "ada.lovelace@example.com".toList
  smtpStatus := SmtpStatus.valid
  patternWeight := some 33
  matchesWebsitePattern := false
  foundOnWebsite := true
  matchesProviderPattern := false
  hasGravatar := false
  aiRecommended := false
  hunterConfirmed := false
  isCatchAll := catchAll
  disifyValid := false
  websiteEmailCount := none

/-- A record with transport status `invalid` and every other signal present. -/
def rejectedParams : Params where
  email := "ada.lovelace@example.com".toList
  smtpStatus := SmtpStatus.invalid
  patternWeight := some 83
  matchesWebsitePattern := true
  foundOnWebsite := true
  matchesProviderPattern := true
  hasGravatar := true
  aiRecommended := true
  hunterConfirmed := true
  isCatchAll := false
  disifyValid := true
  websiteEmailCount := some 5

/-- A network on which the recipient query is answered with the given code and
every other reply is 250. -/
def rcptReplyNet (code : Int) : Network where
  connect := ConnectResult.connected
  greeting := some 220
  reply := fun _ c =>
    match c with
    | Command.rcptTo _ => some code
    | _ => some 250

/-! ## emailFinder.js: candidates, probe, scoring -/

/-- The call `s.includes(sub)`: `sub` occurs in `s`. -/
def includes (s sub : JsString) : Bool :=
  s.tails.any (fun t => sub.isPrefixOf t)

/-- The call `s.split('@')`: the pieces of `s` between the `@` characters. -/
def splitAt : JsString → List JsString
  | [] => [[]]
  | c :: cs =>
    if c = '@' then [] :: splitAt cs
    else
      match splitAt cs with
      | [] => [[c]]
      | piece :: rest => (c :: piece) :: rest

/-- What `findEmail` has collected when it builds the scoring input: the probe
outcomes, the scrape result (`detectedPattern`, `domainEmails`), the provider
conventions, the two maps of external checks, the pick of the AI analysis, the
address of the enrichment API, and the catch-all flag. -/
structure Collected where
  smtpResults : List ProbeOutcome
  detectedPattern : Option JsString
  domainEmails : List JsString
  preferredPatterns : Option (List JsString)
  gravatarResults : JsString → Option Bool
  disifyResults : JsString → Option Bool
  aiBestEmail : Option JsString
  hunterFinderEmail : Option JsString
  isCatchAll : Bool

/-- The array `targetEmailsOnSite`: the site addresses whose local part holds
the lower-cased first or last name. -/
def targetEmailsOnSite (firstName lastName : JsString) (domainEmails : List JsString) :
    List JsString :=
  domainEmails.filter (fun e =>
    let local_ := toLowerCase ((splitAt e).headD [])
    includes local_ (toLowerCase firstName) || includes local_ (toLowerCase lastName))

/-- The array `scoringInput`: one signal record per candidate. -/
def scoringInput (firstName lastName : JsString) (c : Collected) (patterns : List Candidate) :
    List Params :=
  patterns.map (fun p =>
    let smtp := c.smtpResults.find? (fun r => r.email == p.email)
    { email := p.email,
      smtpStatus := match smtp with
        | some r => r.status
        | none => SmtpStatus.error,
      patternWeight := some (p.weight : Int),
      matchesWebsitePattern := c.detectedPattern == some p.pattern,
      foundOnWebsite :=
        (targetEmailsOnSite firstName lastName c.domainEmails).contains p.email
          || c.domainEmails.contains p.email,
      matchesProviderPattern := match c.preferredPatterns with
        | some ps => ps.contains p.pattern
        | none => false,
      hasGravatar := (c.gravatarResults p.email).getD false,
      aiRecommended := c.aiBestEmail == some p.email,
      hunterConfirmed := c.hunterFinderEmail == some p.email,
      isCatchAll := c.isCatchAll,
      disifyValid := (c.disifyResults p.email).getD false,
      websiteEmailCount := some c.domainEmails.length })

/-- The stages of `findEmail` from pattern generation to ranking: the
candidates are generated with the hints of the scrape and of the provider, all
probed on one connection, and scored and ranked with the other signals given in
`c` (whose `smtpResults` are replaced by the outcomes of the probe). An
exception of `generatePatterns` is not caught. -/
def rankCandidates (firstName lastName domain : JsString) (net : Network) (c : Collected) :
    Except GenError (List Scored) :=
  match generatePatterns firstName lastName domain
      { detectedPattern := c.detectedPattern, providerPatterns := c.preferredPatterns } with
  | Except.error e => Except.error e
  | Except.ok patterns =>
    let smtpResults := (verifyEmails net (patterns.map (fun p => p.email))).1
    Except.ok (scoreAndRank (scoringInput firstName lastName { c with smtpResults := smtpResults }
      patterns))

/-- A transport that accepts `ada.lovelace@example-co.test` (250) and rejects
every other recipient (550). -/
def adaNet : Network where
  connect := ConnectResult.connected
  greeting := some 220
  reply := fun _ c =>
    match c with
    | Command.rcptTo e => if e = "ada.lovelace@example-co.test".toList then some 250 else some 550
    | _ => some 250

/-- No site addresses, no detected convention, no provider conventions, not
catch-all, and no other signal. -/
def noSignals : Collected where
  smtpResults := []
  detectedPattern := none
  domainEmails := []
  preferredPatterns := none
  gravatarResults := fun _ => none
  disifyResults := fun _ => none
  aiBestEmail := none
  hunterFinderEmail := none
  isCatchAll := false

/-! ## cache.js -/

/-- An entry of the store: the value and the instant `expires`. -/
structure CacheEntry (α : Type) where
  value : α
  expires : Int

/-- An instance of `Cache`: the map `store` and `defaultTtl`. Instants and
durations are integer milliseconds. -/
structure Cache (κ α : Type) where
  store : κ → Option (CacheEntry α)
  defaultTtl : Int

/-- The constructor `new Cache(defaultTtl = 5 * 60 * 1000)`. -/
def Cache.create {κ α : Type} (defaultTtl : Option Int) : Cache κ α where
  store := fun _ => none
  defaultTtl := defaultTtl.getD (5 * 60 * 1000)

/-- The method `get(key)` at the instant `now`: the value returned (`none` is
`null`) and the instance afterwards. -/
def Cache.get {κ α : Type} [DecidableEq κ] (c : Cache κ α) (key : κ) (now : Int) :
    Option α × Cache κ α :=
  match c.store key with
  | none => (none, c)
  | some entry =>
    if now > entry.expires then
      (none, { c with store := fun k => if k = key then none else c.store k })
    else (some entry.value, c)

/-- The value of `ttl || this.defaultTtl`. -/
def Cache.ttlOr {κ α : Type} (c : Cache κ α) (ttl : Option Int) : Int :=
  match ttl with
  | none => c.defaultTtl
  | some t => if t = 0 then c.defaultTtl else t

/-- The method `set(key, value, ttl)` at the instant `now`. -/
def Cache.set {κ α : Type} [DecidableEq κ] (c : Cache κ α) (key : κ) (value : α)
    (ttl : Option Int) (now : Int) : Cache κ α :=
  { c with store := fun k =>
      if k = key then some { value := value, expires := now + c.ttlOr ttl } else c.store k }

/-- The method `has(key)` at the instant `now`. -/
def Cache.has {κ α : Type} [DecidableEq κ] (c : Cache κ α) (key : κ) (now : Int) :
    Bool × Cache κ α :=
  ((c.get key now).1.isSome, (c.get key now).2)

/-- The method `clear()`. -/
def Cache.clear {κ α : Type} (c : Cache κ α) : Cache κ α :=
  { c with store := fun _ => none }

/-- A call of a method of a cache instance, with the instant at which it reads
the clock. -/
inductive CacheOp (κ α : Type) where
  | get (key : κ) (now : Int)
  | has (key : κ) (now : Int)
  | set (key : κ) (value : α) (ttl : Option Int) (now : Int)
  | clear

/-- The instance after a call. -/
def CacheOp.apply {κ α : Type} [DecidableEq κ] (c : Cache κ α) : CacheOp κ α → Cache κ α
  | CacheOp.get key now => (c.get key now).2
  | CacheOp.has key now => (c.has key now).2
  | CacheOp.set key value ttl now => c.set key value ttl now
  | CacheOp.clear => c.clear

/-- The instance after a sequence of calls. -/
def Cache.run {κ α : Type} [DecidableEq κ] (c : Cache κ α) (ops : List (CacheOp κ α)) :
    Cache κ α :=
  ops.foldl CacheOp.apply c

/-- The call is a `set` of the key or a `clear`. -/
def CacheOp.resets {κ α : Type} [DecidableEq κ] (key : κ) : CacheOp κ α → Bool
  | CacheOp.set k _ _ _ => decide (k = key)
  | CacheOp.clear => true
  | _ => false

/-- The call reads the clock at an instant not later than `t`. -/
def CacheOp.notAfter {κ α : Type} (t : Int) : CacheOp κ α → Bool
  | CacheOp.get _ now => decide (now ≤ t)
  | CacheOp.has _ now => decide (now ≤ t)
  | CacheOp.set _ _ _ now => decide (now ≤ t)
  | CacheOp.clear => true

/-! ## emailVerifier.js -/

/-- The class `[a-zA-Z0-9._%+-]` of `emailRegex`. -/
def isLocalChar (c : Char) : Bool :=
  c.isAlphanum || c = '.' || c = '_' || c = '%' || c = '+' || c = '-'

/-- The class `[a-zA-Z0-9.-]` of `emailRegex`. -/
def isDomainChar (c : Char) : Bool :=
  c.isAlphanum || c = '.' || c = '-'

/-- The test `emailRegex.test(s)` for
`/^[a-zA-Z0-9._%+-]+@[a-zA-Z0-9.-]+\.[a-zA-Z]{2,}$/`: one `@`; before it a
non-empty run of the first class; after it a non-empty run of the second
class, a dot, and two or more letters up to the end. The letters hold no dot,
so the dot of the pattern is the last dot of the string. -/
def emailRegexTest (s : JsString) : Bool :=
  match splitAt s with
  | [local_, rest] =>
    let tld := (rest.reverse.takeWhile (fun c => c != '.')).reverse
    let beforeTld := rest.reverse.dropWhile (fun c => c != '.')
    !local_.isEmpty && local_.all isLocalChar &&
      (match beforeTld with
        | [] => false
        | _ :: host => !host.isEmpty && host.all isDomainChar) &&
      decide (2 ≤ tld.length) && tld.all Char.isAlpha
  | _ => false

/-- The fields of the result of `getDomainIntelligence` that `verifyEmail`
reads. -/
structure DnsInfo where
  hasMx : Bool
  error : Option String
  provider : String
  preferredMx : Option JsString

/-- The function `checkCatchAll`: one probe of the address
`xq9z7m2k4j_test_<stamp>@<domain>` on a connection of its own; `stamp` is the
decimal form of `Date.now()`. -/
def checkCatchAll (net : Network) (stamp domain : JsString) : Bool :=
  let garbage := "xq9z7m2k4j_test_".toList ++ stamp ++ '@' :: domain
  match (verifyEmails net [garbage]).1.head? with
  | some r => r.status == SmtpStatus.valid
  | none => false

/-- The function `isRoleBased`. -/
def isRoleBased (email : JsString) : Bool :=
  let local_ := toLowerCase ((splitAt email).headD [])
  ["info".toList, "contact".toList, "support".toList, "office".toList, "hello".toList,
    "admin".toList, "sales".toList, "hr".toList, "marketing".toList, "press".toList,
    "media".toList, "team".toList, "jobs".toList, "careers".toList, "billing".toList,
    "help".toList, "noreply".toList, "no-reply".toList, "webmaster".toList,
    "postmaster".toList, "abuse".toList, "security".toList, "feedback".toList].contains local_

/-- What `verifyEmail` meets outside itself: the answer of
`getDomainIntelligence` for a domain, the connection of its probe, the
connection and the time stamp of `checkCatchAll`, the answer of `hasGravatar`,
and the two readings of the clock. -/
structure VerifyEnv where
  dns : JsString → DnsInfo
  smtpNet : Network
  catchAllNet : Network
  stamp : JsString
  gravatar : JsString → Bool
  start : Int
  finish : Int

/-- The values of the `status` property. -/
inductive VerifyStatus where
  | valid
  | invalid
  | risky
  | unknown
  deriving DecidableEq, Repr

/-- The three shapes of the `details` property: `{}`, `{ domain, hasMx: false }`,
and the full record. -/
inductive VerifyDetails where
  | empty
  | noMx (domain : JsString)
  | full (domain : JsString) (provider : String) (mxServer : Option JsString)
      (smtpCode : Option Int) (isCatchAll : Bool) (hasGravatar : Bool) (isRoleBased : Bool)
      (isDisposable : Bool)
  deriving DecidableEq, Repr

/-- The object `verifyEmail` returns; `status` is `none` when the object has no
`status` property. -/
structure VerifyResult where
  email : JsString
  valid : Bool
  status : Option VerifyStatus
  reason : String
  details : VerifyDetails
  duration : Int
  deriving DecidableEq, Repr

/-- The chain that sets `status` and `reason` from the probe status and the
catch-all flag. -/
def verdict (smtpStatus : SmtpStatus) (isCatchAll : Bool) : VerifyStatus × String :=
  if smtpStatus = SmtpStatus.valid then
    if isCatchAll then
      (VerifyStatus.risky, "Email accepted but domain is catch-all — accepts any address.")
    else (VerifyStatus.valid, "Email exists on the mail server.")
  else if smtpStatus = SmtpStatus.invalid then
    (VerifyStatus.invalid, "Email rejected by mail server (mailbox does not exist).")
  else (VerifyStatus.unknown, "Could not determine — SMTP returned inconclusive result.")

/-- The way `verifyEmail` can throw: reading `status` of an absent
`smtpResults[0]`. -/
inductive VerifyError where
  | typeError
  deriving DecidableEq, Repr

/-- The function `verifyEmail`. -/
def verifyEmail (env : VerifyEnv) (email : JsString) : Except VerifyError VerifyResult :=
  let normalized := trim (toLowerCase email)
  if !emailRegexTest normalized then
    Except.ok { email := normalized, valid := false, status := none,
                reason := "Invalid email format.", details := VerifyDetails.empty,
                duration := env.finish - env.start }
  else
    let domain := (splitAt normalized).getD 1 []
    let dnsInfo := env.dns domain
    if !dnsInfo.hasMx then
      Except.ok { email := normalized, valid := false, status := none,
                  reason := match dnsInfo.error with
                    | some msg => if msg = "" then "Domain has no mail server." else msg
                    | none => "Domain has no mail server.",
                  details := VerifyDetails.noMx domain,
                  duration := env.finish - env.start }
    else
      let smtpResults := (verifyEmails env.smtpNet [normalized]).1
      let isCatchAll := checkCatchAll env.catchAllNet env.stamp domain
      let gravatarExists := env.gravatar normalized
      match smtpResults.head? with
      | none => Except.error VerifyError.typeError
      | some smtpResult =>
        let v := verdict smtpResult.status isCatchAll
        Except.ok { email := normalized, valid := v.1 == VerifyStatus.valid, status := some v.1,
                    reason := v.2,
                    details := VerifyDetails.full domain dnsInfo.provider dnsInfo.preferredMx
                      smtpResult.code isCatchAll gravatarExists (isRoleBased normalized) false,
                    duration := env.finish - env.start }

/-- An environment in which the domain has a mail exchange, the probe is
accepted and the domain is not catch-all. -/
def acceptingEnv : VerifyEnv where
  dns := fun _ => { hasMx := true, error := none, provider := "Custom",
                    preferredMx := some "mx.example.com".toList }
  smtpNet := acceptAllNet
  catchAllNet := rcptReplyNet 550
  stamp := "1700000000000".toList
  gravatar := fun _ => false
  start := 0
  finish := 120

/-- An environment in which no domain has a mail exchange. -/
def noMxEnv : VerifyEnv where
  dns := fun _ => { hasMx := false, error := some "No MX records found.", provider := "Unknown",
                    preferredMx := none }
  smtpNet := refusedNet
  catchAllNet := refusedNet
  stamp := "1700000000000".toList
  gravatar := fun _ => false
  start := 0
  finish := 15

/-! ## csvProcessor.js -/

/-- A row handed to `processBulk`: the properties it reads, each possibly
absent. -/
structure Row where
  firstName : Option JsString
  lastName : Option JsString
  domainOrCompany : Option JsString
  domain : Option JsString
  company : Option JsString
  deriving DecidableEq, Repr

/-- The value of `a || b` for two strings, the first possibly absent: an absent
or empty `a` gives `b`. -/
def orElse (a : Option JsString) (b : JsString) : JsString :=
  match a with
  | none => b
  | some s => if s = [] then b else s

/-- The argument of `findEmail`. -/
structure FindRequest where
  firstName : JsString
  lastName : JsString
  domainOrCompany : JsString
  deriving DecidableEq, Repr

/-- The object `processBulk` passes to `findEmail` for a row. -/
def requestOf (row : Row) : FindRequest where
  firstName := orElse row.firstName []
  lastName := orElse row.lastName []
  domainOrCompany := orElse row.domainOrCompany (orElse row.domain (orElse row.company []))

/-- How the promise of one `findEmail` call settles: it resolves with
`{ results, meta }`, or it rejects with an error that has a message. The type
`μ` is that of the metadata. -/
inductive Settlement (μ : Type) where
  | resolved (results : List Scored) (meta : μ)
  | rejected (message : String)

/-- The `confidence` of an entry: a tier of the scorer, `'none'` or `'error'`. -/
inductive BulkConfidence where
  | tier (c : Confidence)
  | none
  | error
  deriving DecidableEq, Repr

/-- The `method` of an entry: a tag of the scorer, `''` or `'error'`. -/
inductive BulkMethod where
  | tag (t : Tag)
  | empty
  | error
  deriving DecidableEq, Repr

/-- An entry of the array `processBulk` resolves with: the properties of the
row (`...row`) and those the callbacks add; `allResults`, `meta` and `error` are
`none` where the object has no such property. -/
structure BulkEntry (μ : Type) where
  row : Row
  email : JsString
  confidence : BulkConfidence
  score : Int
  method : BulkMethod
  allResults : Option (List Scored)
  meta : Option μ
  error : Option String

/-- The entry the `then` or the `catch` callback writes for a row. -/
def entryOf {μ : Type} (row : Row) : Settlement μ → BulkEntry μ
  | Settlement.resolved results meta =>
    let best := results.head?
    { row := row,
      email := match best with
        | some b => b.email
        | none => [],
      confidence := match best with
        | some b => BulkConfidence.tier b.confidence
        | none => BulkConfidence.none,
      score := match best with
        | some b => b.score
        | none => 0,
      method := match best with
        | some b => BulkMethod.tag b.method
        | none => BulkMethod.empty,
      allResults := some (results.take 5),
      meta := some meta,
      error := none }
  | Settlement.rejected message =>
    { row := row, email := [], confidence := BulkConfidence.error, score := 0,
      method := BulkMethod.error, allResults := none, meta := none, error := some message }

/-- The state of one call of `processBulk`: the array `results` (a hole is
`none`), the counters `completed`, `running` and `index`, the indices of the
lookups started and not yet settled, and the value the promise is resolved
with, if it is. -/
structure BulkState (μ : Type) where
  results : List (Option (BulkEntry μ))
  completed : Nat
  running : Nat
  index : Nat
  pending : List Nat
  resolved : Option (List (Option (BulkEntry μ)))

/-- The state before the first call of `startNext`, for `n` rows. -/
def BulkState.init {μ : Type} (n : Nat) : BulkState μ where
  results := List.replicate n none
  completed := 0
  running := 0
  index := 0
  pending := []
  resolved := none

/-- The body of the loop of `startNext` up to the call of `findEmail`: the
lookup for the row at `index` is started. -/
def startOne {μ : Type} (s : BulkState μ) : BulkState μ :=
  { s with index := s.index + 1, running := s.running + 1, pending := s.pending ++ [s.index] }

/-- The loop `while (running < concurrency && index < rows.length)`, with a
bound on its iterations. -/
def startLoop {μ : Type} (concurrency n : Nat) : Nat → BulkState μ → BulkState μ
  | 0, s => s
  | fuel + 1, s =>
    if s.running < concurrency ∧ s.index < n then startLoop concurrency n fuel (startOne s)
    else s

/-- The function `startNext`: every iteration of its loop advances `index`, so
`n - index` iterations are all it can make. -/
def startNext {μ : Type} (concurrency n : Nat) (s : BulkState μ) : BulkState μ :=
  startLoop concurrency n (n - s.index) s

/-- The callbacks of the lookup of slot `i` up to the test of `completed`: the
entry is written to the slot, `completed` and `running` are updated, and the
promise is resolved when every row is completed. No `onProgress` callback is
given (its default, `null`). -/
def finishOne {μ : Type} (rows : List Row) (lookup : Nat → FindRequest → Settlement μ) (i : Nat)
    (s : BulkState μ) : BulkState μ :=
  match rows[i]? with
  | none => s
  | some row =>
    let s1 : BulkState μ :=
      { s with results := s.results.set i (some (entryOf row (lookup i (requestOf row)))),
               completed := s.completed + 1,
               running := s.running - 1,
               pending := s.pending.erase i }
    if s1.completed = rows.length then { s1 with resolved := some s1.results } else s1

/-- The settlement of the lookup of slot `i`: its callbacks run, and unless
every row is completed `startNext` is called. -/
def settle {μ : Type} (rows : List Row) (concurrency : Nat)
    (lookup : Nat → FindRequest → Settlement μ) (i : Nat) (s : BulkState μ) : BulkState μ :=
  let s1 := finishOne rows lookup i s
  if s1.completed = rows.length then s1 else startNext concurrency rows.length s1

/-- The function `processBulk`, run until the settlements listed in `order` have
happened: `lookup i req` is how the lookup of slot `i` settles, and each number
of `order` picks, among the lookups pending at that moment, the one that
settles next (the number modulo their count). The promise returned is resolved
with `resolved`, or still pending when that is `none`. -/
def processBulk {μ : Type} (rows : List Row) (concurrency : Option Nat)
    (lookup : Nat → FindRequest → Settlement μ) (order : List Nat) : BulkState μ :=
  order.foldl
    (fun s pick =>
      match s.pending[pick % s.pending.length]? with
      | some i => settle rows (concurrency.getD 10) lookup i s
      | none => s)
    (startNext (concurrency.getD 10) rows.length (BulkState.init rows.length))

/-- A step of `processBulk`: a lookup is started by the loop of `startNext`, or,
once that loop has ended, a pending lookup settles. -/
inductive BulkStep {μ : Type} (rows : List Row) (concurrency : Nat)
    (lookup : Nat → FindRequest → Settlement μ) : BulkState μ → BulkState μ → Prop where
  | start (s : BulkState μ) (hr : s.running < concurrency) (hi : s.index < rows.length) :
      BulkStep rows concurrency lookup s (startOne s)
  | finish (s : BulkState μ) (i : Nat)
      (hidle : ¬ (s.running < concurrency ∧ s.index < rows.length)) (hi : i ∈ s.pending) :
      BulkStep rows concurrency lookup s (finishOne rows lookup i s)

/-- The states `processBulk` can be in. -/
inductive BulkReachable {μ : Type} (rows : List Row) (concurrency : Nat)
    (lookup : Nat → FindRequest → Settlement μ) : BulkState μ → Prop where
  | init : BulkReachable rows concurrency lookup (BulkState.init rows.length)
  | step (s t : BulkState μ) (hs : BulkReachable rows concurrency lookup s)
      (hst : BulkStep rows concurrency lookup s t) : BulkReachable rows concurrency lookup t

/-- The counters agree with the pending lookups: `running` counts them, they
are distinct and below `index`, `running + completed = index <= n`, and
`running` is within the cap. -/
def BulkState.Counts {μ : Type} (n concurrency : Nat) (s : BulkState μ) : Prop :=
  s.running = s.pending.length ∧ s.pending.Nodup ∧ (∀ i ∈ s.pending, i < s.index) ∧
    s.running + s.completed = s.index ∧ s.index ≤ n ∧ s.running ≤ concurrency

/-- The entry of slot `j` once its lookup has settled. -/
def slotEntry {μ : Type} (rows : List Row) (lookup : Nat → FindRequest → Settlement μ) (j : Nat) :
    Option (BulkEntry μ) :=
  (rows[j]?).map (fun row => entryOf row (lookup j (requestOf row)))

/-- The array `results` has one slot per row; the slot of a settled lookup holds
its entry and every other slot is a hole; and the promise is resolved, with
`results`, exactly when every row is completed. -/
def BulkState.Slots {μ : Type} (rows : List Row) (lookup : Nat → FindRequest → Settlement μ)
    (s : BulkState μ) : Prop :=
  s.results.length = rows.length ∧
    (∀ j, j < rows.length → s.results[j]? =
      some (if j < s.index ∧ j ∉ s.pending then slotEntry rows lookup j else none)) ∧
    s.resolved = (if s.completed = rows.length then some s.results else none)

/-- Three sample rows. -/
def sampleRows : List Row := [
  { firstName := some "Ada".toList, lastName := some "Lovelace".toList,
    domainOrCompany := some "example-co.test".toList, domain := none, company := none },
  { firstName := some "Alan".toList, lastName := some "Turing".toList,
    domainOrCompany := none, domain := some "example.org".toList, company := none },
  { firstName := none, lastName := some "Hopper".toList,
    domainOrCompany := none, domain := none, company := some "Navy".toList }]

/-- Sample settlements: the lookup of slot 1 rejects, the others resolve with
no result. -/
def sampleLookup (i : Nat) (_ : FindRequest) : Settlement Unit :=
  if i = 1 then Settlement.rejected "boom" else Settlement.resolved [] ()

/-- The boosts `generatePatterns` may give a template under the given options:
50 when the template is the detected convention, 20 when it is one of the
provider conventions, or none. -/
def allowedBoost (options : Options) (t : Template) (extra : Nat) : Prop :=
  (extra = 50 ∧ options.detectedPattern = some t.id) ∨
    (extra = 20 ∧ ∃ ps, options.providerPatterns = some ps ∧ t.id ∈ ps) ∨
    extra = 0

/-- Every element of `results` was built by a template of the table with one
boost that the options allow for it. -/
def GenState.Boosted (options : Options) (f l d : JsString) (st : GenState) : Prop :=
  ∀ c ∈ st.results, ∃ t ∈ ALL_PATTERNS, ∃ extra : Nat, allowedBoost options t extra ∧
    c = { email := t.fn f l ++ '@' :: d, pattern := t.id, weight := t.weight + extra }

/-- Options with the dotted convention both detected on the site and preferred
by the provider. -/
def dottedOptions : Options where
  detectedPattern := some "first.last".toList
  providerPatterns := some ["first.last".toList, "firstlast".toList, "first".toList]

/-! ## websiteScraper.js: detectPattern -/

/-- The property `s.length`: the number of UTF-16 code units of the string. -/
def jsLength (s : JsString) : Nat :=
  (s.map (fun c => if c.val ≥ 0x10000 then 2 else 1)).sum

/-- The call `s.split(sep)` for a separator of one character. -/
def splitChar (sep : Char) : JsString → List JsString
  | [] => [[]]
  | c :: cs =>
    if c = sep then [] :: splitChar sep cs
    else
      match splitChar sep cs with
      | [] => [[c]]
      | piece :: rest => (c :: piece) :: rest

/-- The local parts `detectPattern` skips as generic. -/
def genericLocals : List JsString := [
  "info".toList, "contact".toList, "support".toList, "office".toList, "hello".toList,
  "admin".toList, "sales".toList, "hr".toList, "marketing".toList, "press".toList,
  "media".toList, "team".toList, "jobs".toList, "careers".toList, "billing".toList,
  "help".toList, "no-reply".toList, "noreply".toList, "webmaster".toList, "postmaster".toList]

/-- The shape `detectPattern` votes for on a local part, if any: the chain of
tests in the body of its loop. -/
def shapeOf (local_ : JsString) : Option JsString :=
  if '.' ∈ local_ then
    match splitChar '.' local_ with
    | [a, b] =>
      if jsLength a > 1 ∧ jsLength b > 1 then some "first.last".toList
      else if jsLength a = 1 then some "f.last".toList
      else if jsLength b = 1 then some "first.l".toList
      else none
    | _ => none
  else if '_' ∈ local_ then some "first_last".toList
  else if '-' ∈ local_ then some "first-last".toList
  else if jsLength local_ ≤ 15 ∧ local_ ≠ [] ∧
      local_.all (fun c => decide ('a' ≤ c ∧ c ≤ 'z')) = true then
    some "firstlast".toList
  else none

/-- The statement `patterns[key] = (patterns[key] || 0) + 1` on the object
`patterns`, kept as the list of its entries in insertion order. -/
def castVote : List (JsString × Nat) → JsString → List (JsString × Nat)
  | [], key => [(key, 1)]
  | (k, n) :: rest, key =>
    if k = key then (k, n + 1) :: rest else (k, n) :: castVote rest key

/-- One step of the loop over `Object.entries(patterns)`: a count strictly above
`topCount` replaces the top. -/
def pickTop (acc : Option JsString × Nat) (entry : JsString × Nat) : Option JsString × Nat :=
  if entry.2 > acc.2 then (some entry.1, entry.2) else acc

/-- The object `detectPattern` returns; `patternCounts` is `none` where the
object has no such property. -/
structure PatternInfo where
  pattern : Option JsString
  sampleEmails : List JsString
  patternCounts : Option (List (JsString × Nat))
  deriving DecidableEq, Repr

/-- The function `detectPattern`. -/
def detectPattern (emails : List JsString) (domain : JsString) : PatternInfo :=
  let domainEmails := emails.filter (fun e => ('@' :: domain).isSuffixOf e)
  if domainEmails.length = 0 then
    { pattern := none, sampleEmails := [], patternCounts := none }
  else
    let locals := domainEmails.map (fun e => (splitAt e).headD [])
    let patterns := locals.foldl
      (fun t local_ =>
        if genericLocals.contains local_ then t
        else
          match shapeOf local_ with
          | some key => castVote t key
          | none => t)
      []
    { pattern := (patterns.foldl pickTop (none, 0)).1,
      sampleEmails := domainEmails.take 5,
      patternCounts := some patterns }

/-- The address counts for pattern detection: it ends in `@` and the domain, and
its local part is not generic. -/
def countsForDetection (domain : JsString) (e : JsString) : Bool :=
  ('@' :: domain).isSuffixOf e && !genericLocals.contains ((splitAt e).headD [])

/-- The votes of `detectPattern`, in list order: the shapes of the local parts
of the addresses that count. -/
def votesOf (emails : List JsString) (domain : JsString) : List JsString :=
  ((emails.filter (countsForDetection domain)).map (fun e => (splitAt e).headD [])).filterMap
    shapeOf

/-- The keys of the object `patterns` after the given votes: each shape once, in
the order of its first vote. -/
def firstVotes (votes : List JsString) : List JsString :=
  votes.foldl (fun ks k => if k ∈ ks then ks else ks ++ [k]) []

/-- Four addresses: the underscore shape gets the first vote, the dotted shape
is the first to have two votes, and both end with two. -/
def tiedEmails : List JsString := [
  "john_doe@x.com".toList, "jane.roe@x.com".toList, "jim.poe@x.com".toList,
  "jack_moe@x.com".toList]

/-! ## smtpVerifier.js: readResponse -/

/-- The UTF-16 code units of a string: what `s[i]`, `s.length` and
`s.substring` index. -/
def toUnits (s : JsString) : List Nat :=
  s.flatMap (fun c =>
    if c.val.toNat < 0x10000 then [c.val.toNat]
    else [0xD800 + (c.val.toNat - 0x10000) / 0x400, 0xDC00 + (c.val.toNat - 0x10000) % 0x400])

/-- The call `s.split('\r\n')`: the pieces of `s` between the CR LF pairs. -/
def splitCRLF : JsString → List JsString
  | [] => [[]]
  | [c] => [[c]]
  | c :: d :: rest =>
    if c = '\r' ∧ d = '\n' then [] :: splitCRLF rest
    else
      match splitCRLF (d :: rest) with
      | [] => [[c]]
      | piece :: more => (c :: piece) :: more

/-- The call `parseInt(s, 10)` on the code units of `s`: white space is skipped,
one sign is read, and the decimal digits that follow give the value; `none` is
`NaN`, the result when no digit follows. A lone surrogate is no white space. -/
def parseInt10 (units : List Nat) : Option Int :=
  let s := units.dropWhile (fun u => isJsSpace (Char.ofNat u))
  let signed : Int × List Nat :=
    match s with
    | 45 :: t => (-1, t)
    | 43 :: t => (1, t)
    | _ => (1, s)
  let z := signed.2.takeWhile (fun u => decide (48 ≤ u ∧ u ≤ 57))
  if z = [] then none else some (signed.1 * z.foldl (fun n u => 10 * n + ((u : Int) - 48)) 0)

/-- The value `readResponse` resolves with. -/
structure Reply where
  code : Option Int
  message : JsString
  deriving DecidableEq, Repr

/-- The body of `onData` after `buffer += data.toString()`, on the new buffer:
the reply it resolves with, or `none` when it leaves the promise pending. -/
def onData (buffer : JsString) : Option Reply :=
  let lines := (splitCRLF buffer).filter (fun l => jsLength l > 0)
  match lines.getLast? with
  | none => none
  | some lastLine =>
    if jsLength lastLine ≥ 4 ∧ (toUnits lastLine)[3]? = some 32 then
      some { code := parseInt10 ((toUnits lastLine).take 3), message := trim buffer }
    else none

/-- The promise of `readResponse` when the socket delivers the given chunks and
then nothing more, `buffer` being what was accumulated so far: the first call of
`onData` that completes the reply resolves it and removes the listener; `none`
is the rejection by the timer. -/
def readFrom (buffer : JsString) : List JsString → Option Reply
  | [] => none
  | data :: more =>
    match onData (buffer ++ data) with
    | some reply => some reply
    | none => readFrom (buffer ++ data) more

/-- The function `readResponse` on a socket that delivers the given chunks. -/
def readResponse (chunks : List JsString) : Option Reply := readFrom [] chunks

/-- The last non-empty line of the buffer, its lines being the pieces between
CR LF pairs. -/
def lastNonEmptyLine (buffer : JsString) : Option JsString :=
  (splitCRLF buffer).reverse.find? (fun l => !l.isEmpty)

/-- The three lines of a multi-line reply. -/
def replyLine1 : JsString := "250-a\r\n".toList

def replyLine2 : JsString := "250-b\r\n".toList

def replyLine3 : JsString := "250 c\r\n".toList

/-! ## csvProcessor.js: parseCSV -/

/-- The replacement `.replace(/['"]/g, '')`. -/
def stripQuotes (s : JsString) : JsString :=
  s.filter (fun c => c != '\'' && c != '"')

/-- The object `headerMap`: the column of each field, where one is set. -/
structure HeaderMap where
  firstName : Option Nat
  lastName : Option Nat
  domainOrCompany : Option Nat
  deriving DecidableEq, Repr

/-- The body of the loop over `headers`, for the header `h` at column `i`. -/
def mapHeader (m : HeaderMap) (i : Nat) (h : JsString) : HeaderMap :=
  if h ∈ ["first_name".toList, "firstname".toList, "first name".toList, "first".toList,
      "name".toList] then { m with firstName := some i }
  else if h ∈ ["last_name".toList, "lastname".toList, "last name".toList, "last".toList,
      "surname".toList] then { m with lastName := some i }
  else if h ∈ ["domain".toList, "company_domain".toList, "email_domain".toList,
      "website".toList] then { m with domainOrCompany := some i }
  else if h ∈ ["company".toList, "company_name".toList, "organization".toList,
      "org".toList] then
    if m.domainOrCompany = none then { m with domainOrCompany := some i } else m
  else m

/-- The loop over `headers`, from column `i` on. -/
def mapHeaders : HeaderMap → Nat → List JsString → HeaderMap
  | m, _, [] => m
  | m, i, h :: hs => mapHeaders (mapHeader m i h) (i + 1) hs

/-- The lines of `parseCSV`: the text is trimmed and split at the line feeds,
each piece is trimmed, and the empty ones are dropped. -/
def csvLines (text : JsString) : List JsString :=
  ((splitChar '\n' (trim text)).map trim).filter (fun l => jsLength l > 0)

/-- The function `parseCSV`. The rows it returns have the three fields
`firstName`, `lastName` and `domainOrCompany`. -/
def parseCSV (text : JsString) : List Row :=
  let lines := csvLines text
  match lines with
  | [] => []
  | firstLine :: dataLines =>
    let delimiter : Char :=
      if '\t' ∈ firstLine then '\t' else if ';' ∈ firstLine then ';' else ','
    let headers := (splitChar delimiter firstLine).map (fun h => stripQuotes (toLowerCase (trim h)))
    let headerMap := mapHeaders { firstName := none, lastName := none, domainOrCompany := none }
      0 headers
    let fi := headerMap.firstName.getD 0
    let li := headerMap.lastName.getD 1
    let di := headerMap.domainOrCompany.getD 2
    dataLines.map (fun line =>
      let cols := (splitChar delimiter line).map (fun c => stripQuotes (trim c))
      { firstName := some (cols.getD fi []),
        lastName := some (cols.getD li []),
        domainOrCompany := some (cols.getD di []),
        domain := none,
        company := none })

/-- The header names `parseCSV` recognises. -/
def headerNames : List JsString := [
  "first_name".toList, "firstname".toList, "first name".toList, "first".toList, "name".toList,
  "last_name".toList, "lastname".toList, "last name".toList, "last".toList, "surname".toList,
  "domain".toList, "company_domain".toList, "email_domain".toList, "website".toList,
  "company".toList, "company_name".toList, "organization".toList, "org".toList]

/-- A text of two data lines and no header line. -/
def headerlessCsv : JsString := "Ada,Lovelace,example.com\nAlan,Turing,example.org".toList

/-! ## domainResolver.js: isDomain, and stage L0 of findEmail -/

/-- The class `[a-zA-Z0-9-]` of the pattern of `isDomain`. -/
def isLabelChar (c : Char) : Bool := c.isAlphanum || c = '-'

/-- The function `isDomain`: the test of
`/^[a-zA-Z0-9][a-zA-Z0-9-]*\.[a-zA-Z]{2,}$/` on the trimmed input. The class of
the star holds no dot, so its run ends at the first character outside the
class, which has to be the dot of the pattern; two or more letters follow up
to the end. -/
def isDomain (input : JsString) : Bool :=
  match trim input with
  | [] => false
  | c :: rest =>
    c.isAlphanum &&
      (match rest.dropWhile isLabelChar with
        | '.' :: tld => decide (2 ≤ tld.length) && tld.all Char.isAlpha
        | _ => false)

/-- How stage L0 of `findEmail` ends: the input is used as the domain, or the
company resolver is asked for `query` and names a domain, or it names none and
`findEmail` returns no results with `meta.domain` null. -/
inductive Resolution where
  | direct (domain : JsString)
  | resolved (query domain : JsString)
  | unresolved (query : JsString)
  deriving DecidableEq, Repr

/-- Stage L0 of `findEmail`; `resolveCompanyDomain query` is the `domain` field
of the result of the resolver, `none` when it is null or empty. -/
def resolveStage (resolveCompanyDomain : JsString → Option JsString)
    (domainOrCompany : JsString) : Resolution :=
  let domain := trim domainOrCompany
  if isDomain domain then Resolution.direct domain
  else
    match resolveCompanyDomain domain with
    | none => Resolution.unresolved domain
    | some d => Resolution.resolved domain d

/-! ## Properties of the confidence scorer -/

/-- The points a signal contributes. -/
theorem addSignal_fst (c : Bool) (pts : Int) (t : Tag) (acc : Int × List Tag) :
    (addSignal c pts t acc).1 = acc.1 + (if c then pts else 0) := by
  cases c <;> simp [addSignal]

/-- The pattern bonus lies between 3 and 20. -/
theorem patternBonus_bounds (w : Option Int) : 3 ≤ patternBonus w ∧ patternBonus w ≤ 20 := by
  unfold patternBonus
  omega

/-- The unclamped total as a sum of the contributions. -/
theorem rawScore_eq (p : Params) :
    rawScore p =
      (if p.smtpStatus = SmtpStatus.valid then 45 else 0)
      + (if p.foundOnWebsite then 55 else 0)
      + (if p.matchesWebsitePattern then 50 else 0)
      + (if (decide (p.websiteEmailCount.getD 0 ≥ 3) && p.matchesWebsitePattern) then 10 else 0)
      + (if p.matchesProviderPattern then 15 else 0)
      + (if p.hasGravatar then 15 else 0)
      + (if p.disifyValid then 20 else 0)
      + (if p.aiRecommended then 15 else 0)
      + (if p.hunterConfirmed then 20 else 0)
      + patternBonus p.patternWeight
      + (if (p.isCatchAll && p.smtpStatus == SmtpStatus.valid) then -20 else 0) := by
  simp [rawScore, accumulate, addSignal_fst, SCORES]

/-- A signal never contributes a negative amount when its points are not
negative. -/
theorem contribution_nonneg (c : Prop) [Decidable c] (n : Int) (hn : 0 ≤ n) :
    0 ≤ (if c then n else 0) := by
  split <;> omega

/-- With transport status `valid`, setting the catch-all flag lowers the
unclamped total by 20. -/
theorem rawScore_setCatchAll (p : Params) (h : p.smtpStatus = SmtpStatus.valid) :
    rawScore { p with isCatchAll := true } = rawScore { p with isCatchAll := false } - 20 := by
  rw [rawScore_eq, rawScore_eq]
  simp [h]
  omega

/-- With transport status `valid` and no catch-all flag, the unclamped total is
at least 48. -/
theorem rawScore_noCatchAll_ge (p : Params) (h : p.smtpStatus = SmtpStatus.valid) :
    48 ≤ rawScore { p with isCatchAll := false } := by
  rw [rawScore_eq]
  have hb := (patternBonus_bounds p.patternWeight).1
  have h1 := contribution_nonneg (p.foundOnWebsite = true) 55 (by omega)
  have h2 := contribution_nonneg (p.matchesWebsitePattern = true) 50 (by omega)
  have h3 := contribution_nonneg
    ((decide (p.websiteEmailCount.getD 0 ≥ 3) && p.matchesWebsitePattern) = true) 10 (by omega)
  have h4 := contribution_nonneg (p.matchesProviderPattern = true) 15 (by omega)
  have h5 := contribution_nonneg (p.hasGravatar = true) 15 (by omega)
  have h6 := contribution_nonneg (p.disifyValid = true) 20 (by omega)
  have h7 := contribution_nonneg (p.aiRecommended = true) 15 (by omega)
  have h8 := contribution_nonneg (p.hunterConfirmed = true) 20 (by omega)
  simp only [h, if_true, Bool.false_and, Bool.false_eq_true, if_false]
  omega

/-- C1. For every signal record whose transport status is `invalid`,
`scoreEmail` returns score 0 and tier `invalid`, whatever the other signals. -/
theorem scoreEmail_invalid (p : Params) (h : p.smtpStatus = SmtpStatus.invalid) :
    (scoreEmail p).score = 0 ∧ (scoreEmail p).confidence = Confidence.invalid := by
  simp [scoreEmail, h]

/-- Witness of C1: a rejected record with every other signal present. -/
theorem scoreEmail_invalid_witness :
    rejectedParams.smtpStatus = SmtpStatus.invalid ∧
      (scoreEmail rejectedParams).score = 0 ∧
      (scoreEmail rejectedParams).confidence = Confidence.invalid :=
  ⟨rfl, scoreEmail_invalid rejectedParams rfl⟩

/-- C2 as stated fails: with the address found on the site the total without
the penalty is 45 + 55 + 11 = 111, clamped to 100, and with the penalty it is
91; the scores differ by 9, not by 20. -/
theorem catchAll_penalty_counterexample :
    (foundValidParams true).smtpStatus = SmtpStatus.valid ∧
      (scoreEmail (foundValidParams false)).score = 100 ∧
      (scoreEmail (foundValidParams true)).score = 91 ∧
      (scoreEmail (foundValidParams true)).score ≠
        (scoreEmail (foundValidParams false)).score - 20 := by
  decide

/-- C2, amended. For every signal record with transport status `valid`, the
unclamped total with `isCatchAll = true` is exactly 20 lower than with
`isCatchAll = false`, and the returned (clamped) score is exactly 20 lower if
and only if the unclamped total without the penalty is at most 100. -/
theorem catchAll_penalty (p : Params) (h : p.smtpStatus = SmtpStatus.valid) :
    rawScore { p with isCatchAll := true } = rawScore { p with isCatchAll := false } - 20 ∧
      ((scoreEmail { p with isCatchAll := true }).score =
          (scoreEmail { p with isCatchAll := false }).score - 20 ↔
        rawScore { p with isCatchAll := false } ≤ 100) := by
  have hd := rawScore_setCatchAll p h
  have hl := rawScore_noCatchAll_ge p h
  refine ⟨hd, ?_⟩
  rcases p with ⟨e, st, pw, a1, a2, a3, a4, a5, a6, a7, a8, cnt⟩
  dsimp only at h
  subst h
  have hne : ¬ (SmtpStatus.valid = SmtpStatus.invalid) := by decide
  simp only [scoreEmail, clampScore, hne, if_false]
  simp only [rawScore] at hd hl ⊢
  omega

/-- Witness of C2, amended: a valid record with no other signal. -/
theorem catchAll_penalty_witness :
    ({ foundValidParams false with foundOnWebsite := false } : Params).smtpStatus
        = SmtpStatus.valid ∧
      (scoreEmail { foundValidParams false with foundOnWebsite := false, isCatchAll := true }).score
        = (scoreEmail
            { foundValidParams false with foundOnWebsite := false, isCatchAll := false }).score
          - 20 :=
  ⟨rfl, ((catchAll_penalty { foundValidParams false with foundOnWebsite := false } rfl).2).2
    (by decide)⟩

/-! ## Properties of the stable sort -/

/-- Insertion keeps the elements. -/
theorem insertSorted_perm {α : Type} (before : α → α → Bool) (a : α) (l : List α) :
    (insertSorted before a l).Perm (a :: l) := by
  induction l with
  | nil => exact List.Perm.refl _
  | cons b l ih =>
    simp only [insertSorted]
    split
    · exact List.Perm.refl _
    · exact (List.Perm.cons b ih).trans (List.Perm.swap a b l)

/-- The sort keeps the elements. -/
theorem stableSort_perm {α : Type} (before : α → α → Bool) (l : List α) :
    (stableSort before l).Perm l := by
  induction l with
  | nil => exact List.Perm.refl _
  | cons a l ih =>
    simp only [stableSort]
    exact (insertSorted_perm before a _).trans (List.Perm.cons a ih)

/-- Insertion into a sorted list gives a sorted list, for a total and
transitive comparator. -/
theorem insertSorted_pairwise {α : Type} (before : α → α → Bool)
    (htot : ∀ a b, before a b = true ∨ before b a = true)
    (htrans : ∀ a b c, before a b = true → before b c = true → before a c = true)
    (a : α) (l : List α) (hl : l.Pairwise (fun x y => before x y = true)) :
    (insertSorted before a l).Pairwise (fun x y => before x y = true) := by
  induction l with
  | nil => simp [insertSorted]
  | cons b l ih =>
    rw [List.pairwise_cons] at hl
    simp only [insertSorted]
    split
    · rename_i hab
      refine List.pairwise_cons.2 ⟨?_, List.pairwise_cons.2 hl⟩
      intro x hx
      rcases List.mem_cons.1 hx with rfl | hx
      · exact hab
      · exact htrans _ _ _ hab (hl.1 x hx)
    · rename_i hab
      refine List.pairwise_cons.2 ⟨?_, ih hl.2⟩
      intro x hx
      have hx1 := (insertSorted_perm before a l).subset hx
      rcases List.mem_cons.1 hx1 with rfl | hx2
      · rcases htot x b with h | h
        · exact absurd h hab
        · exact h
      · exact hl.1 x hx2

/-- The sort gives a sorted list, for a total and transitive comparator. -/
theorem stableSort_pairwise {α : Type} (before : α → α → Bool)
    (htot : ∀ a b, before a b = true ∨ before b a = true)
    (htrans : ∀ a b c, before a b = true → before b c = true → before a c = true)
    (l : List α) : (stableSort before l).Pairwise (fun x y => before x y = true) := by
  induction l with
  | nil => simp [stableSort]
  | cons a l ih =>
    simp only [stableSort]
    exact insertSorted_pairwise before htot htrans a _ ih

/-- A head that the comparator orders before every other element stays the
head. -/
theorem stableSort_cons_of_forall {α : Type} (before : α → α → Bool) (x : α) (l : List α)
    (h : ∀ y ∈ l, before x y = true) :
    stableSort before (x :: l) = x :: stableSort before l := by
  simp only [stableSort]
  cases hs : stableSort before l with
  | nil => rfl
  | cons b l1 =>
    have hb : b ∈ l := (stableSort_perm before l).subset (by rw [hs]; exact List.mem_cons_self _ _)
    simp [insertSorted, h b hb]

/-! ## Properties of the candidate generator -/

/-- A template read from `PATTERN_MAP` is an entry of the table. -/
theorem PATTERN_MAP_mem (key : JsString) (t : Template)
    (h : PATTERN_MAP key = Lookup.template t) : t ∈ ALL_PATTERNS := by
  unfold PATTERN_MAP at h
  split at h
  · rename_i t1 hfind
    cases h
    exact List.mem_of_find?_eq_some hfind
  · split at h <;> cases h

/-- An ordinary key never reads an inherited property. -/
theorem PATTERN_MAP_ordinary (key : JsString) (h : key ∉ objectPrototypeKeys) :
    PATTERN_MAP key ≠ Lookup.inherited := by
  unfold PATTERN_MAP
  split
  · intro hc; cases hc
  · rw [if_neg h]; intro hc; cases hc

/-- Static weights lie between 1 and 33. -/
theorem ALL_PATTERNS_weight (t : Template) (h : t ∈ ALL_PATTERNS) :
    1 ≤ t.weight ∧ t.weight ≤ 33 := by
  revert t
  simp [ALL_PATTERNS]

/-- The empty state is well formed. -/
theorem wellFormed_empty (f l d : JsString) :
    GenState.WellFormed f l d { seen := [], results := [] } := by
  simp [GenState.WellFormed]

/-- The closure `addPattern` keeps the state well formed. -/
theorem addPattern_wellFormed (f l d : JsString) (st : GenState) (t : Template) (extra : Nat)
    (ht : t ∈ ALL_PATTERNS) (h : GenState.WellFormed f l d st) :
    GenState.WellFormed f l d (addPattern f l d st t extra) := by
  obtain ⟨hseen, hnd, hmem⟩ := h
  unfold addPattern
  dsimp only
  split
  · exact ⟨hseen, hnd, hmem⟩
  · rename_i hnot
    refine ⟨?_, ?_, ?_⟩
    · simp [hseen]
    · rw [hseen] at hnot
      rw [List.map_append, List.nodup_append]
      refine ⟨hnd, by simp, ?_⟩
      intro a ha hb
      simp only [List.map_cons, List.map_nil, List.mem_singleton] at hb
      subst hb
      exact hnot ha
    · intro c hc
      rcases List.mem_append.1 hc with hc | hc
      · exact hmem c hc
      · simp only [List.mem_singleton] at hc
        exact ⟨t, ht, extra, hc⟩

/-- The closure `addPattern` only appends to `results`. -/
theorem addPattern_results (f l d : JsString) (st : GenState) (t : Template) (extra : Nat) :
    (addPattern f l d st t extra).results = st.results ∨
      (addPattern f l d st t extra).results = st.results ++
        [{ email := t.fn f l ++ '@' :: d, pattern := t.id, weight := t.weight + extra }] := by
  unfold addPattern
  dsimp only
  split
  · exact Or.inl rfl
  · exact Or.inr rfl

/-- After `addPattern` the array `results` is not empty. -/
theorem addPattern_ne_nil (f l d : JsString) (st : GenState) (t : Template) (extra : Nat)
    (h : GenState.WellFormed f l d st) : (addPattern f l d st t extra).results ≠ [] := by
  unfold addPattern
  dsimp only
  split
  · rename_i hin
    rw [h.1] at hin
    intro hnil
    rw [hnil] at hin
    simp at hin
  · simp

/-- The guarded call keeps the state well formed. -/
theorem addIfKnown_wellFormed (f l d : JsString) (st st1 : GenState) (key : JsString)
    (extra : Nat) (h : GenState.WellFormed f l d st)
    (hok : addIfKnown f l d st key extra = Except.ok st1) : GenState.WellFormed f l d st1 := by
  unfold addIfKnown at hok
  split at hok
  · rename_i t ht
    cases hok
    exact addPattern_wellFormed f l d st t extra (PATTERN_MAP_mem key t ht) h
  · cases hok
  · cases hok
    exact h

/-- The provider loop keeps the state well formed. -/
theorem addProviders_wellFormed (f l d : JsString) (ps : List JsString) :
    ∀ (st st1 : GenState), GenState.WellFormed f l d st →
      addProviders f l d st ps = Except.ok st1 → GenState.WellFormed f l d st1 := by
  induction ps with
  | nil =>
    intro st st1 h hok
    simp only [addProviders] at hok
    cases hok
    exact h
  | cons pid rest ih =>
    intro st st1 h hok
    simp only [addProviders] at hok
    split at hok
    · rename_i st2 h2
      exact ih st2 st1 (addIfKnown_wellFormed f l d st st2 pid 20 h h2) hok
    · cases hok

/-- The loop over a list of templates of the table keeps the state well
formed. -/
theorem foldl_addPattern_wellFormed (f l d : JsString) (ts : List Template)
    (hts : ∀ t ∈ ts, t ∈ ALL_PATTERNS) :
    ∀ st, GenState.WellFormed f l d st →
      GenState.WellFormed f l d (ts.foldl (fun s t => addPattern f l d s t 0) st) := by
  induction ts with
  | nil => intro st h; exact h
  | cons t rest ih =>
    intro st h
    simp only [List.foldl_cons]
    exact ih (fun t1 h1 => hts t1 (List.mem_cons_of_mem _ h1)) _
      (addPattern_wellFormed f l d st t 0 (hts t (List.mem_cons_self _ _)) h)

/-- The final loop keeps the state well formed. -/
theorem addAll_wellFormed (f l d : JsString) (st : GenState)
    (h : GenState.WellFormed f l d st) : GenState.WellFormed f l d (addAll f l d st) :=
  foldl_addPattern_wellFormed f l d ALL_PATTERNS (fun _ ht => ht) st h

/-- A successful run returns the sorted `results` of a well-formed state. -/
theorem generateFrom_ok (f l d : JsString) (options : Options) (res : List Candidate)
    (hok : generateFrom f l d options = Except.ok res) :
    ∃ st, GenState.WellFormed f l d st ∧ res = stableSort byWeight st.results := by
  unfold generateFrom at hok
  dsimp only at hok
  split at hok
  · cases hok
  · rename_i st1 h1
    split at hok
    · cases hok
    · rename_i st2 h2
      have hres := Except.ok.inj hok
      refine ⟨addAll f l d st2, addAll_wellFormed f l d st2 ?_, hres.symm⟩
      have hwf1 : GenState.WellFormed f l d st1 := by
        split at h1
        · cases h1; exact wellFormed_empty f l d
        · split at h1
          · cases h1; exact wellFormed_empty f l d
          · exact addIfKnown_wellFormed f l d _ st1 _ 50 (wellFormed_empty f l d) h1
      split at h2
      · cases h2; exact hwf1
      · exact addProviders_wellFormed f l d _ st1 st2 hwf1 h2

/-- A successful call of `generatePatterns` passed the guard and returns the
sorted `results` of a well-formed state. -/
theorem generatePatterns_ok (firstName lastName domain : JsString) (options : Options)
    (res : List Candidate)
    (hok : generatePatterns firstName lastName domain options = Except.ok res) :
    normFirst firstName ≠ [] ∧ normLast lastName ≠ [] ∧ normDomain domain ≠ [] ∧
      ∃ st, GenState.WellFormed (normFirst firstName) (normLast lastName) (normDomain domain) st ∧
        res = stableSort byWeight st.results := by
  unfold generatePatterns at hok
  dsimp only at hok
  split at hok
  · cases hok
  · rename_i hg
    simp only [not_or] at hg
    exact ⟨hg.1, hg.2.1, hg.2.2, generateFrom_ok _ _ _ options res hok⟩

/-- The comparator `byWeight` is total. -/
theorem byWeight_total (a b : Candidate) : byWeight a b = true ∨ byWeight b a = true := by
  simp only [byWeight, decide_eq_true_eq]
  omega

/-- The comparator `byWeight` is transitive. -/
theorem byWeight_trans (a b c : Candidate) (h1 : byWeight a b = true)
    (h2 : byWeight b c = true) : byWeight a c = true := by
  simp only [byWeight, decide_eq_true_eq] at *
  omega

/-- The characters of a stripped token are small ASCII letters. -/
theorem stripNonLetters_mem (s : JsString) (ch : Char) (h : ch ∈ stripNonLetters s) :
    'a' ≤ ch ∧ ch ≤ 'z' := by
  unfold stripNonLetters at h
  have h2 := (List.mem_filter.1 h).2
  simpa using h2

/-- The local part a template builds is made of the characters of the tokens
and of the three separators. -/
theorem template_fromTokens (f l : JsString) (t : Template) (ht : t ∈ ALL_PATTERNS) :
    ∀ ch ∈ t.fn f l, fromTokens f l ch := by
  intro ch hch
  have hf1 : ch ∈ List.take 1 f → ch ∈ f := List.mem_of_mem_take
  have hl1 : ch ∈ List.take 1 l → ch ∈ l := List.mem_of_mem_take
  simp only [ALL_PATTERNS, List.mem_cons, List.mem_singleton, List.not_mem_nil, or_false] at ht
  unfold fromTokens
  rcases ht with rfl | rfl | rfl | rfl | rfl | rfl | rfl | rfl | rfl | rfl | rfl | rfl | rfl |
    rfl | rfl | rfl <;>
  · simp only [List.mem_append, List.mem_cons] at hch
    tauto

/-- The sample call returns the sample candidates. -/
theorem generatePatterns_ada :
    generatePatterns "Ada".toList "Lovelace".toList "Example.com ".toList adaOptions
      = Except.ok adaCandidates := by
  rfl

/-- C4. On every input on which `generatePatterns` succeeds, the returned
candidates are in non-increasing order of weight: every candidate weighs at
least as much as each candidate after it. -/
theorem generatePatterns_sorted (firstName lastName domain : JsString) (options : Options)
    (res : List Candidate)
    (hok : generatePatterns firstName lastName domain options = Except.ok res) :
    res.Pairwise (fun a b => b.weight ≤ a.weight) := by
  obtain ⟨_, _, _, st, _, hres⟩ := generatePatterns_ok firstName lastName domain options res hok
  rw [hres]
  refine (stableSort_pairwise byWeight byWeight_total byWeight_trans st.results).imp ?_
  intro a b hab
  simpa [byWeight] using hab

/-- Witness of C4: the sample call. -/
theorem generatePatterns_sorted_witness :
    generatePatterns "Ada".toList "Lovelace".toList "Example.com ".toList adaOptions
        = Except.ok adaCandidates ∧
      adaCandidates.Pairwise (fun a b => b.weight ≤ a.weight) :=
  ⟨generatePatterns_ada,
    generatePatterns_sorted "Ada".toList "Lovelace".toList "Example.com ".toList adaOptions
      adaCandidates generatePatterns_ada⟩

/-- C5. On every input on which `generatePatterns` succeeds, the addresses of
the returned candidates are pairwise distinct. -/
theorem generatePatterns_nodup (firstName lastName domain : JsString) (options : Options)
    (res : List Candidate)
    (hok : generatePatterns firstName lastName domain options = Except.ok res) :
    (res.map (fun c => c.email)).Nodup := by
  obtain ⟨_, _, _, st, hwf, hres⟩ := generatePatterns_ok firstName lastName domain options res hok
  rw [hres]
  exact (((stableSort_perm byWeight st.results).map (fun c => c.email)).nodup_iff).2 hwf.2.1

/-- The call for a one-letter first name, for which the templates `flast` and
`firstlast`, and `f.last` and `first.last`, yield the same local part. -/
theorem generatePatterns_oneLetter :
    (generatePatterns "A".toList "Lovelace".toList "example.com".toList
        { detectedPattern := none, providerPatterns := none }).toOption.map
          (fun res => res.map (fun c => c.email))
      = some ["a.lovelace@example.com".toList, "a@example.com".toList,
          "alovelace@example.com".toList, "a_lovelace@example.com".toList,
          "lovelace.a@example.com".toList, "al@example.com".toList,
          "lovelace@example.com".toList, "lovelacea@example.com".toList,
          "lovelace_a@example.com".toList, "a-lovelace@example.com".toList,
          "a.l@example.com".toList] := by
  decide

/-- Witness of C5: the sample call. -/
theorem generatePatterns_nodup_witness :
    generatePatterns "Ada".toList "Lovelace".toList "Example.com ".toList adaOptions
        = Except.ok adaCandidates ∧
      (adaCandidates.map (fun c => c.email)).Nodup :=
  ⟨generatePatterns_ada,
    generatePatterns_nodup "Ada".toList "Lovelace".toList "Example.com ".toList adaOptions
      adaCandidates generatePatterns_ada⟩

/-- C6. On every input on which `generatePatterns` succeeds, every returned
address is a local part followed by `@` and the lower-cased, trimmed domain;
the local part is the one a template of the table builds from the normalised
tokens, holds no `@`, and consists only of characters of the two tokens and of
the separators `.`, `_` and `-`. -/
theorem generatePatterns_shape (firstName lastName domain : JsString) (options : Options)
    (res : List Candidate)
    (hok : generatePatterns firstName lastName domain options = Except.ok res) :
    ∀ c ∈ res, ('@' :: normDomain domain) <:+ c.email ∧
      ∃ t ∈ ALL_PATTERNS,
        c.email = t.fn (normFirst firstName) (normLast lastName) ++ '@' :: normDomain domain ∧
        c.pattern = t.id ∧
        '@' ∉ t.fn (normFirst firstName) (normLast lastName) ∧
        ∀ ch ∈ t.fn (normFirst firstName) (normLast lastName),
          fromTokens (normFirst firstName) (normLast lastName) ch := by
  obtain ⟨_, _, _, st, hwf, hres⟩ := generatePatterns_ok firstName lastName domain options res hok
  intro c hc
  rw [hres] at hc
  have hc1 := (stableSort_perm byWeight st.results).subset hc
  obtain ⟨t, ht, extra, hceq⟩ := hwf.2.2 c hc1
  have hchars := template_fromTokens (normFirst firstName) (normLast lastName) t ht
  have hat : '@' ∉ t.fn (normFirst firstName) (normLast lastName) := by
    intro hmem
    rcases hchars _ hmem with h | h | h | h | h
    · exact absurd (stripNonLetters_mem _ _ h).1 (by decide)
    · exact absurd (stripNonLetters_mem _ _ h).1 (by decide)
    · exact absurd h (by decide)
    · exact absurd h (by decide)
    · exact absurd h (by decide)
  subst hceq
  exact ⟨List.suffix_append _ _, t, ht, rfl, rfl, hat, hchars⟩

/-- Witness of C6: the sample call. -/
theorem generatePatterns_shape_witness :
    generatePatterns "Ada".toList "Lovelace".toList "Example.com ".toList adaOptions
        = Except.ok adaCandidates ∧
      ∀ c ∈ adaCandidates, ('@' :: normDomain "Example.com ".toList) <:+ c.email ∧
        ∃ t ∈ ALL_PATTERNS,
          c.email = t.fn (normFirst "Ada".toList) (normLast "Lovelace".toList)
            ++ '@' :: normDomain "Example.com ".toList ∧
          c.pattern = t.id ∧
          '@' ∉ t.fn (normFirst "Ada".toList) (normLast "Lovelace".toList) ∧
          ∀ ch ∈ t.fn (normFirst "Ada".toList) (normLast "Lovelace".toList),
            fromTokens (normFirst "Ada".toList) (normLast "Lovelace".toList) ch :=
  ⟨generatePatterns_ada,
    generatePatterns_shape "Ada".toList "Lovelace".toList "Example.com ".toList adaOptions
      adaCandidates generatePatterns_ada⟩

/-- Reading `PATTERN_MAP` at the id of a table entry gives that entry. -/
theorem PATTERN_MAP_id (t : Template) (ht : t ∈ ALL_PATTERNS) :
    PATTERN_MAP t.id = Lookup.template t := by
  simp only [ALL_PATTERNS, List.mem_cons, List.mem_singleton, List.not_mem_nil, or_false] at ht
  rcases ht with rfl | rfl | rfl | rfl | rfl | rfl | rfl | rfl | rfl | rfl | rfl | rfl | rfl |
    rfl | rfl | rfl <;> rfl

/-- The id of a table entry is not the empty string. -/
theorem ALL_PATTERNS_id_ne_nil (t : Template) (ht : t ∈ ALL_PATTERNS) : t.id ≠ [] := by
  simp only [ALL_PATTERNS, List.mem_cons, List.mem_singleton, List.not_mem_nil, or_false] at ht
  rcases ht with rfl | rfl | rfl | rfl | rfl | rfl | rfl | rfl | rfl | rfl | rfl | rfl | rfl |
    rfl | rfl | rfl <;> simp

/-- A template read from `PATTERN_MAP` carries the key as its id. -/
theorem PATTERN_MAP_id_eq (key : JsString) (t : Template)
    (h : PATTERN_MAP key = Lookup.template t) : t.id = key := by
  unfold PATTERN_MAP at h
  split at h
  · rename_i t1 hfind
    cases h
    have := List.find?_some hfind
    simpa using this
  · split at h <;> cases h

/-- The closure `addPattern` keeps the head when the new weight does not
exceed the weight of the head. -/
theorem addPattern_headedBy (f l d : JsString) (c0 : Candidate) (st : GenState) (t : Template)
    (extra : Nat) (hw : t.weight + extra ≤ c0.weight) (h : GenState.HeadedBy c0 st) :
    GenState.HeadedBy c0 (addPattern f l d st t extra) := by
  obtain ⟨rest, hres, hle⟩ := h
  rcases addPattern_results f l d st t extra with h1 | h1
  · exact ⟨rest, by rw [h1, hres], hle⟩
  · refine ⟨rest ++ [Candidate.mk (t.fn f l ++ '@' :: d) t.id (t.weight + extra)],
      by rw [h1, hres]; rfl, ?_⟩
    intro c hc
    rcases List.mem_append.1 hc with hc | hc
    · exact hle c hc
    · simp only [List.mem_singleton] at hc
      subst hc
      exact hw

/-- The provider loop keeps the head when no provider-preferred template,
boosted by 20, outweighs it. -/
theorem addProviders_headedBy (f l d : JsString) (c0 : Candidate) (ps : List JsString)
    (hw : ∀ tp ∈ ALL_PATTERNS, tp.id ∈ ps → tp.weight + 20 ≤ c0.weight) :
    ∀ (st st1 : GenState), GenState.HeadedBy c0 st →
      addProviders f l d st ps = Except.ok st1 → GenState.HeadedBy c0 st1 := by
  induction ps with
  | nil =>
    intro st st1 h hok
    simp only [addProviders] at hok
    cases hok
    exact h
  | cons pid rest ih =>
    intro st st1 h hok
    simp only [addProviders] at hok
    split at hok
    · rename_i st2 h2
      refine ih (fun tp htp hmem => hw tp htp (List.mem_cons_of_mem _ hmem)) st2 st1 ?_ hok
      unfold addIfKnown at h2
      split at h2
      · rename_i t ht
        cases h2
        refine addPattern_headedBy f l d c0 st t 20 ?_ h
        refine hw t (PATTERN_MAP_mem pid t ht) ?_
        rw [PATTERN_MAP_id_eq pid t ht]
        exact List.mem_cons_self _ _
      · cases h2
      · cases h2
        exact h
    · cases hok

/-- The loop over templates of the table keeps a head that weighs at least
33. -/
theorem foldl_addPattern_headedBy (f l d : JsString) (c0 : Candidate) (hc0 : 33 ≤ c0.weight)
    (ts : List Template) (hts : ∀ t ∈ ts, t ∈ ALL_PATTERNS) :
    ∀ st, GenState.HeadedBy c0 st →
      GenState.HeadedBy c0 (ts.foldl (fun s t => addPattern f l d s t 0) st) := by
  induction ts with
  | nil => intro st h; exact h
  | cons t rest ih =>
    intro st h
    simp only [List.foldl_cons]
    refine ih (fun t1 h1 => hts t1 (List.mem_cons_of_mem _ h1)) _
      (addPattern_headedBy f l d c0 st t 0 ?_ h)
    have := (ALL_PATTERNS_weight t (hts t (List.mem_cons_self _ _))).2
    omega

/-- The head of the sorted output of a headed state. -/
theorem stableSort_headedBy (c0 : Candidate) (st : GenState) (h : GenState.HeadedBy c0 st) :
    ∃ rest, stableSort byWeight st.results = c0 :: rest := by
  obtain ⟨rest, hres, hle⟩ := h
  rw [hres, stableSort_cons_of_forall byWeight c0 rest
    (fun y hy => by simpa [byWeight] using hle y hy)]
  exact ⟨_, rfl⟩

/-- The steps after the guard, for a detected id of the table. -/
theorem generateFrom_detected (f l d : JsString) (t : Template) (ht : t ∈ ALL_PATTERNS)
    (providers : Option (List JsString)) (res : List Candidate)
    (hw : ∀ ps, providers = some ps →
      ∀ tp ∈ ALL_PATTERNS, tp.id ∈ ps → tp.weight + 20 ≤ t.weight + 50)
    (hok : generateFrom f l d { detectedPattern := some t.id, providerPatterns := providers }
      = Except.ok res) :
    ∃ rest, res = Candidate.mk (t.fn f l ++ '@' :: d) t.id (t.weight + 50) :: rest := by
  have hhead : GenState.HeadedBy (Candidate.mk (t.fn f l ++ '@' :: d) t.id (t.weight + 50))
      (addPattern f l d { seen := [], results := [] } t 50) :=
    ⟨[], by simp [addPattern], by simp⟩
  unfold generateFrom at hok
  simp only [if_neg (ALL_PATTERNS_id_ne_nil t ht), addIfKnown, PATTERN_MAP_id t ht] at hok
  split at hok
  · cases hok
  · rename_i st2 h2
    have hres := Except.ok.inj hok
    have h2head : GenState.HeadedBy (Candidate.mk (t.fn f l ++ '@' :: d) t.id (t.weight + 50))
        st2 := by
      cases providers with
      | none => cases h2; exact hhead
      | some ps => exact addProviders_headedBy f l d _ ps (hw ps rfl) _ st2 hhead h2
    obtain ⟨rest, hrest⟩ := stableSort_headedBy _ _
      (foldl_addPattern_headedBy f l d _ (by simp) ALL_PATTERNS (fun _ h => h) st2 h2head)
    exact ⟨rest, by rw [← hres]; exact hrest⟩

/-- C3 as stated fails: with the hyphen convention detected (static weight 1,
boosted to 51) and `first.last` preferred by the provider (33, boosted to 53),
the first candidate is the dotted address, not the detected hyphen address. -/
theorem detected_first_counterexample :
    "first-last".toList ∈ ALL_PATTERNS.map (fun t => t.id) ∧
      (ALL_PATTERNS.filter (fun t => t.id == "first-last".toList)).map
          (fun t => templateAddress t "Ada".toList "Lovelace".toList "example.com".toList)
        = ["ada-lovelace@example.com".toList] ∧
      (generatePatterns "Ada".toList "Lovelace".toList "example.com".toList
          hyphenOptions).toOption.map (fun res => res.head?.map (fun c => (c.email, c.weight)))
        = some (some ("ada.lovelace@example.com".toList, 53)) ∧
      (generatePatterns "Ada".toList "Lovelace".toList "example.com".toList
          hyphenOptions).toOption.map (fun res => (res.drop 1).head?.map
            (fun c => (c.email, c.weight)))
        = some (some ("ada-lovelace@example.com".toList, 51)) := by
  decide

/-- C3, amended. For every first name, last name and domain on which
`generatePatterns` succeeds and every detected id `t.id` of the template table,
if no id of `providerPatterns` names a template whose static weight plus the
provider boost 20 exceeds the static weight of `t` plus the detection boost 50,
then the first element of the returned list is the address of the detected
template, with pattern `t.id` and weight `t.weight + 50`. -/
theorem detected_first (firstName lastName domain : JsString) (t : Template)
    (ht : t ∈ ALL_PATTERNS) (providers : Option (List JsString)) (res : List Candidate)
    (hw : ∀ ps, providers = some ps →
      ∀ tp ∈ ALL_PATTERNS, tp.id ∈ ps → tp.weight + 20 ≤ t.weight + 50)
    (hok : generatePatterns firstName lastName domain
      { detectedPattern := some t.id, providerPatterns := providers } = Except.ok res) :
    res.head? =
      some (Candidate.mk (templateAddress t firstName lastName domain) t.id (t.weight + 50)) := by
  unfold generatePatterns at hok
  dsimp only at hok
  split at hok
  · cases hok
  · obtain ⟨rest, hrest⟩ := generateFrom_detected _ _ _ t ht providers res hw hok
    rw [hrest]
    rfl

/-- The weight condition of `detected_first` holds for every provider list when
the detected template has static weight at least 3. -/
theorem provider_weights_of_three_le (t : Template) (h3 : 3 ≤ t.weight)
    (providers : Option (List JsString)) :
    ∀ ps, providers = some ps →
      ∀ tp ∈ ALL_PATTERNS, tp.id ∈ ps → tp.weight + 20 ≤ t.weight + 50 := by
  intro ps _ tp htp _
  have := (ALL_PATTERNS_weight tp htp).2
  omega

/-- The weight condition of `detected_first` holds for every detected template
when the provider list does not hold `first.last`. -/
theorem provider_weights_of_no_dotted (t : Template) (providers : Option (List JsString))
    (h : ∀ ps, providers = some ps → "first.last".toList ∉ ps) :
    ∀ ps, providers = some ps →
      ∀ tp ∈ ALL_PATTERNS, tp.id ∈ ps → tp.weight + 20 ≤ t.weight + 50 := by
  intro ps hps tp htp hmem
  have hno := h ps hps
  simp only [ALL_PATTERNS, List.mem_cons, List.mem_singleton, List.not_mem_nil, or_false] at htp
  rcases htp with rfl | rfl | rfl | rfl | rfl | rfl | rfl | rfl | rfl | rfl | rfl | rfl | rfl |
    rfl | rfl | rfl
  · exact absurd hmem hno
  all_goals (dsimp only; omega)

/-- Witness of C3, amended: the sample call, with the underscore convention
(static weight 5) detected. -/
theorem detected_first_witness :
    generatePatterns "Ada".toList "Lovelace".toList "Example.com ".toList adaOptions
        = Except.ok adaCandidates ∧
      adaCandidates.head? = some (Candidate.mk
        (templateAddress { id := "first_last".toList, fn := fun f l => f ++ '_' :: l, weight := 5 }
          "Ada".toList "Lovelace".toList "Example.com ".toList)
        "first_last".toList (5 + 50)) :=
  ⟨generatePatterns_ada, detected_first "Ada".toList "Lovelace".toList "Example.com ".toList
    { id := "first_last".toList, fn := fun f l => f ++ '_' :: l, weight := 5 }
    (by simp [ALL_PATTERNS])
    (some ["first.last".toList, "firstlast".toList, "first".toList]) adaCandidates
    (provider_weights_of_three_le _ (by decide) _)
    generatePatterns_ada⟩

/-- The guarded call throws nothing but the `TypeError`. -/
theorem addIfKnown_error (f l d : JsString) (st : GenState) (key : JsString) (extra : Nat)
    (e : GenError) (h : addIfKnown f l d st key extra = Except.error e) :
    e = GenError.typeError := by
  unfold addIfKnown at h
  split at h
  · cases h
  · cases h; rfl
  · cases h

/-- The provider loop throws nothing but the `TypeError`. -/
theorem addProviders_error (f l d : JsString) (ps : List JsString) :
    ∀ (st : GenState) (e : GenError), addProviders f l d st ps = Except.error e →
      e = GenError.typeError := by
  induction ps with
  | nil => intro st e h; simp only [addProviders] at h; cases h
  | cons pid rest ih =>
    intro st e h
    simp only [addProviders] at h
    split at h
    · exact ih _ e h
    · rename_i e1 h1
      cases h
      exact addIfKnown_error f l d st pid 20 e h1

/-- The steps after the guard throw nothing but the `TypeError`. -/
theorem generateFrom_error (f l d : JsString) (options : Options) (e : GenError)
    (h : generateFrom f l d options = Except.error e) : e = GenError.typeError := by
  unfold generateFrom at h
  dsimp only at h
  split at h
  · rename_i e1 h1
    cases h
    split at h1
    · cases h1
    · split at h1
      · cases h1
      · exact addIfKnown_error _ _ _ _ _ _ e h1
  · split at h
    · rename_i e2 h2
      cases h
      split at h2
      · cases h2
      · exact addProviders_error _ _ _ _ _ e h2
    · cases h

/-- The guarded call succeeds on an ordinary key. -/
theorem addIfKnown_ordinary (f l d : JsString) (st : GenState) (key : JsString) (extra : Nat)
    (h : key ∉ objectPrototypeKeys) : ∃ st1, addIfKnown f l d st key extra = Except.ok st1 := by
  have hne := PATTERN_MAP_ordinary key h
  unfold addIfKnown
  split
  · exact ⟨_, rfl⟩
  · rename_i hin; exact absurd hin hne
  · exact ⟨_, rfl⟩

/-- The provider loop succeeds on ordinary keys. -/
theorem addProviders_ordinary (f l d : JsString) (ps : List JsString)
    (h : ∀ pid ∈ ps, pid ∉ objectPrototypeKeys) :
    ∀ st, ∃ st1, addProviders f l d st ps = Except.ok st1 := by
  induction ps with
  | nil => intro st; exact ⟨st, rfl⟩
  | cons pid rest ih =>
    intro st
    obtain ⟨st1, h1⟩ := addIfKnown_ordinary f l d st pid 20 (h pid (List.mem_cons_self _ _))
    obtain ⟨st2, h2⟩ := ih (fun q hq => h q (List.mem_cons_of_mem _ hq)) st1
    exact ⟨st2, by simp only [addProviders, h1, h2]⟩

/-- The steps after the guard succeed on ordinary options. -/
theorem generateFrom_ordinary (f l d : JsString) (options : Options) (h : options.ordinary) :
    ∃ res, generateFrom f l d options = Except.ok res := by
  obtain ⟨hd, hp⟩ := h
  have h1 : ∃ st1, (match options.detectedPattern with
      | none => (Except.ok { seen := [], results := [] } : Except GenError GenState)
      | some dp => if dp = [] then Except.ok { seen := [], results := [] }
          else addIfKnown f l d { seen := [], results := [] } dp 50) = Except.ok st1 := by
    cases hdp : options.detectedPattern with
    | none => exact ⟨_, rfl⟩
    | some dp =>
      dsimp only
      split
      · exact ⟨_, rfl⟩
      · exact addIfKnown_ordinary f l d _ dp 50 (hd dp hdp)
  obtain ⟨st1, h1⟩ := h1
  have h2 : ∃ st2, (match options.providerPatterns with
      | none => (Except.ok st1 : Except GenError GenState)
      | some ps => addProviders f l d st1 ps) = Except.ok st2 := by
    cases hps : options.providerPatterns with
    | none => exact ⟨_, rfl⟩
    | some ps => exact addProviders_ordinary f l d ps (hp ps hps) st1
  obtain ⟨st2, h2⟩ := h2
  refine ⟨stableSort byWeight (addAll f l d st2).results, ?_⟩
  unfold generateFrom
  simp only [h1, h2]

/-- The loop over templates keeps `results` non-empty. -/
theorem foldl_addPattern_ne_nil (f l d : JsString) (ts : List Template) :
    ∀ st : GenState, st.results ≠ [] →
      (ts.foldl (fun s t => addPattern f l d s t 0) st).results ≠ [] := by
  induction ts with
  | nil => intro st h; exact h
  | cons t rest ih =>
    intro st h
    simp only [List.foldl_cons]
    apply ih
    rcases addPattern_results f l d st t 0 with h1 | h1
    · rw [h1]; exact h
    · rw [h1]; simp

/-- A successful call returns a non-empty list. -/
theorem generatePatterns_ne_nil (firstName lastName domain : JsString) (options : Options)
    (res : List Candidate)
    (hok : generatePatterns firstName lastName domain options = Except.ok res) : res ≠ [] := by
  unfold generatePatterns at hok
  dsimp only at hok
  split at hok
  · cases hok
  · unfold generateFrom at hok
    dsimp only at hok
    split at hok
    · cases hok
    · rename_i st1 h1
      split at hok
      · cases hok
      · rename_i st2 h2
        have hres := Except.ok.inj hok
        have hwf2 : GenState.WellFormed (normFirst firstName) (normLast lastName)
            (normDomain domain) st2 := by
          have hwf1 : GenState.WellFormed (normFirst firstName) (normLast lastName)
              (normDomain domain) st1 := by
            split at h1
            · cases h1; exact wellFormed_empty _ _ _
            · split at h1
              · cases h1; exact wellFormed_empty _ _ _
              · exact addIfKnown_wellFormed _ _ _ _ st1 _ 50 (wellFormed_empty _ _ _) h1
          split at h2
          · cases h2; exact hwf1
          · exact addProviders_wellFormed _ _ _ _ st1 st2 hwf1 h2
        have hne : (addAll (normFirst firstName) (normLast lastName) (normDomain domain)
            st2).results ≠ [] := by
          unfold addAll ALL_PATTERNS
          rw [List.foldl_cons]
          exact foldl_addPattern_ne_nil _ _ _ _ _ (addPattern_ne_nil _ _ _ st2 _ 0 hwf2)
        intro hnil
        rw [hnil] at hres
        have hlen := (stableSort_perm byWeight (addAll (normFirst firstName)
          (normLast lastName) (normDomain domain) st2).results).length_eq
        rw [hres] at hlen
        exact hne (List.length_eq_zero.1 hlen.symm)

/-- The characters of the pieces of a split are characters of the string or
of the piece in progress. -/
theorem splitWsAux_mem (s : List Char) :
    ∀ (cur : List Char) (b : Bool) (piece : JsString), piece ∈ splitWsAux s cur b →
      ∀ c ∈ piece, c ∈ s ∨ c ∈ cur := by
  induction s with
  | nil =>
    intro cur b piece hp c hc
    simp only [splitWsAux, List.mem_singleton] at hp
    subst hp
    exact Or.inr (List.mem_reverse.1 hc)
  | cons x xs ih =>
    intro cur b piece hp c hc
    simp only [splitWsAux] at hp
    split at hp
    · split at hp
      · rcases ih cur true piece hp c hc with h | h
        · exact Or.inl (List.mem_cons_of_mem _ h)
        · exact Or.inr h
      · rcases List.mem_cons.1 hp with h | h
        · subst h
          exact Or.inr (List.mem_reverse.1 hc)
        · rcases ih [] true piece h c hc with h1 | h1
          · exact Or.inl (List.mem_cons_of_mem _ h1)
          · simp at h1
    · rcases ih (x :: cur) false piece hp c hc with h | h
      · exact Or.inl (List.mem_cons_of_mem _ h)
      · rcases List.mem_cons.1 h with h1 | h1
        · subst h1
          exact Or.inl (List.mem_cons_self _ _)
        · exact Or.inr h1

/-- The characters of the pieces of a split are characters of the string. -/
theorem splitWs_mem (s : JsString) (piece : JsString) (hp : piece ∈ splitWs s) (c : Char)
    (hc : c ∈ piece) : c ∈ s := by
  rcases splitWsAux_mem s [] false piece hp c hc with h | h
  · exact h
  · simp at h

/-- The characters of a trimmed string are characters of the string. -/
theorem trim_mem (s : JsString) (c : Char) (hc : c ∈ trim s) : c ∈ s := by
  unfold trim at hc
  have h1 := (List.dropWhile_sublist isJsSpace).subset (List.mem_reverse.1 hc)
  exact (List.dropWhile_sublist isJsSpace).subset (List.mem_reverse.1 h1)

/-- A first name whose lower-case form holds no letter of `a` to `z` has an
empty token. -/
theorem normFirst_eq_nil (name : JsString)
    (h : ∀ ch ∈ toLowerCase name, ¬ ('a' ≤ ch ∧ ch ≤ 'z')) : normFirst name = [] := by
  unfold normFirst stripNonLetters
  dsimp only
  rw [List.filter_eq_nil_iff]
  intro c hc
  have hmem : c ∈ toLowerCase name := by
    cases hsp : splitWs (trim (toLowerCase name)) with
    | nil => rw [hsp] at hc; simp at hc
    | cons piece rest =>
      rw [hsp] at hc
      exact trim_mem _ c (splitWs_mem _ piece (by rw [hsp]; exact List.mem_cons_self _ _) c hc)
  simpa using h c hmem

/-- A last name whose lower-case form holds no letter of `a` to `z` has an
empty token. -/
theorem normLast_eq_nil (name : JsString)
    (h : ∀ ch ∈ toLowerCase name, ¬ ('a' ≤ ch ∧ ch ≤ 'z')) : normLast name = [] := by
  unfold normLast stripNonLetters
  dsimp only
  rw [List.filter_eq_nil_iff]
  intro c hc
  have hmem : c ∈ toLowerCase name := by
    rcases List.mem_cons.1 (List.getLastD_mem_cons (splitWs (trim (toLowerCase name))) [])
      with h1 | h1
    · rw [h1] at hc; simp at hc
    · exact trim_mem _ c (splitWs_mem _ _ h1 c hc)
  simpa using h c hmem

/-- An option id that names an inherited property makes the call throw a
`TypeError`, whatever the names. -/
theorem generatePatterns_inherited_key :
    generatePatterns "Ada".toList "Lovelace".toList "example.com".toList
      { detectedPattern := some "constructor".toList, providerPatterns := none }
      = Except.error GenError.typeError := by
  rfl

/-- C7. The call `generatePatterns` throws its `required` error if and only if
the normalised first token, the normalised last token or the trimmed,
lower-cased domain is empty, whatever the options; in every other case, with
absent options or options whose ids are ordinary, it returns a non-empty
candidate list; and a first or last name whose lower-case form holds no letter
of `a` to `z` makes it throw the `required` error. -/
theorem generatePatterns_required_iff (firstName lastName domain : JsString) :
    (∀ options, generatePatterns firstName lastName domain options
          = Except.error GenError.required ↔
        (normFirst firstName = [] ∨ normLast lastName = [] ∨ normDomain domain = [])) ∧
      (¬ (normFirst firstName = [] ∨ normLast lastName = [] ∨ normDomain domain = []) →
        ∀ options, options.ordinary →
          ∃ res, generatePatterns firstName lastName domain options = Except.ok res ∧
            res ≠ []) ∧
      ((∀ ch ∈ toLowerCase firstName, ¬ ('a' ≤ ch ∧ ch ≤ 'z')) →
        ∀ options, generatePatterns firstName lastName domain options
          = Except.error GenError.required) ∧
      ((∀ ch ∈ toLowerCase lastName, ¬ ('a' ≤ ch ∧ ch ≤ 'z')) →
        ∀ options, generatePatterns firstName lastName domain options
          = Except.error GenError.required) := by
  have hiff : ∀ options, generatePatterns firstName lastName domain options
        = Except.error GenError.required ↔
      (normFirst firstName = [] ∨ normLast lastName = [] ∨ normDomain domain = []) := by
    intro options
    constructor
    · intro h
      by_contra hg
      unfold generatePatterns at h
      dsimp only at h
      rw [if_neg hg] at h
      exact absurd (generateFrom_error _ _ _ options _ h) (by decide)
    · intro hg
      unfold generatePatterns
      dsimp only
      rw [if_pos hg]
  refine ⟨hiff, ?_, ?_, ?_⟩
  · intro hg options hord
    obtain ⟨res, hres⟩ := generateFrom_ordinary (normFirst firstName) (normLast lastName)
      (normDomain domain) options hord
    have hok : generatePatterns firstName lastName domain options = Except.ok res := by
      unfold generatePatterns
      dsimp only
      rw [if_neg hg]
      exact hres
    exact ⟨res, hok, generatePatterns_ne_nil firstName lastName domain options res hok⟩
  · intro h options
    exact (hiff options).2 (Or.inl (normFirst_eq_nil firstName h))
  · intro h options
    exact (hiff options).2 (Or.inr (Or.inl (normLast_eq_nil lastName h)))

/-- Witness of C7: the first name `123` has an empty token and makes the call
throw the `required` error. -/
theorem generatePatterns_required_iff_witness :
    normFirst "123".toList = [] ∧
      generatePatterns "123".toList "Lovelace".toList "example.com".toList
        { detectedPattern := none, providerPatterns := none }
        = Except.error GenError.required :=
  ⟨by decide,
    (generatePatterns_required_iff "123".toList "Lovelace".toList "example.com".toList).2.2.1
      (by decide) { detectedPattern := none, providerPatterns := none }⟩

/-! ## Properties of the mail-transport verifier -/

/-- C8, at two failing inputs. When the reply to `RSET` never arrives, the one
address probed gets two outcomes, `valid` and then `error`; when the
connection is refused, an address listed twice gets one outcome only. -/
theorem verifyEmails_outcome_count :
    (verifyEmails rsetTimeoutNet ["a@x.test".toList]).1
        = [{ email := "a@x.test".toList, status := SmtpStatus.valid, code := some 250 },
           { email := "a@x.test".toList, status := SmtpStatus.error, code := none }] ∧
      (verifyEmails refusedNet ["a@x.test".toList, "a@x.test".toList]).1
        = [{ email := "a@x.test".toList, status := SmtpStatus.error, code := none }] := by
  decide

/-- The outer `catch` loop keeps the entries it is given. -/
theorem markAllError_subset (emails : List JsString) :
    ∀ (res : List ProbeOutcome) (r : ProbeOutcome), r ∈ res → r ∈ markAllError emails res := by
  induction emails with
  | nil => intro res r hr; exact hr
  | cons e rest ih =>
    intro res r hr
    simp only [markAllError, List.foldl_cons]
    apply ih
    unfold markError
    split
    · exact hr
    · exact List.mem_append_left _ hr

/-- After a step of the outer `catch` loop the address has an entry. -/
theorem markError_has (res : List ProbeOutcome) (email : JsString) :
    ∃ r ∈ markError res email, r.email = email := by
  unfold markError
  split
  · rename_i h
    obtain ⟨r, hr, heq⟩ := List.any_eq_true.1 h
    exact ⟨r, hr, by simpa using heq⟩
  · exact ⟨_, List.mem_append_right _ (List.mem_singleton_self _), rfl⟩

/-- After the outer `catch` loop every address has an entry. -/
theorem markAllError_covers (emails : List JsString) :
    ∀ (res : List ProbeOutcome), ∀ e ∈ emails, ∃ r ∈ markAllError emails res, r.email = e := by
  induction emails with
  | nil => intro res e he; simp at he
  | cons x rest ih =>
    intro res e he
    simp only [markAllError, List.foldl_cons]
    rcases List.mem_cons.1 he with h | h
    · subst h
      obtain ⟨r, hr, heq⟩ := markError_has res e
      exact ⟨r, markAllError_subset rest _ r hr, heq⟩
    · exact ih _ e h

/-- The entries the outer `catch` loop adds are `error` outcomes without a
code, for addresses of the list. -/
theorem markAllError_mem (emails : List JsString) :
    ∀ (res : List ProbeOutcome) (r : ProbeOutcome), r ∈ markAllError emails res →
      r ∈ res ∨ (r.status = SmtpStatus.error ∧ r.code = none ∧ r.email ∈ emails) := by
  induction emails with
  | nil => intro res r hr; exact Or.inl hr
  | cons x rest ih =>
    intro res r hr
    simp only [markAllError, List.foldl_cons] at hr
    rcases ih _ r hr with h | ⟨h1, h2, h3⟩
    · unfold markError at h
      split at h
      · exact Or.inl h
      · rcases List.mem_append.1 h with h | h
        · exact Or.inl h
        · simp only [List.mem_singleton] at h
          subst h
          exact Or.inr ⟨rfl, rfl, List.mem_cons_self _ _⟩
    · exact Or.inr ⟨h1, h2, List.mem_cons_of_mem _ h3⟩

/-- When the session is not opened, the result is what the outer `catch` builds
from the empty array. -/
theorem verifyEmails_of_failure (net : Network) (emails : List JsString)
    (h : net.connect ≠ ConnectResult.connected ∨ net.greeting ≠ some 220 ∨
      net.reply [] Command.ehlo ≠ some 250) :
    (verifyEmails net emails).1 = markAllError emails [] := by
  unfold verifyEmails
  split
  · rfl
  · rfl
  · rename_i hconn
    split
    · rfl
    · rename_i g hg
      split
      · rfl
      · rename_i hg220
        simp only [sendCommand]
        split
        · rename_i s0 he
          simp only [Prod.mk.injEq] at he
          rw [← he.1]
        · rename_i s0 e he
          split
          · simp only [Prod.mk.injEq] at he
            rw [← he.1]
          · rename_i he250
            exfalso
            simp only [ne_eq, Decidable.not_not] at hg220 he250
            subst hg220
            subst he250
            simp only [Prod.mk.injEq] at he
            rcases h with h | h | h
            · exact h hconn
            · exact h hg
            · exact h he.2

/-- C9. If the connection attempt fails or times out, or the greeting is not a
reply with code 220, or the reply to `EHLO` is not a reply with code 250, then
every requested address is reported with status `error` and code `null`, and
every outcome reported is such an outcome for a requested address. -/
theorem verifyEmails_session_failure (net : Network) (emails : List JsString)
    (h : net.connect ≠ ConnectResult.connected ∨ net.greeting ≠ some 220 ∨
      net.reply [] Command.ehlo ≠ some 250) :
    (∀ e ∈ emails, { email := e, status := SmtpStatus.error, code := none }
        ∈ (verifyEmails net emails).1) ∧
      (∀ r ∈ (verifyEmails net emails).1,
        r.status = SmtpStatus.error ∧ r.code = none ∧ r.email ∈ emails) := by
  rw [verifyEmails_of_failure net emails h]
  have hall : ∀ r ∈ markAllError emails [],
      r.status = SmtpStatus.error ∧ r.code = none ∧ r.email ∈ emails := by
    intro r hr
    rcases markAllError_mem emails [] r hr with h1 | h1
    · simp at h1
    · exact h1
  refine ⟨?_, hall⟩
  intro e he
  obtain ⟨r, hr, heq⟩ := markAllError_covers emails [] e he
  obtain ⟨h1, h2, _⟩ := hall r hr
  have hreq : r = { email := e, status := SmtpStatus.error, code := none } := by
    cases r
    simp only at h1 h2 heq
    subst h1 h2 heq
    rfl
  rw [← hreq]
  exact hr

/-- Witness of C9: a greeting with code 554. -/
theorem verifyEmails_session_failure_witness :
    (badGreetingNet.connect ≠ ConnectResult.connected ∨ badGreetingNet.greeting ≠ some 220 ∨
        badGreetingNet.reply [] Command.ehlo ≠ some 250) ∧
      (∀ e ∈ ["a@x.test".toList, "b@x.test".toList],
        { email := e, status := SmtpStatus.error, code := none }
          ∈ (verifyEmails badGreetingNet ["a@x.test".toList, "b@x.test".toList]).1) ∧
      (∀ r ∈ (verifyEmails badGreetingNet ["a@x.test".toList, "b@x.test".toList]).1,
        r.status = SmtpStatus.error ∧ r.code = none ∧
          r.email ∈ ["a@x.test".toList, "b@x.test".toList]) :=
  ⟨Or.inr (Or.inl (by decide)),
    verifyEmails_session_failure badGreetingNet ["a@x.test".toList, "b@x.test".toList]
      (Or.inr (Or.inl (by decide)))⟩

/-- One iteration of the loop against a server that replies 250 to
`MAIL FROM:<>`, `RCPT TO` and `RSET`. -/
theorem probeOne_accepting (net : Network)
    (hm : ∀ sent, net.reply sent Command.mailFromEmpty = some 250)
    (hr : ∀ sent e, net.reply sent (Command.rcptTo e) = some 250)
    (hs : ∀ sent, net.reply sent Command.rset = some 250)
    (s : Session) (email : JsString) :
    probeOne net s email =
      { results := s.results ++
          [{ email := email, status := SmtpStatus.valid, code := some 250 }],
        sent := s.sent ++ acceptedCommands email } := by
  simp [probeOne, rcptPhase, sendCommand, pushResult, hm, hr, hs, classify, acceptedCommands]

/-- The loop against a server that replies 250 to `MAIL FROM:<>`, `RCPT TO`
and `RSET`. -/
theorem foldl_probeOne_accepting (net : Network)
    (hm : ∀ sent, net.reply sent Command.mailFromEmpty = some 250)
    (hr : ∀ sent e, net.reply sent (Command.rcptTo e) = some 250)
    (hs : ∀ sent, net.reply sent Command.rset = some 250)
    (emails : List JsString) :
    ∀ s : Session, emails.foldl (probeOne net) s =
      { results := s.results ++ emails.map
          (fun e => { email := e, status := SmtpStatus.valid, code := some 250 }),
        sent := s.sent ++ emails.flatMap acceptedCommands } := by
  induction emails with
  | nil => intro s; simp
  | cons e rest ih =>
    intro s
    rw [List.foldl_cons, probeOne_accepting net hm hr hs, ih]
    simp

/-- C10. Against a server that greets with 220 and replies 250 to `EHLO`, to
every `MAIL FROM:<>`, to every `RCPT TO` and to every `RSET`, `verifyEmails`
reports every address of the list as `valid` with code 250, in input order, and
its network actions are: one connect, `EHLO`, then for each address in order
`MAIL FROM:<>`, `RCPT TO:<address>`, `RSET`, then `QUIT`, and the release of the
socket. -/
theorem verifyEmails_accepting (net : Network) (emails : List JsString)
    (hc : net.connect = ConnectResult.connected) (hg : net.greeting = some 220)
    (he : ∀ sent, net.reply sent Command.ehlo = some 250)
    (hm : ∀ sent, net.reply sent Command.mailFromEmpty = some 250)
    (hr : ∀ sent e, net.reply sent (Command.rcptTo e) = some 250)
    (hs : ∀ sent, net.reply sent Command.rset = some 250) :
    verifyEmails net emails =
      (emails.map (fun e => { email := e, status := SmtpStatus.valid, code := some 250 }),
        Action.connect :: Action.send Command.ehlo ::
          ((emails.flatMap acceptedCommands).map Action.send ++
            [Action.send Command.quit, Action.destroy])) := by
  unfold verifyEmails
  simp [hc, hg, he, sendCommand, foldl_probeOne_accepting net hm hr hs]

/-- Witness of C10: two addresses on the server that accepts everything. -/
theorem verifyEmails_accepting_witness :
    verifyEmails acceptAllNet ["a@x.test".toList, "b@x.test".toList] =
      ([{ email := "a@x.test".toList, status := SmtpStatus.valid, code := some 250 },
        { email := "b@x.test".toList, status := SmtpStatus.valid, code := some 250 }],
        [Action.connect, Action.send Command.ehlo,
          Action.send Command.mailFromEmpty, Action.send (Command.rcptTo "a@x.test".toList),
          Action.send Command.rset,
          Action.send Command.mailFromEmpty, Action.send (Command.rcptTo "b@x.test".toList),
          Action.send Command.rset,
          Action.send Command.quit, Action.destroy]) :=
  verifyEmails_accepting acceptAllNet ["a@x.test".toList, "b@x.test".toList] rfl rfl
    (fun _ => rfl) (fun _ => rfl) (fun _ _ => rfl) (fun _ => rfl)

/-- When every reply to `RSET` arrives, one iteration of the loop pushes exactly
one outcome, for the address probed. -/
theorem probeOne_results (net : Network) (hs : ∀ sent, net.reply sent Command.rset ≠ none)
    (s : Session) (email : JsString) :
    ∃ r, (probeOne net s email).results = s.results ++ [r] ∧ r.email = email := by
  have hrcpt : ∀ s1 : Session,
      ∃ r, (rcptPhase net s1 email).results = s1.results ++ [r] ∧ r.email = email := by
    intro s1
    unfold rcptPhase
    simp only [sendCommand, pushResult]
    cases h1 : net.reply s1.sent (Command.rcptTo email) with
    | none => exact ⟨_, rfl, rfl⟩
    | some code =>
      dsimp only
      cases h2 : net.reply (s1.sent ++ [Command.rcptTo email]) Command.rset with
      | none => exact absurd h2 (hs _)
      | some c => exact ⟨_, rfl, rfl⟩
  unfold probeOne
  simp only [sendCommand, pushResult]
  cases h1 : net.reply s.sent Command.mailFromEmpty with
  | none => exact ⟨_, rfl, rfl⟩
  | some c1 =>
    dsimp only
    split
    · cases h2 : net.reply (s.sent ++ [Command.mailFromEmpty]) Command.mailFromVerify with
      | none => exact ⟨_, rfl, rfl⟩
      | some c2 =>
        dsimp only
        split
        · exact ⟨_, rfl, rfl⟩
        · exact hrcpt _
    · exact hrcpt _

/-- When the session opens and every reply to `RSET` arrives, `verifyEmails`
reports exactly one outcome per address of the list, in input order. -/
theorem verifyEmails_one_per_address (net : Network) (emails : List JsString)
    (hc : net.connect = ConnectResult.connected) (hg : net.greeting = some 220)
    (he : net.reply [] Command.ehlo = some 250)
    (hs : ∀ sent, net.reply sent Command.rset ≠ none) :
    (verifyEmails net emails).1.map (fun r => r.email) = emails := by
  have hfold : ∀ (es : List JsString) (s : Session),
      (es.foldl (probeOne net) s).results.map (fun r => r.email)
        = s.results.map (fun r => r.email) ++ es := by
    intro es
    induction es with
    | nil => intro s; simp
    | cons e rest ih =>
      intro s
      obtain ⟨r, hr, hre⟩ := probeOne_results net hs s e
      rw [List.foldl_cons, ih, hr]
      simp [hre]
  unfold verifyEmails
  simp [hc, hg, he, sendCommand, hfold]

/-! ## Further properties of the confidence scorer -/

/-- The clamp keeps the score between 0 and 100. -/
theorem clampScore_bounds (s : Int) : 0 ≤ clampScore s ∧ clampScore s ≤ 100 := by
  unfold clampScore
  omega

/-- The tier chain never yields `invalid`. -/
theorem tierOf_ne_invalid (score : Int) : tierOf score ≠ Confidence.invalid := by
  unfold tierOf
  split_ifs <;> decide

/-- C16. For every signal record whose transport status is not `invalid`,
`scoreEmail` returns a score between 0 and 100, and the tier is fixed by the
score: `verified` iff the score is at least 75, `likely` iff it is in 50..74,
`possible` iff it is in 30..49, `low` iff it is below 30. -/
theorem scoreEmail_bounds_tier (p : Params) (h : p.smtpStatus ≠ SmtpStatus.invalid) :
    0 ≤ (scoreEmail p).score ∧ (scoreEmail p).score ≤ 100 ∧
      ((scoreEmail p).confidence = Confidence.verified ↔ 75 ≤ (scoreEmail p).score) ∧
      ((scoreEmail p).confidence = Confidence.likely ↔
        50 ≤ (scoreEmail p).score ∧ (scoreEmail p).score < 75) ∧
      ((scoreEmail p).confidence = Confidence.possible ↔
        30 ≤ (scoreEmail p).score ∧ (scoreEmail p).score < 50) ∧
      ((scoreEmail p).confidence = Confidence.low ↔ (scoreEmail p).score < 30) := by
  have hb := clampScore_bounds (accumulate p).1
  simp only [scoreEmail, if_neg h]
  generalize clampScore (accumulate p).1 = sc at hb
  refine ⟨hb.1, hb.2, ?_, ?_, ?_, ?_⟩ <;>
  · unfold tierOf
    split_ifs <;> simp <;> omega

/-- Witness of C16: a valid record with the address found on the site. -/
theorem scoreEmail_bounds_tier_witness :
    (foundValidParams true).smtpStatus ≠ SmtpStatus.invalid ∧
      0 ≤ (scoreEmail (foundValidParams true)).score ∧
      (scoreEmail (foundValidParams true)).score ≤ 100 ∧
      ((scoreEmail (foundValidParams true)).confidence = Confidence.verified ↔
        75 ≤ (scoreEmail (foundValidParams true)).score) ∧
      ((scoreEmail (foundValidParams true)).confidence = Confidence.likely ↔
        50 ≤ (scoreEmail (foundValidParams true)).score ∧
          (scoreEmail (foundValidParams true)).score < 75) ∧
      ((scoreEmail (foundValidParams true)).confidence = Confidence.possible ↔
        30 ≤ (scoreEmail (foundValidParams true)).score ∧
          (scoreEmail (foundValidParams true)).score < 50) ∧
      ((scoreEmail (foundValidParams true)).confidence = Confidence.low ↔
        (scoreEmail (foundValidParams true)).score < 30) :=
  ⟨by decide, scoreEmail_bounds_tier (foundValidParams true) (by decide)⟩

/-- C17. For every signal record, if `scoreEmail` returns tier `invalid` then
the returned score is 0 and the transport status of the record is `invalid`;
so a record with transport status `valid`, `unknown` or `error` never gets tier
`invalid`. -/
theorem scoreEmail_invalid_only (p : Params)
    (h : (scoreEmail p).confidence = Confidence.invalid) :
    (scoreEmail p).score = 0 ∧ p.smtpStatus = SmtpStatus.invalid := by
  by_cases hs : p.smtpStatus = SmtpStatus.invalid
  · exact ⟨(scoreEmail_invalid p hs).1, hs⟩
  · simp only [scoreEmail, if_neg hs] at h
    exact absurd h (tierOf_ne_invalid _)

/-- Witness of C17: the rejected record. -/
theorem scoreEmail_invalid_only_witness :
    (scoreEmail rejectedParams).confidence = Confidence.invalid ∧
      (scoreEmail rejectedParams).score = 0 ∧
      rejectedParams.smtpStatus = SmtpStatus.invalid :=
  ⟨by decide, scoreEmail_invalid_only rejectedParams (by decide)⟩

/-- The tier of a record is `invalid` exactly when its transport status is. -/
theorem scoreEmail_confidence_invalid_iff (p : Params) :
    (scoreEmail p).confidence = Confidence.invalid ↔ p.smtpStatus = SmtpStatus.invalid :=
  ⟨fun h => (scoreEmail_invalid_only p h).2, fun h => (scoreEmail_invalid p h).2⟩

/-- Insertion keeps the order among the elements of a class whose members the
comparator orders before each other. -/
theorem insertSorted_filter {α : Type} (before : α → α → Bool) (q : α → Bool)
    (hq : ∀ a b, q a = true → q b = true → before a b = true) (a : α) (l : List α) :
    (insertSorted before a l).filter q = (a :: l).filter q := by
  induction l with
  | nil => rfl
  | cons b l ih =>
    simp only [insertSorted]
    split
    · rfl
    · rename_i hab
      by_cases hb : q b = true
      · have ha : q a = false := by
          by_contra hn
          exact hab (hq a b (by simpa using hn) hb)
        rw [List.filter_cons_of_pos hb, ih, List.filter_cons_of_neg (by simp [ha]),
          List.filter_cons_of_neg (by simp [ha]), List.filter_cons_of_pos hb]
      · rw [List.filter_cons_of_neg hb, ih]
        by_cases ha : q a = true
        · rw [List.filter_cons_of_pos ha, List.filter_cons_of_pos ha, List.filter_cons_of_neg hb]
        · rw [List.filter_cons_of_neg ha, List.filter_cons_of_neg ha, List.filter_cons_of_neg hb]

/-- The sort keeps the order among the elements of a class whose members the
comparator orders before each other. -/
theorem stableSort_filter {α : Type} (before : α → α → Bool) (q : α → Bool)
    (hq : ∀ a b, q a = true → q b = true → before a b = true) (l : List α) :
    (stableSort before l).filter q = l.filter q := by
  induction l with
  | nil => rfl
  | cons a l ih =>
    simp only [stableSort]
    rw [insertSorted_filter before q hq]
    by_cases ha : q a = true
    · rw [List.filter_cons_of_pos ha, List.filter_cons_of_pos ha, ih]
    · rw [List.filter_cons_of_neg ha, List.filter_cons_of_neg ha, ih]

/-- Dropping the results of tier `invalid` is dropping the records of transport
status `invalid`. -/
theorem filter_scored_eq (results : List Params) :
    (results.map scoreEmail).filter (fun r => r.confidence != Confidence.invalid)
      = (results.filter (fun p => p.smtpStatus != SmtpStatus.invalid)).map scoreEmail := by
  induction results with
  | nil => rfl
  | cons p rest ih =>
    by_cases hs : p.smtpStatus = SmtpStatus.invalid
    · have hc := (scoreEmail_confidence_invalid_iff p).2 hs
      simp [List.filter_cons, hs, hc, ih]
    · have hc : ¬ (scoreEmail p).confidence = Confidence.invalid :=
        fun h => hs ((scoreEmail_confidence_invalid_iff p).1 h)
      simp [List.filter_cons, hs, hc, ih]

/-- C18. For every list of signal records, `scoreAndRank` returns exactly the
`scoreEmail` results of the records whose transport status is not `invalid`
(a permutation of them), ordered by non-increasing score, and for every score
the results with that score come in their order of the input list. -/
theorem scoreAndRank_spec (results : List Params) :
    (scoreAndRank results).Perm
        ((results.filter (fun p => p.smtpStatus != SmtpStatus.invalid)).map scoreEmail) ∧
      (scoreAndRank results).Pairwise (fun a b => b.score ≤ a.score) ∧
      ∀ v : Int, (scoreAndRank results).filter (fun r => r.score == v)
        = ((results.filter (fun p => p.smtpStatus != SmtpStatus.invalid)).map
            scoreEmail).filter (fun r => r.score == v) := by
  unfold scoreAndRank
  rw [filter_scored_eq]
  refine ⟨stableSort_perm _ _, ?_, ?_⟩
  · refine (stableSort_pairwise _ ?_ ?_ _).imp ?_
    · intro a b
      simp only [decide_eq_true_eq]
      omega
    · intro a b c h1 h2
      simp only [decide_eq_true_eq] at *
      omega
    · intro a b hab
      simpa using hab
  · intro v
    apply stableSort_filter
    intro a b ha hb
    simp only [beq_iff_eq] at ha hb
    simp [ha, hb]

/-- The ranking of three records: a rejected one is dropped, and of the two
with equal score the one listed first stays first. -/
theorem scoreAndRank_example :
    (scoreAndRank
        [{ foundValidParams true with email := "a@x.test".toList },
         rejectedParams,
         { foundValidParams false with email := "b@x.test".toList },
         { foundValidParams true with email := "c@x.test".toList }]).map
          (fun r => (r.email, r.score))
      = [("b@x.test".toList, 100), ("a@x.test".toList, 91), ("c@x.test".toList, 91)] := by
  decide

/-! ## The classification of the recipient reply -/

/-- The loop body from `RCPT TO` on pushes, as its first outcome, the address
with the class of the reply code and the reply code. -/
theorem rcptPhase_results (net : Network) (s : Session) (email : JsString) (code : Int)
    (h : net.reply s.sent (Command.rcptTo email) = some code) :
    (s.results ++ [({ email := email, status := classify code, code := some code } :
      ProbeOutcome)]) <+: (rcptPhase net s email).results := by
  unfold rcptPhase
  simp only [sendCommand, pushResult, h]
  cases net.reply (s.sent ++ [Command.rcptTo email]) Command.rset with
  | none => exact List.prefix_append _ _
  | some c => exact List.prefix_refl _

/-- C11. When the recipient query for an address is answered with a reply code,
the outcome pushed for the address (right after the outcomes already in
`results`) carries that code and a status that is a function of the code alone:
`valid` exactly for 250 and 251, `invalid` exactly for 550 to 559, and `unknown`
for every other code. -/
theorem rcpt_classification (net : Network) (s : Session) (email : JsString) (code : Int)
    (h : net.reply s.sent (Command.rcptTo email) = some code) :
    ((s.results ++ [({ email := email, status := classify code, code := some code } :
        ProbeOutcome)]) <+: (rcptPhase net s email).results) ∧
      (classify code = SmtpStatus.valid ↔ code = 250 ∨ code = 251) ∧
      (classify code = SmtpStatus.invalid ↔ 550 ≤ code ∧ code ≤ 559) ∧
      (classify code = SmtpStatus.unknown ↔
        ¬ (code = 250 ∨ code = 251) ∧ ¬ (550 ≤ code ∧ code ≤ 559)) := by
  refine ⟨rcptPhase_results net s email code h, ?_, ?_, ?_⟩ <;>
  · unfold classify
    split_ifs <;> simp <;> omega

/-- Witness of C11: the reply 521 to the recipient query. -/
theorem rcpt_classification_witness :
    (rcptReplyNet 521).reply [] (Command.rcptTo "a@x.test".toList) = some 521 ∧
      (([] ++ [({ email := "a@x.test".toList, status := classify 521, code := some 521 } :
          ProbeOutcome)]) <+:
        (rcptPhase (rcptReplyNet 521) { results := [], sent := [] } "a@x.test".toList).results) ∧
      (classify 521 = SmtpStatus.valid ↔ (521 : Int) = 250 ∨ (521 : Int) = 251) ∧
      (classify 521 = SmtpStatus.invalid ↔ (550 : Int) ≤ 521 ∧ (521 : Int) ≤ 559) ∧
      (classify 521 = SmtpStatus.unknown ↔
        ¬ ((521 : Int) = 250 ∨ (521 : Int) = 251) ∧ ¬ ((550 : Int) ≤ 521 ∧ (521 : Int) ≤ 559)) :=
  ⟨rfl, rcpt_classification (rcptReplyNet 521) { results := [], sent := [] } "a@x.test".toList
    521 rfl⟩

/-- The classes of the reply codes named in the specification. -/
theorem classify_examples :
    classify 250 = SmtpStatus.valid ∧ classify 251 = SmtpStatus.valid ∧
      classify 252 = SmtpStatus.unknown ∧ classify 450 = SmtpStatus.unknown ∧
      classify 501 = SmtpStatus.unknown ∧ classify 521 = SmtpStatus.unknown ∧
      classify 550 = SmtpStatus.invalid ∧ classify 559 = SmtpStatus.invalid ∧
      classify 560 = SmtpStatus.unknown := by
  decide

/-! ## End to end over the pure stages -/

/-- C15 as stated fails: for Ada Lovelace at `example-co.test`, with the dotted
address accepted by the transport and every other candidate rejected, the top
result is the dotted address with the tag `smtp_verified`, but its score is
45 + 11 = 56 and its tier is `likely`, not `verified`. -/
theorem ada_end_to_end_counterexample :
    ((rankCandidates "Ada".toList "Lovelace".toList "example-co.test".toList adaNet
        noSignals).toOption.bind List.head?).map
          (fun r => (r.email, decide (75 ≤ r.score), r.confidence == Confidence.verified,
            r.signals.contains Tag.smtp_verified))
      = some ("ada.lovelace@example-co.test".toList, false, false, true) := by
  decide

/-- C15, amended. For Ada Lovelace at `example-co.test` with no detected and no
provider convention, the dotted address accepted by the transport and every
other candidate rejected, no site addresses, not catch-all and no other signal,
the ranking holds one result: `ada.lovelace@example-co.test` with score 56,
tier `likely`, and the single signal tag `smtp_verified`. -/
theorem ada_end_to_end :
    (rankCandidates "Ada".toList "Lovelace".toList "example-co.test".toList adaNet
        noSignals).toOption
      = some [{ email := "ada.lovelace@example-co.test".toList, score := 56,
                confidence := Confidence.likely, signals := [Tag.smtp_verified],
                method := Tag.smtp_verified }] := by
  decide

/-! ## Properties of the cache -/

/-- A read leaves the entry of a key as it is, or removes it. -/
theorem Cache.get_store {κ α : Type} [DecidableEq κ] (c : Cache κ α) (k key : κ) (now : Int) :
    (c.get k now).2.store key = c.store key ∨ (c.get k now).2.store key = none := by
  unfold Cache.get
  split
  · exact Or.inl rfl
  · split
    · dsimp only
      split
      · exact Or.inr rfl
      · exact Or.inl rfl
    · exact Or.inl rfl

/-- A read at an instant not later than the expiry of an entry keeps the
entry. -/
theorem Cache.get_store_of_le {κ α : Type} [DecidableEq κ] (c : Cache κ α) (k key : κ)
    (now : Int) (e : CacheEntry α) (he : c.store key = some e) (hnow : now ≤ e.expires) :
    (c.get k now).2.store key = some e := by
  unfold Cache.get
  split
  · exact he
  · rename_i entry hentry
    split
    · rename_i hgt
      dsimp only
      split
      · rename_i hk
        subst hk
        rw [he] at hentry
        cases hentry
        omega
      · exact he
    · exact he

/-- A call that is no `set` of the key and no `clear` leaves the entry of the
key as it is, or removes it. -/
theorem CacheOp.apply_store {κ α : Type} [DecidableEq κ] (c : Cache κ α) (key : κ)
    (op : CacheOp κ α) (hop : op.resets key = false) :
    (op.apply c).store key = c.store key ∨ (op.apply c).store key = none := by
  cases op with
  | get k now => exact Cache.get_store c k key now
  | has k now => exact Cache.get_store c k key now
  | set k value ttl now =>
    simp only [CacheOp.resets, decide_eq_false_iff_not] at hop
    left
    simp only [CacheOp.apply, Cache.set]
    rw [if_neg (fun h => hop h.symm)]
  | clear => simp [CacheOp.resets] at hop

/-- A call that is no `set` of the key and no `clear`, at an instant not later
than the expiry of the entry of the key, keeps the entry. -/
theorem CacheOp.apply_store_of_le {κ α : Type} [DecidableEq κ] (c : Cache κ α) (key : κ)
    (op : CacheOp κ α) (e : CacheEntry α) (he : c.store key = some e)
    (hop : op.resets key = false) (ht : op.notAfter e.expires = true) :
    (op.apply c).store key = some e := by
  cases op with
  | get k now =>
    simp only [CacheOp.notAfter, decide_eq_true_eq] at ht
    exact Cache.get_store_of_le c k key now e he ht
  | has k now =>
    simp only [CacheOp.notAfter, decide_eq_true_eq] at ht
    exact Cache.get_store_of_le c k key now e he ht
  | set k value ttl now =>
    simp only [CacheOp.resets, decide_eq_false_iff_not] at hop
    simp only [CacheOp.apply, Cache.set]
    rw [if_neg (fun h => hop h.symm)]
    exact he
  | clear => simp [CacheOp.resets] at hop

/-- Calls that are no `set` of the key and no `clear` leave the entry of the
key as it is, or remove it. -/
theorem Cache.run_store {κ α : Type} [DecidableEq κ] (key : κ) (ops : List (CacheOp κ α))
    (hops : ∀ op ∈ ops, op.resets key = false) :
    ∀ c : Cache κ α, (c.run ops).store key = c.store key ∨ (c.run ops).store key = none := by
  induction ops with
  | nil => intro c; exact Or.inl rfl
  | cons op rest ih =>
    intro c
    have h1 := CacheOp.apply_store c key op (hops op (List.mem_cons_self _ _))
    have h2 := ih (fun o ho => hops o (List.mem_cons_of_mem _ ho)) (op.apply c)
    simp only [Cache.run, List.foldl_cons] at h2 ⊢
    rcases h2 with h2 | h2
    · rcases h1 with h1 | h1
      · exact Or.inl (h2.trans h1)
      · exact Or.inr (h2.trans h1)
    · exact Or.inr h2

/-- Calls that are no `set` of the key and no `clear`, at instants not later
than the expiry of the entry of the key, keep the entry. -/
theorem Cache.run_store_of_le {κ α : Type} [DecidableEq κ] (key : κ) (e : CacheEntry α)
    (ops : List (CacheOp κ α)) (hops : ∀ op ∈ ops, op.resets key = false)
    (ht : ∀ op ∈ ops, op.notAfter e.expires = true) :
    ∀ c : Cache κ α, c.store key = some e → (c.run ops).store key = some e := by
  induction ops with
  | nil => intro c he; exact he
  | cons op rest ih =>
    intro c he
    simp only [Cache.run, List.foldl_cons]
    exact ih (fun o ho => hops o (List.mem_cons_of_mem _ ho))
      (fun o ho => ht o (List.mem_cons_of_mem _ ho)) (op.apply c)
      (CacheOp.apply_store_of_le c key op e he (hops op (List.mem_cons_self _ _))
        (ht op (List.mem_cons_self _ _)))

/-- A call not later than `t` is not later than any instant from `t` on. -/
theorem CacheOp.notAfter_mono {κ α : Type} (op : CacheOp κ α) (t u : Int) (htu : t ≤ u)
    (h : op.notAfter t = true) : op.notAfter u = true := by
  cases op <;> simp only [CacheOp.notAfter, decide_eq_true_eq] at h ⊢ <;> omega

/-- C12. With an explicit clock: let `set(key, value, T)` with `T > 0` be called
at the instant `t0`, followed by any calls that are neither a `set` of that key
nor a `clear`. Then `get(key)` at an instant `t` with `t - t0 < T` returns the
stored value, provided the clock did not run backwards (the calls in between
read it at instants not later than `t`); and `get(key)` at an instant `t` with
`t - t0 > T` returns `null` and leaves no entry for the key in the store. -/
theorem cache_ttl {κ α : Type} [DecidableEq κ] (c : Cache κ α) (key : κ) (value : α) (T : Int)
    (hT : 0 < T) (t0 t : Int) (ops : List (CacheOp κ α))
    (hops : ∀ op ∈ ops, op.resets key = false) :
    ((∀ op ∈ ops, op.notAfter t = true) → t - t0 < T →
        (((c.set key value (some T) t0).run ops).get key t).1 = some value) ∧
      (t - t0 > T →
        (((c.set key value (some T) t0).run ops).get key t).1 = none ∧
        (((c.set key value (some T) t0).run ops).get key t).2.store key = none) := by
  have hset : (c.set key value (some T) t0).store key
      = some { value := value, expires := t0 + T } := by
    simp only [Cache.set, Cache.ttlOr, if_true]
    rw [if_neg (by omega)]
  constructor
  · intro htime hlt
    have hkeep := Cache.run_store_of_le key { value := value, expires := t0 + T } ops hops
      (fun op hop => CacheOp.notAfter_mono op t (t0 + T) (by omega) (htime op hop))
      (c.set key value (some T) t0) hset
    unfold Cache.get
    rw [hkeep]
    dsimp only
    rw [if_neg (by omega)]
  · intro hgt
    rcases Cache.run_store key ops hops (c.set key value (some T) t0) with h | h
    · rw [hset] at h
      unfold Cache.get
      rw [h]
      dsimp only
      rw [if_pos (by omega)]
      exact ⟨rfl, by simp⟩
    · unfold Cache.get
      rw [h]
      exact ⟨rfl, h⟩

/-- Witness of C12: a value set for 1000 ms at the instant 5000, read at 5600
after a read of another key, and read at 6001. -/
theorem cache_ttl_witness :
    (0 : Int) < 1000 ∧
      ((((Cache.create none : Cache String Nat).set "dns:x.test" 7 (some 1000) 5000).run
          [CacheOp.get "dns:y.test" 5300]).get "dns:x.test" 5600).1 = some 7 ∧
      ((((Cache.create none : Cache String Nat).set "dns:x.test" 7 (some 1000) 5000).run
          [CacheOp.get "dns:y.test" 5300]).get "dns:x.test" 6001).1 = none :=
  ⟨by decide,
    (cache_ttl (Cache.create none : Cache String Nat) "dns:x.test" 7 1000 (by decide) 5000 5600
      [CacheOp.get "dns:y.test" 5300] (by decide)).1 (by decide) (by decide),
    ((cache_ttl (Cache.create none : Cache String Nat) "dns:x.test" 7 1000 (by decide) 5000 6001
      [CacheOp.get "dns:y.test" 5300] (by decide)).2 (by decide)).1⟩

/-! ## Properties of the single-address verification -/

/-- One iteration of the probe loop pushes at least one outcome, and the first
one it pushes is for the address probed. -/
theorem probeOne_pushes (net : Network) (s : Session) (email : JsString) :
    ∃ r rest, (probeOne net s email).results = s.results ++ r :: rest ∧ r.email = email := by
  have hrcpt : ∀ s1 : Session, ∃ r rest,
      (rcptPhase net s1 email).results = s1.results ++ r :: rest ∧ r.email = email := by
    intro s1
    unfold rcptPhase
    simp only [sendCommand, pushResult]
    cases net.reply s1.sent (Command.rcptTo email) with
    | none => exact ⟨_, [], rfl, rfl⟩
    | some code =>
      dsimp only
      cases net.reply (s1.sent ++ [Command.rcptTo email]) Command.rset with
      | none =>
        exact ⟨{ email := email, status := classify code, code := some code },
          [{ email := email, status := SmtpStatus.error, code := none }], by simp, rfl⟩
      | some c => exact ⟨_, [], rfl, rfl⟩
  unfold probeOne
  simp only [sendCommand, pushResult]
  cases net.reply s.sent Command.mailFromEmpty with
  | none => exact ⟨_, [], rfl, rfl⟩
  | some c1 =>
    dsimp only
    split
    · cases net.reply (s.sent ++ [Command.mailFromEmpty]) Command.mailFromVerify with
      | none => exact ⟨_, [], rfl, rfl⟩
      | some c2 =>
        dsimp only
        split
        · exact ⟨_, [], rfl, rfl⟩
        · exact hrcpt _
    · exact hrcpt _

/-- For a single address `verifyEmails` returns a non-empty array whose first
element is an outcome for that address. -/
theorem verifyEmails_single_head (net : Network) (email : JsString) :
    ∃ r, (verifyEmails net [email]).1.head? = some r ∧ r.email = email := by
  have hfail : ∃ r, (markAllError [email] []).head? = some r ∧ r.email = email :=
    ⟨_, rfl, rfl⟩
  unfold verifyEmails
  split
  · exact hfail
  · exact hfail
  · split
    · exact hfail
    · split
      · exact hfail
      · simp only [sendCommand]
        split
        · rename_i s0 he
          simp only [Prod.mk.injEq] at he
          rw [← he.1]
          exact hfail
        · rename_i s0 e he
          simp only [Prod.mk.injEq] at he
          split
          · rw [← he.1]
            exact hfail
          · obtain ⟨r, rest, hr, hre⟩ := probeOne_pushes net s0 email
            refine ⟨r, ?_, hre⟩
            simp only [List.foldl_cons, List.foldl_nil]
            rw [hr, ← he.1]
            rfl

/-- The function `verifyEmail` never throws. -/
theorem verifyEmail_returns (env : VerifyEnv) (email : JsString) :
    ∃ r, verifyEmail env email = Except.ok r := by
  unfold verifyEmail
  dsimp only
  split
  · exact ⟨_, rfl⟩
  · split
    · exact ⟨_, rfl⟩
    · obtain ⟨probe, hprobe, _⟩ := verifyEmails_single_head env.smtpNet (trim (toLowerCase email))
      rw [hprobe]
      exact ⟨_, rfl⟩

/-- C19. For a well-formed address whose domain has a mail exchange,
`verifyEmail` returns a result whose status follows from the first probe
outcome and the catch-all flag: `risky` for a valid probe on a catch-all
domain, `valid` for a valid probe otherwise, `invalid` for an invalid probe,
`unknown` for the probe outcomes `unknown` and `error`; and the field `valid`
is true exactly when the status is `valid`. -/
theorem verifyEmail_status (env : VerifyEnv) (email : JsString)
    (hfmt : emailRegexTest (trim (toLowerCase email)) = true)
    (hmx : (env.dns ((splitAt (trim (toLowerCase email))).getD 1 [])).hasMx = true) :
    ∃ r probe, verifyEmail env email = Except.ok r ∧
      (verifyEmails env.smtpNet [trim (toLowerCase email)]).1.head? = some probe ∧
      (probe.status = SmtpStatus.valid →
        checkCatchAll env.catchAllNet env.stamp ((splitAt (trim (toLowerCase email))).getD 1 [])
          = true → r.status = some VerifyStatus.risky) ∧
      (probe.status = SmtpStatus.valid →
        checkCatchAll env.catchAllNet env.stamp ((splitAt (trim (toLowerCase email))).getD 1 [])
          = false → r.status = some VerifyStatus.valid) ∧
      (probe.status = SmtpStatus.invalid → r.status = some VerifyStatus.invalid) ∧
      (probe.status = SmtpStatus.unknown ∨ probe.status = SmtpStatus.error →
        r.status = some VerifyStatus.unknown) ∧
      (r.valid = true ↔ r.status = some VerifyStatus.valid) := by
  obtain ⟨probe, hprobe, _⟩ := verifyEmails_single_head env.smtpNet (trim (toLowerCase email))
  obtain ⟨r, hr⟩ : ∃ r, verifyEmail env email = Except.ok r ∧
      r.status = some (verdict probe.status (checkCatchAll env.catchAllNet env.stamp
        ((splitAt (trim (toLowerCase email))).getD 1 []))).1 ∧
      r.valid = ((verdict probe.status (checkCatchAll env.catchAllNet env.stamp
        ((splitAt (trim (toLowerCase email))).getD 1 []))).1 == VerifyStatus.valid) := by
    unfold verifyEmail
    simp only [hfmt, hmx, hprobe, Bool.not_true, Bool.false_eq_true, if_false]
    exact ⟨_, rfl, rfl, rfl⟩
  obtain ⟨hok, hstatus, hvalid⟩ := hr
  refine ⟨r, probe, hok, hprobe, ?_⟩
  rw [hstatus, hvalid]
  generalize checkCatchAll env.catchAllNet env.stamp
    ((splitAt (trim (toLowerCase email))).getD 1 []) = ca
  generalize probe.status = ps
  cases ps <;> cases ca <;> simp [verdict]

/-- Witness of C19: an accepted address on a domain that is not catch-all. -/
theorem verifyEmail_status_witness :
    emailRegexTest (trim (toLowerCase " John.Doe@Example.com ".toList)) = true ∧
      (acceptingEnv.dns
        ((splitAt (trim (toLowerCase " John.Doe@Example.com ".toList))).getD 1 [])).hasMx = true ∧
      ∃ r probe, verifyEmail acceptingEnv " John.Doe@Example.com ".toList = Except.ok r ∧
        (verifyEmails acceptingEnv.smtpNet
          [trim (toLowerCase " John.Doe@Example.com ".toList)]).1.head? = some probe ∧
        (probe.status = SmtpStatus.valid →
          checkCatchAll acceptingEnv.catchAllNet acceptingEnv.stamp
            ((splitAt (trim (toLowerCase " John.Doe@Example.com ".toList))).getD 1 [])
            = true → r.status = some VerifyStatus.risky) ∧
        (probe.status = SmtpStatus.valid →
          checkCatchAll acceptingEnv.catchAllNet acceptingEnv.stamp
            ((splitAt (trim (toLowerCase " John.Doe@Example.com ".toList))).getD 1 [])
            = false → r.status = some VerifyStatus.valid) ∧
        (probe.status = SmtpStatus.invalid → r.status = some VerifyStatus.invalid) ∧
        (probe.status = SmtpStatus.unknown ∨ probe.status = SmtpStatus.error →
          r.status = some VerifyStatus.unknown) ∧
        (r.valid = true ↔ r.status = some VerifyStatus.valid) :=
  ⟨by decide, by decide,
    verifyEmail_status acceptingEnv " John.Doe@Example.com ".toList (by decide) (by decide)⟩

/-- The statuses of the four kinds of accepted-format address: accepted,
accepted on a catch-all domain, rejected, and unreachable transport. -/
theorem verifyEmail_examples :
    (verifyEmail acceptingEnv "john.doe@example.com".toList).toOption.map
        (fun r => (r.status, r.valid)) = some (some VerifyStatus.valid, true) ∧
      (verifyEmail { acceptingEnv with catchAllNet := acceptAllNet }
        "john.doe@example.com".toList).toOption.map
        (fun r => (r.status, r.valid)) = some (some VerifyStatus.risky, false) ∧
      (verifyEmail { acceptingEnv with smtpNet := rcptReplyNet 550 }
        "john.doe@example.com".toList).toOption.map
        (fun r => (r.status, r.valid)) = some (some VerifyStatus.invalid, false) ∧
      (verifyEmail { acceptingEnv with smtpNet := refusedNet }
        "john.doe@example.com".toList).toOption.map
        (fun r => (r.status, r.valid)) = some (some VerifyStatus.unknown, false) := by
  decide

/-- C20, at two failing inputs. For a malformed address, and for an address
whose domain has no mail exchange, the object `verifyEmail` returns has the
properties `email`, `valid`, `reason`, `details` and `duration`, and no
`status` property. -/
theorem verifyEmail_no_status :
    verifyEmail acceptingEnv "not-an-email".toList
        = Except.ok { email := "not-an-email".toList, valid := false, status := none,
                      reason := "Invalid email format.", details := VerifyDetails.empty,
                      duration := 120 } ∧
      verifyEmail noMxEnv "ada@example.com".toList
        = Except.ok { email := "ada@example.com".toList, valid := false, status := none,
                      reason := "No MX records found.",
                      details := VerifyDetails.noMx "example.com".toList, duration := 15 } := by
  constructor <;> rfl

/-! ## Properties of the batch controller: the counters -/

/-- The initial state has consistent counters. -/
theorem init_counts {μ : Type} (n concurrency : Nat) :
    (BulkState.init n : BulkState μ).Counts n concurrency := by
  simp [BulkState.Counts, BulkState.init]

/-- Starting a lookup under the guard of the loop keeps the counters
consistent. -/
theorem startOne_counts {μ : Type} (n concurrency : Nat) (s : BulkState μ)
    (h : s.Counts n concurrency) (hr : s.running < concurrency) (hi : s.index < n) :
    (startOne s).Counts n concurrency := by
  obtain ⟨h1, h2, h3, h4, h5, h6⟩ := h
  refine ⟨?_, ?_, ?_, ?_, ?_, ?_⟩
  · simp [startOne, h1]
  · simp only [startOne]
    rw [List.nodup_append]
    refine ⟨h2, List.nodup_singleton _, ?_⟩
    intro a ha hb
    simp only [List.mem_singleton] at hb
    have := h3 a ha
    omega
  · intro i hmem
    simp only [startOne, List.mem_append, List.mem_singleton] at hmem ⊢
    rcases hmem with hmem | hmem
    · have := h3 i hmem
      omega
    · omega
  · simp only [startOne]
    omega
  · simp only [startOne]
    omega
  · simp only [startOne]
    omega

/-- A pending lookup is the lookup of a row. -/
theorem pending_row {μ : Type} (rows : List Row) (concurrency : Nat) (s : BulkState μ)
    (h : s.Counts rows.length concurrency) (i : Nat) (hi : i ∈ s.pending) :
    ∃ row, rows[i]? = some row := by
  have h1 := h.2.2.1 i hi
  have h2 := h.2.2.2.2.1
  exact ⟨rows[i], List.getElem?_eq_getElem (by omega)⟩

/-- The callbacks of a pending lookup leave `index` as it is. -/
theorem finishOne_index {μ : Type} (rows : List Row) (lookup : Nat → FindRequest → Settlement μ)
    (i : Nat) (s : BulkState μ) : (finishOne rows lookup i s).index = s.index := by
  unfold finishOne
  split
  · rfl
  · dsimp only
    split <;> rfl

/-- The callbacks of a pending lookup keep the counters consistent, and add
one to `completed`. -/
theorem finishOne_counts {μ : Type} (rows : List Row) (concurrency : Nat)
    (lookup : Nat → FindRequest → Settlement μ) (i : Nat) (s : BulkState μ)
    (h : s.Counts rows.length concurrency) (hi : i ∈ s.pending) :
    (finishOne rows lookup i s).Counts rows.length concurrency ∧
      (finishOne rows lookup i s).completed = s.completed + 1 ∧
      (finishOne rows lookup i s).pending = s.pending.erase i := by
  obtain ⟨row, hrow⟩ := pending_row rows concurrency s h i hi
  obtain ⟨h1, h2, h3, h4, h5, h6⟩ := h
  have hlen : 0 < s.pending.length := List.length_pos_of_mem hi
  have hcounts : ∀ r, BulkState.Counts rows.length concurrency
      ({ results := s.results.set i (some (entryOf row (lookup i (requestOf row)))),
         completed := s.completed + 1, running := s.running - 1, index := s.index,
         pending := s.pending.erase i, resolved := r } : BulkState μ) := by
    intro r
    refine ⟨?_, h2.erase i, ?_, ?_, h5, ?_⟩
    · simp only [List.length_erase_of_mem hi]
      omega
    · intro j hj
      exact h3 j (List.mem_of_mem_erase hj)
    · simp only
      omega
    · simp only
      omega
  unfold finishOne
  rw [hrow]
  dsimp only
  split
  · exact ⟨hcounts _, rfl, rfl⟩
  · exact ⟨hcounts _, rfl, rfl⟩

/-- Every reachable state has consistent counters. -/
theorem reachable_counts {μ : Type} (rows : List Row) (concurrency : Nat)
    (lookup : Nat → FindRequest → Settlement μ) (s : BulkState μ)
    (h : BulkReachable rows concurrency lookup s) : s.Counts rows.length concurrency := by
  induction h with
  | init => exact init_counts _ _
  | step s t _ hst ih =>
    cases hst with
    | start hr hi => exact startOne_counts _ _ s ih hr hi
    | finish i hidle hi => exact (finishOne_counts rows concurrency lookup i s ih hi).1

/-- C14. In every reachable state of `processBulk`, seen as a scheduler over
`index`, `running` and `completed`, the number of lookups in flight is at most
the concurrency cap (10 when none is given), `running + completed = index` and
`index` is at most the number of rows; and a step that starts a lookup leaves a
state in which `running` is below the cap. -/
theorem processBulk_invariant {μ : Type} (rows : List Row) (concurrency : Option Nat)
    (lookup : Nat → FindRequest → Settlement μ) (s : BulkState μ)
    (h : BulkReachable rows (concurrency.getD 10) lookup s) :
    s.running ≤ concurrency.getD 10 ∧ s.running = s.pending.length ∧
      s.running + s.completed = s.index ∧ s.index ≤ rows.length ∧
      ∀ t, BulkStep rows (concurrency.getD 10) lookup s t → t.index ≠ s.index →
        s.running < concurrency.getD 10 ∧ t.running = s.running + 1 := by
  obtain ⟨h1, _, _, h4, h5, h6⟩ := reachable_counts rows _ lookup s h
  refine ⟨h6, h1, h4, h5, ?_⟩
  intro t hst hne
  cases hst with
  | start hr hi => exact ⟨hr, rfl⟩
  | finish i hidle hi => exact absurd (finishOne_index rows lookup i s) hne

/-- Witness of C14: the state after the first lookup of three rows is started
under a cap of two. -/
theorem processBulk_invariant_witness :
    (startOne (BulkState.init sampleRows.length : BulkState Unit)).running
        ≤ (some 2 : Option Nat).getD 10 ∧
      (startOne (BulkState.init sampleRows.length : BulkState Unit)).running
        = (startOne (BulkState.init sampleRows.length : BulkState Unit)).pending.length ∧
      (startOne (BulkState.init sampleRows.length : BulkState Unit)).running
          + (startOne (BulkState.init sampleRows.length : BulkState Unit)).completed
        = (startOne (BulkState.init sampleRows.length : BulkState Unit)).index ∧
      (startOne (BulkState.init sampleRows.length : BulkState Unit)).index ≤ sampleRows.length ∧
      ∀ t, BulkStep sampleRows ((some 2 : Option Nat).getD 10) sampleLookup
          (startOne (BulkState.init sampleRows.length : BulkState Unit)) t →
        t.index ≠ (startOne (BulkState.init sampleRows.length : BulkState Unit)).index →
        (startOne (BulkState.init sampleRows.length : BulkState Unit)).running
            < (some 2 : Option Nat).getD 10 ∧
          t.running
            = (startOne (BulkState.init sampleRows.length : BulkState Unit)).running + 1 :=
  processBulk_invariant sampleRows (some 2) sampleLookup
    (startOne (BulkState.init sampleRows.length))
    (BulkReachable.step _ _ BulkReachable.init
      (BulkStep.start _ (by decide) (by decide)))

/-! ## Properties of the batch controller: the result array -/

/-- The initial state of a non-empty batch has one hole per row and a pending
promise. -/
theorem init_slots {μ : Type} (rows : List Row) (hrows : rows ≠ [])
    (lookup : Nat → FindRequest → Settlement μ) :
    (BulkState.init rows.length : BulkState μ).Slots rows lookup := by
  have hlen : 0 < rows.length := List.length_pos.2 hrows
  refine ⟨by simp [BulkState.init], ?_, ?_⟩
  · intro j hj
    simp [BulkState.init, hj]
  · simp only [BulkState.init]
    rw [if_neg (by omega)]

/-- Starting a lookup leaves the result array as it is. -/
theorem startOne_slots {μ : Type} (rows : List Row)
    (lookup : Nat → FindRequest → Settlement μ) (s : BulkState μ) (h : s.Slots rows lookup) :
    (startOne s).Slots rows lookup := by
  obtain ⟨h1, h2, h3⟩ := h
  refine ⟨h1, ?_, h3⟩
  intro j hj
  have hj2 := h2 j hj
  simp only [startOne, List.mem_append, List.mem_singleton]
  rw [hj2]
  congr 1
  by_cases hlt : j < s.index
  · have hne : j ≠ s.index := by omega
    have hlt2 : j < s.index + 1 := by omega
    simp [hlt, hlt2, hne]
  · by_cases heq : j = s.index
    · subst heq
      simp
    · have hge : ¬ j < s.index + 1 := by omega
      simp [hlt, hge]

/-- The callbacks of a pending lookup write the entry of its row to its slot
and leave the other slots as they are. -/
theorem finishOne_slots {μ : Type} (rows : List Row) (concurrency : Nat)
    (lookup : Nat → FindRequest → Settlement μ) (i : Nat) (s : BulkState μ)
    (hc : s.Counts rows.length concurrency) (h : s.Slots rows lookup) (hi : i ∈ s.pending) :
    (finishOne rows lookup i s).Slots rows lookup := by
  obtain ⟨row, hrow⟩ := pending_row rows concurrency s hc i hi
  obtain ⟨c1, c2, c3, c4, c5, c6⟩ := hc
  obtain ⟨h1, h2, h3⟩ := h
  have hpos : 0 < s.pending.length := List.length_pos_of_mem hi
  have hilt : i < s.index := c3 i hi
  have hslots : ∀ j, j < rows.length →
      (s.results.set i (some (entryOf row (lookup i (requestOf row)))))[j]? =
        some (if j < s.index ∧ j ∉ s.pending.erase i then slotEntry rows lookup j else none) := by
    intro j hj
    by_cases hji : i = j
    · subst hji
      rw [List.getElem?_set, if_pos rfl, if_pos (by omega)]
      have hnot : i ∉ s.pending.erase i := fun hm => ((c2.mem_erase_iff).1 hm).1 rfl
      simp [hilt, hnot, slotEntry, hrow]
    · rw [List.getElem?_set_ne hji, h2 j hj]
      congr 1
      have hiff : j ∈ s.pending.erase i ↔ j ∈ s.pending := by
        rw [c2.mem_erase_iff]
        exact ⟨fun hm => hm.2, fun hm => ⟨fun he => hji he.symm, hm⟩⟩
      simp [hiff]
  unfold finishOne
  rw [hrow]
  dsimp only
  split
  · rename_i hdone
    refine ⟨by simp [h1], hslots, ?_⟩
    simp only
    rw [if_pos hdone]
  · rename_i hnot
    refine ⟨by simp [h1], hslots, ?_⟩
    simp only
    rw [if_neg hnot, h3, if_neg (by omega)]

/-- The loop of `startNext` keeps the counters and the result array, and with
enough iterations it ends with its guard false. -/
theorem startLoop_spec {μ : Type} (rows : List Row) (concurrency : Nat)
    (lookup : Nat → FindRequest → Settlement μ) (fuel : Nat) :
    ∀ s : BulkState μ, s.Counts rows.length concurrency → s.Slots rows lookup →
      rows.length - s.index ≤ fuel →
      (startLoop concurrency rows.length fuel s).Counts rows.length concurrency ∧
      (startLoop concurrency rows.length fuel s).Slots rows lookup ∧
      (startLoop concurrency rows.length fuel s).completed = s.completed ∧
      ¬ ((startLoop concurrency rows.length fuel s).running < concurrency ∧
          (startLoop concurrency rows.length fuel s).index < rows.length) := by
  induction fuel with
  | zero =>
    intro s hc hs hfuel
    exact ⟨hc, hs, rfl, fun hg => by have := hg.2; simp only [startLoop] at this; omega⟩
  | succ fuel ih =>
    intro s hc hs hfuel
    simp only [startLoop]
    split
    · rename_i hg
      have hc1 := startOne_counts _ _ s hc hg.1 hg.2
      have hs1 := startOne_slots rows lookup s hs
      have := ih (startOne s) hc1 hs1 (by simp only [startOne]; omega)
      exact this
    · rename_i hg
      exact ⟨hc, hs, rfl, hg⟩

/-- The settlement of a pending lookup keeps the counters and the result array,
adds one to `completed`, and ends with the guard of the loop false. -/
theorem settle_spec {μ : Type} (rows : List Row) (concurrency : Nat)
    (lookup : Nat → FindRequest → Settlement μ) (i : Nat) (s : BulkState μ)
    (hc : s.Counts rows.length concurrency) (hs : s.Slots rows lookup) (hi : i ∈ s.pending) :
    (settle rows concurrency lookup i s).Counts rows.length concurrency ∧
      (settle rows concurrency lookup i s).Slots rows lookup ∧
      (settle rows concurrency lookup i s).completed = s.completed + 1 ∧
      ¬ ((settle rows concurrency lookup i s).running < concurrency ∧
          (settle rows concurrency lookup i s).index < rows.length) := by
  obtain ⟨hc1, hcompl, _⟩ := finishOne_counts rows concurrency lookup i s hc hi
  have hs1 := finishOne_slots rows concurrency lookup i s hc hs hi
  unfold settle
  dsimp only
  split
  · rename_i hdone
    refine ⟨hc1, hs1, hcompl, ?_⟩
    intro hg
    have h4 := hc1.2.2.2.1
    have h5 := hc1.2.2.2.2.1
    omega
  · have := startLoop_spec rows concurrency lookup
      (rows.length - (finishOne rows lookup i s).index) (finishOne rows lookup i s) hc1 hs1
      (Nat.le_refl _)
    unfold startNext
    exact ⟨this.1, this.2.1, this.2.2.1.trans hcompl, this.2.2.2⟩

/-- While rows remain to be completed and the loop of `startNext` has ended, a
lookup is pending: the batch cannot stall. -/
theorem pending_ne_nil {μ : Type} (n concurrency : Nat) (s : BulkState μ)
    (hc : s.Counts n concurrency) (hcap : 1 ≤ concurrency)
    (hidle : ¬ (s.running < concurrency ∧ s.index < n)) (hlt : s.completed < n) :
    s.pending ≠ [] := by
  obtain ⟨h1, _, _, h4, h5, _⟩ := hc
  intro hnil
  rw [hnil] at h1
  simp only [List.length_nil] at h1
  apply hidle
  constructor <;> omega

/-- The settlements of `order`, from a state in which the loop of `startNext`
has ended: each of them completes one row. -/
theorem settlements_spec {μ : Type} (rows : List Row) (concurrency : Nat)
    (hcap : 1 ≤ concurrency) (lookup : Nat → FindRequest → Settlement μ) (order : List Nat) :
    ∀ s : BulkState μ, s.Counts rows.length concurrency → s.Slots rows lookup →
      ¬ (s.running < concurrency ∧ s.index < rows.length) →
      s.completed + order.length ≤ rows.length →
      (order.foldl
          (fun s pick =>
            match s.pending[pick % s.pending.length]? with
            | some i => settle rows concurrency lookup i s
            | none => s) s).Counts rows.length concurrency ∧
        (order.foldl
          (fun s pick =>
            match s.pending[pick % s.pending.length]? with
            | some i => settle rows concurrency lookup i s
            | none => s) s).Slots rows lookup ∧
        (order.foldl
          (fun s pick =>
            match s.pending[pick % s.pending.length]? with
            | some i => settle rows concurrency lookup i s
            | none => s) s).completed = s.completed + order.length := by
  induction order with
  | nil => intro s hc hs _ _; exact ⟨hc, hs, rfl⟩
  | cons pick rest ih =>
    intro s hc hs hidle hlen
    simp only [List.length_cons] at hlen
    have hne := pending_ne_nil rows.length concurrency s hc hcap hidle (by omega)
    have hpos : 0 < s.pending.length := List.length_pos.2 hne
    have hlt : pick % s.pending.length < s.pending.length := Nat.mod_lt _ hpos
    have hmem : s.pending[pick % s.pending.length] ∈ s.pending := List.getElem_mem _
    obtain ⟨hc1, hs1, hcompl, hidle1⟩ := settle_spec rows concurrency lookup
      (s.pending[pick % s.pending.length]) s hc hs hmem
    have := ih (settle rows concurrency lookup (s.pending[pick % s.pending.length]) s)
      hc1 hs1 hidle1 (by omega)
    simp only [List.foldl_cons, List.getElem?_eq_getElem hlt]
    refine ⟨this.1, this.2.1, ?_⟩
    rw [this.2.2, hcompl, List.length_cons]
    omega

/-- The state of `processBulk` after the settlements of `order`, no more than
there are rows. -/
theorem processBulk_spec {μ : Type} (rows : List Row) (hrows : rows ≠ [])
    (concurrency : Option Nat) (hcap : 1 ≤ concurrency.getD 10)
    (lookup : Nat → FindRequest → Settlement μ) (order : List Nat)
    (hlen : order.length ≤ rows.length) :
    (processBulk rows concurrency lookup order).Counts rows.length (concurrency.getD 10) ∧
      (processBulk rows concurrency lookup order).Slots rows lookup ∧
      (processBulk rows concurrency lookup order).completed = order.length := by
  have h0 := startLoop_spec rows (concurrency.getD 10) lookup
    (rows.length - (BulkState.init rows.length : BulkState μ).index)
    (BulkState.init rows.length) (init_counts _ _) (init_slots rows hrows lookup)
    (Nat.le_refl _)
  have hcompl0 : (startNext (concurrency.getD 10) rows.length
      (BulkState.init rows.length : BulkState μ)).completed = 0 := h0.2.2.1
  have := settlements_spec rows (concurrency.getD 10) hcap lookup order
    (startNext (concurrency.getD 10) rows.length (BulkState.init rows.length))
    h0.1 h0.2.1 h0.2.2.2 (by rw [hcompl0]; omega)
  unfold processBulk
  refine ⟨this.1, this.2.1, ?_⟩
  rw [this.2.2, hcompl0]
  omega

/-- Until every lookup has settled the promise of `processBulk` is pending. -/
theorem processBulk_pending {μ : Type} (rows : List Row) (hrows : rows ≠ [])
    (concurrency : Option Nat) (hcap : 1 ≤ concurrency.getD 10)
    (lookup : Nat → FindRequest → Settlement μ) (order : List Nat)
    (hlen : order.length < rows.length) :
    (processBulk rows concurrency lookup order).resolved = none := by
  obtain ⟨_, hs, hcompl⟩ := processBulk_spec rows hrows concurrency hcap lookup order (by omega)
  rw [hs.2.2, if_neg (by omega)]

/-- C13. For every non-empty list of rows, every concurrency cap of at least 1
(10 when none is given), every way the lookups settle and every order in which
they do, once all lookups have settled the promise of `processBulk` is resolved
with an array that has one entry per row, the entry of slot `i` being the one
written for row `i` and the settlement of its lookup, whatever the other
lookups did. The entry carries the row; for a resolved lookup it holds the
email, tier, score and method of the first result (or `''`, `'none'`, 0, `''`
when there is none); for a rejected lookup it holds `''`, `'error'`, 0 and the
error message. -/
theorem processBulk_resolves {μ : Type} (rows : List Row) (hrows : rows ≠ [])
    (concurrency : Option Nat) (hcap : 1 ≤ concurrency.getD 10)
    (lookup : Nat → FindRequest → Settlement μ) (order : List Nat)
    (hlen : order.length = rows.length) :
    (processBulk rows concurrency lookup order).resolved
        = some (rows.mapIdx (fun i row => some (entryOf row (lookup i (requestOf row))))) ∧
      (rows.mapIdx (fun i row => some (entryOf row (lookup i (requestOf row))))).length
        = rows.length ∧
      (∀ (row : Row) (results : List Scored) (m : μ),
        (entryOf row (Settlement.resolved results m)).row = row ∧
        (entryOf row (Settlement.resolved results m)).email
          = (results.head?.map (fun b => b.email)).getD [] ∧
        (entryOf row (Settlement.resolved results m)).confidence
          = (results.head?.map (fun b => BulkConfidence.tier b.confidence)).getD
              BulkConfidence.none ∧
        (entryOf row (Settlement.resolved results m)).score
          = (results.head?.map (fun b => b.score)).getD 0 ∧
        (entryOf row (Settlement.resolved results m)).method
          = (results.head?.map (fun b => BulkMethod.tag b.method)).getD BulkMethod.empty) ∧
      (∀ (row : Row) (message : String),
        (entryOf row (Settlement.rejected message : Settlement μ)).row = row ∧
        (entryOf row (Settlement.rejected message : Settlement μ)).email = [] ∧
        (entryOf row (Settlement.rejected message : Settlement μ)).confidence
          = BulkConfidence.error ∧
        (entryOf row (Settlement.rejected message : Settlement μ)).score = 0 ∧
        (entryOf row (Settlement.rejected message : Settlement μ)).error = some message) := by
  obtain ⟨hc, hs, hcompl⟩ := processBulk_spec rows hrows concurrency hcap lookup order (by omega)
  obtain ⟨c1, _, _, c4, c5, _⟩ := hc
  obtain ⟨s1, s2, s3⟩ := hs
  have hindex : (processBulk rows concurrency lookup order).index = rows.length := by omega
  have hpend : (processBulk rows concurrency lookup order).pending = [] := by
    apply List.eq_nil_of_length_eq_zero
    omega
  refine ⟨?_, by simp, ?_, ?_⟩
  · rw [s3, if_pos (by omega)]
    congr 1
    apply List.ext_getElem?
    intro j
    by_cases hj : j < rows.length
    · rw [s2 j hj, hindex, hpend, List.getElem?_mapIdx, List.getElem?_eq_getElem hj]
      simp [hj, slotEntry]
    · rw [List.getElem?_eq_none (by omega), List.getElem?_eq_none (by simp; omega)]
  · intro row results m
    cases results <;> exact ⟨rfl, rfl, rfl, rfl, rfl⟩
  · intro row message
    exact ⟨rfl, rfl, rfl, rfl, rfl⟩

/-- Witness of C13: three rows under a cap of two, the lookup of the second row
rejecting and settling first. -/
theorem processBulk_resolves_witness :
    sampleRows ≠ [] ∧ 1 ≤ (some 2 : Option Nat).getD 10 ∧
      ([1, 0, 0] : List Nat).length = sampleRows.length ∧
      (processBulk sampleRows (some 2) sampleLookup [1, 0, 0]).resolved
        = some (sampleRows.mapIdx
            (fun i row => some (entryOf row (sampleLookup i (requestOf row))))) :=
  ⟨by decide, by decide, by decide,
    (processBulk_resolves sampleRows (by decide) (some 2) (by decide) sampleLookup [1, 0, 0]
      (by decide)).1⟩

/-- The array of the sample batch: the rejected lookup of the second row gives
an error entry, the other rows their own entries. -/
theorem processBulk_example :
    (processBulk sampleRows (some 2) sampleLookup [1, 0, 0]).resolved.map
        (fun l => l.map (fun e => e.map (fun x => (x.row.lastName, x.confidence, x.error))))
      = some [some (some "Lovelace".toList, BulkConfidence.none, none),
              some (some "Turing".toList, BulkConfidence.error, some "boom"),
              some (some "Hopper".toList, BulkConfidence.none, none)] := by
  rfl

/-- The loop of `startNext` leads from reachable states to reachable states. -/
theorem startLoop_reachable {μ : Type} (rows : List Row) (concurrency : Nat)
    (lookup : Nat → FindRequest → Settlement μ) (fuel : Nat) :
    ∀ s : BulkState μ, BulkReachable rows concurrency lookup s →
      BulkReachable rows concurrency lookup (startLoop concurrency rows.length fuel s) := by
  induction fuel with
  | zero => intro s h; exact h
  | succ fuel ih =>
    intro s h
    simp only [startLoop]
    split
    · rename_i hg
      exact ih _ (BulkReachable.step _ _ h (BulkStep.start s hg.1 hg.2))
    · exact h

/-- Every state of a run of `processBulk` on a non-empty batch is a reachable
state of the scheduler. -/
theorem processBulk_reachable {μ : Type} (rows : List Row) (hrows : rows ≠ [])
    (concurrency : Option Nat) (lookup : Nat → FindRequest → Settlement μ) (order : List Nat) :
    BulkReachable rows (concurrency.getD 10) lookup (processBulk rows concurrency lookup order) := by
  have hfold : ∀ (order : List Nat) (s : BulkState μ),
      BulkReachable rows (concurrency.getD 10) lookup s →
      s.Slots rows lookup →
      ¬ (s.running < concurrency.getD 10 ∧ s.index < rows.length) →
      BulkReachable rows (concurrency.getD 10) lookup
        (order.foldl
          (fun s pick =>
            match s.pending[pick % s.pending.length]? with
            | some i => settle rows (concurrency.getD 10) lookup i s
            | none => s) s) := by
    intro order
    induction order with
    | nil => intro s h _ _; exact h
    | cons pick rest ih =>
      intro s h hs hidle
      simp only [List.foldl_cons]
      cases hp : s.pending[pick % s.pending.length]? with
      | none => exact ih s h hs hidle
      | some i =>
        have hmem : i ∈ s.pending := List.getElem?_mem hp
        have hc := reachable_counts rows _ lookup s h
        obtain ⟨_, hs1, _, hidle1⟩ := settle_spec rows _ lookup i s hc hs hmem
        refine ih _ ?_ hs1 hidle1
        have hfin := BulkReachable.step _ _ h (BulkStep.finish s i hidle hmem)
        unfold settle
        dsimp only
        split
        · exact hfin
        · exact startLoop_reachable rows _ lookup _ _ hfin
  have h0 := startLoop_spec rows (concurrency.getD 10) lookup
    (rows.length - (BulkState.init rows.length : BulkState μ).index)
    (BulkState.init rows.length) (init_counts _ _) (init_slots rows hrows lookup)
    (Nat.le_refl _)
  unfold processBulk
  exact hfold order _ (startLoop_reachable rows _ lookup _ _ BulkReachable.init) h0.2.1 h0.2.2.2

/-! ## Losing a signal, and the pattern bonus -/

/-- The score grows with the unclamped total, between records whose transport
status is not `invalid`. -/
theorem score_le_of_raw_le (p q : Params) (hp : p.smtpStatus ≠ SmtpStatus.invalid)
    (hq : q.smtpStatus ≠ SmtpStatus.invalid) (h : rawScore q ≤ rawScore p) :
    (scoreEmail q).score ≤ (scoreEmail p).score := by
  simp only [scoreEmail, if_neg hp, if_neg hq, clampScore]
  simp only [rawScore] at h
  omega

/-- A signal whose condition is weaker contributes at least as much. -/
theorem contribution_mono (c d : Prop) [Decidable c] [Decidable d] (n : Int) (hn : 0 ≤ n)
    (hcd : c → d) : (if c then n else 0) ≤ (if d then n else 0) := by
  by_cases hc : c
  · rw [if_pos hc, if_pos (hcd hc)]
  · rw [if_neg hc]
    split <;> omega

/-- The unclamped total grows with the positive signals: a record that has the
same transport status, weight, site count and catch-all flag as another, and
only signals that the other has too, has at most its total. -/
theorem rawScore_mono (p q : Params) (hst : q.smtpStatus = p.smtpStatus)
    (hpw : q.patternWeight = p.patternWeight)
    (hcnt : q.websiteEmailCount = p.websiteEmailCount) (hca : q.isCatchAll = p.isCatchAll)
    (h1 : q.foundOnWebsite = true → p.foundOnWebsite = true)
    (h2 : q.matchesWebsitePattern = true → p.matchesWebsitePattern = true)
    (h3 : q.matchesProviderPattern = true → p.matchesProviderPattern = true)
    (h4 : q.hasGravatar = true → p.hasGravatar = true)
    (h5 : q.disifyValid = true → p.disifyValid = true)
    (h6 : q.aiRecommended = true → p.aiRecommended = true)
    (h7 : q.hunterConfirmed = true → p.hunterConfirmed = true) :
    rawScore q ≤ rawScore p := by
  rw [rawScore_eq, rawScore_eq, hst, hpw, hcnt, hca]
  have a1 := contribution_mono _ _ 55 (by omega) h1
  have a2 := contribution_mono _ _ 50 (by omega) h2
  have a2b : ((decide (p.websiteEmailCount.getD 0 ≥ 3) && q.matchesWebsitePattern) = true →
      (decide (p.websiteEmailCount.getD 0 ≥ 3) && p.matchesWebsitePattern) = true) := by
    intro hq
    simp only [Bool.and_eq_true] at hq ⊢
    exact ⟨hq.1, h2 hq.2⟩
  have a2c := contribution_mono _ _ 10 (by omega) a2b
  have a3 := contribution_mono _ _ 15 (by omega) h3
  have a4 := contribution_mono _ _ 15 (by omega) h4
  have a5 := contribution_mono _ _ 20 (by omega) h5
  have a6 := contribution_mono _ _ 15 (by omega) h6
  have a7 := contribution_mono _ _ 20 (by omega) h7
  linarith

/-- Replacing the transport status `valid` by another one that is not `valid`
does not raise the unclamped total: the 45 points go, and at most the 20 points
of the catch-all penalty come back. -/
theorem rawScore_status_loss (p : Params) (hv : p.smtpStatus = SmtpStatus.valid)
    (st : SmtpStatus) (hst : st ≠ SmtpStatus.valid) :
    rawScore { p with smtpStatus := st } ≤ rawScore p := by
  rw [rawScore_eq, rawScore_eq]
  have hst2 : (st == SmtpStatus.valid) = false := by simpa using hst
  simp only [hv, hst, hst2, if_true, if_false, Bool.and_false, Bool.false_eq_true, beq_self_eq_true,
    Bool.and_true]
  have hpen : (-20 : Int) ≤ (if p.isCatchAll = true then (-20 : Int) else 0) := by
    split <;> omega
  linarith

/-- C23. For every signal record whose transport status is not `invalid`,
switching one of the positive signals off (found on website, website pattern,
provider pattern, gravatar, disify, AI pick, hunter), or replacing the transport
status `valid` by `error` or by `unknown`, gives a score that is at most the
original score, whatever the catch-all flag. -/
theorem scoreEmail_signal_loss (p : Params) (h : p.smtpStatus ≠ SmtpStatus.invalid) :
    (scoreEmail { p with foundOnWebsite := false }).score ≤ (scoreEmail p).score ∧
      (scoreEmail { p with matchesWebsitePattern := false }).score ≤ (scoreEmail p).score ∧
      (scoreEmail { p with matchesProviderPattern := false }).score ≤ (scoreEmail p).score ∧
      (scoreEmail { p with hasGravatar := false }).score ≤ (scoreEmail p).score ∧
      (scoreEmail { p with disifyValid := false }).score ≤ (scoreEmail p).score ∧
      (scoreEmail { p with aiRecommended := false }).score ≤ (scoreEmail p).score ∧
      (scoreEmail { p with hunterConfirmed := false }).score ≤ (scoreEmail p).score ∧
      (p.smtpStatus = SmtpStatus.valid →
        (scoreEmail { p with smtpStatus := SmtpStatus.error }).score ≤ (scoreEmail p).score ∧
        (scoreEmail { p with smtpStatus := SmtpStatus.unknown }).score
          ≤ (scoreEmail p).score) := by
  have hf : ∀ b : Bool, false = true → b = true := fun _ hb => absurd hb (by decide)
  refine ⟨?_, ?_, ?_, ?_, ?_, ?_, ?_, ?_⟩
  · exact score_le_of_raw_le p { p with foundOnWebsite := false } h h
      (rawScore_mono p _ rfl rfl rfl rfl (hf _) id id id id id id)
  · exact score_le_of_raw_le p { p with matchesWebsitePattern := false } h h
      (rawScore_mono p _ rfl rfl rfl rfl id (hf _) id id id id id)
  · exact score_le_of_raw_le p { p with matchesProviderPattern := false } h h
      (rawScore_mono p _ rfl rfl rfl rfl id id (hf _) id id id id)
  · exact score_le_of_raw_le p { p with hasGravatar := false } h h
      (rawScore_mono p _ rfl rfl rfl rfl id id id (hf _) id id id)
  · exact score_le_of_raw_le p { p with disifyValid := false } h h
      (rawScore_mono p _ rfl rfl rfl rfl id id id id (hf _) id id)
  · exact score_le_of_raw_le p { p with aiRecommended := false } h h
      (rawScore_mono p _ rfl rfl rfl rfl id id id id id (hf _) id)
  · exact score_le_of_raw_le p { p with hunterConfirmed := false } h h
      (rawScore_mono p _ rfl rfl rfl rfl id id id id id id (hf _))
  · intro hv
    have he : SmtpStatus.error ≠ SmtpStatus.invalid := by decide
    have hu : SmtpStatus.unknown ≠ SmtpStatus.invalid := by decide
    exact ⟨score_le_of_raw_le p { p with smtpStatus := SmtpStatus.error } h he
        (rawScore_status_loss p hv SmtpStatus.error (by decide)),
      score_le_of_raw_le p { p with smtpStatus := SmtpStatus.unknown } h hu
        (rawScore_status_loss p hv SmtpStatus.unknown (by decide))⟩

/-- Witness of C23: the valid record with the address found on the site, on a
catch-all domain. -/
theorem scoreEmail_signal_loss_witness :
    (scoreEmail { foundValidParams true with foundOnWebsite := false }).score
        ≤ (scoreEmail (foundValidParams true)).score ∧
      (scoreEmail { foundValidParams true with smtpStatus := SmtpStatus.error }).score
        ≤ (scoreEmail (foundValidParams true)).score :=
  ⟨(scoreEmail_signal_loss (foundValidParams true) (by decide)).1,
    ((scoreEmail_signal_loss (foundValidParams true) (by decide)).2.2.2.2.2.2.2 rfl).1⟩

/-- The scores of the witness record and of its two variants. -/
theorem scoreEmail_signal_loss_values :
    (scoreEmail (foundValidParams true)).score = 91 ∧
      (scoreEmail { foundValidParams true with foundOnWebsite := false }).score = 36 ∧
      (scoreEmail { foundValidParams true with smtpStatus := SmtpStatus.error }).score = 66 := by
  decide

/-- The nearest integer to a third of `w`: the integer `r` with
`3 r - 1 <= w <= 3 r + 1`. -/
theorem roundThird_spec (w r : Int) : roundThird w = r ↔ 3 * r - 1 ≤ w ∧ w ≤ 3 * r + 1 := by
  unfold roundThird
  omega

/-- C24. For every integer weight `w >= 1` the pattern bonus is the nearest
integer to `w / 3`, clamped to 3..20; a missing or zero weight counts as 1; so
the bonus lies between 3 and 20, and every record whose transport status is not
`invalid` gets a score of at least 3. -/
theorem patternBonus_spec :
    (∀ w : Int, 1 ≤ w → ∃ r : Int, (3 * r - 1 ≤ w ∧ w ≤ 3 * r + 1) ∧
        patternBonus (some w) = max 3 (min 20 r)) ∧
      patternBonus none = patternBonus (some 1) ∧
      patternBonus (some 0) = patternBonus (some 1) ∧
      (∀ w : Option Int, 3 ≤ patternBonus w ∧ patternBonus w ≤ 20) ∧
      (∀ p : Params, p.smtpStatus ≠ SmtpStatus.invalid → 3 ≤ (scoreEmail p).score) := by
  refine ⟨?_, rfl, rfl, patternBonus_bounds, ?_⟩
  · intro w hw
    refine ⟨roundThird w, (roundThird_spec w _).1 rfl, ?_⟩
    have hw0 : w ≠ 0 := by omega
    simp [patternBonus, rawWeight, hw0]
  · intro p hp
    have hb := (patternBonus_bounds p.patternWeight).1
    have hraw : 3 ≤ rawScore p := by
      rw [rawScore_eq]
      have h1 := contribution_nonneg (p.foundOnWebsite = true) 55 (by omega)
      have h2 := contribution_nonneg (p.matchesWebsitePattern = true) 50 (by omega)
      have h3 := contribution_nonneg
        ((decide (p.websiteEmailCount.getD 0 ≥ 3) && p.matchesWebsitePattern) = true) 10
        (by omega)
      have h4 := contribution_nonneg (p.matchesProviderPattern = true) 15 (by omega)
      have h5 := contribution_nonneg (p.hasGravatar = true) 15 (by omega)
      have h6 := contribution_nonneg (p.disifyValid = true) 20 (by omega)
      have h7 := contribution_nonneg (p.aiRecommended = true) 15 (by omega)
      have h8 := contribution_nonneg (p.hunterConfirmed = true) 20 (by omega)
      by_cases hv : p.smtpStatus = SmtpStatus.valid
      · have hpen : (-20 : Int) ≤
            (if (p.isCatchAll && p.smtpStatus == SmtpStatus.valid) = true then (-20 : Int)
              else 0) := by
          split <;> omega
        rw [if_pos hv]
        linarith
      · have hpen : (if (p.isCatchAll && p.smtpStatus == SmtpStatus.valid) = true
            then (-20 : Int) else 0) = 0 := by
          have : (p.smtpStatus == SmtpStatus.valid) = false := by simpa using hv
          simp [this]
        rw [if_neg hv, hpen]
        linarith
    simp only [scoreEmail, if_neg hp, clampScore]
    simp only [rawScore] at hraw
    omega

/-- The bonus for the smallest weights, for the static weights of the table and
for the largest boosted weight. -/
theorem patternBonus_values :
    [patternBonus (some 1), patternBonus (some 10), patternBonus (some 13),
        patternBonus (some 33), patternBonus (some 53), patternBonus (some 59),
        patternBonus (some 83)]
      = [3, 3, 4, 11, 18, 20, 20] := by
  decide

/-! ## Boosts of the candidate generator -/

/-- The closure `addPattern` keeps the elements of `results`. -/
theorem addPattern_subset (f l d : JsString) (st : GenState) (t : Template) (extra : Nat)
    (c : Candidate) (hc : c ∈ st.results) : c ∈ (addPattern f l d st t extra).results := by
  rcases addPattern_results f l d st t extra with h | h
  · rw [h]; exact hc
  · rw [h]; exact List.mem_append_left _ hc

/-- The guarded call keeps the elements of `results`. -/
theorem addIfKnown_subset (f l d : JsString) (st st1 : GenState) (key : JsString) (extra : Nat)
    (hok : addIfKnown f l d st key extra = Except.ok st1) (c : Candidate)
    (hc : c ∈ st.results) : c ∈ st1.results := by
  unfold addIfKnown at hok
  split at hok
  · cases hok
    exact addPattern_subset f l d st _ extra c hc
  · cases hok
  · cases hok
    exact hc

/-- The provider loop keeps the elements of `results`. -/
theorem addProviders_subset (f l d : JsString) (ps : List JsString) :
    ∀ (st st1 : GenState), addProviders f l d st ps = Except.ok st1 →
      ∀ c ∈ st.results, c ∈ st1.results := by
  induction ps with
  | nil =>
    intro st st1 hok c hc
    simp only [addProviders] at hok
    cases hok
    exact hc
  | cons pid rest ih =>
    intro st st1 hok c hc
    simp only [addProviders] at hok
    split at hok
    · rename_i st2 h2
      exact ih st2 st1 hok c (addIfKnown_subset f l d st st2 pid 20 h2 c hc)
    · cases hok

/-- The loop over templates keeps the elements of `results`. -/
theorem foldl_addPattern_subset (f l d : JsString) (ts : List Template) :
    ∀ (st : GenState), ∀ c ∈ st.results,
      c ∈ (ts.foldl (fun s t => addPattern f l d s t 0) st).results := by
  induction ts with
  | nil => intro st c hc; exact hc
  | cons t rest ih =>
    intro st c hc
    simp only [List.foldl_cons]
    exact ih _ c (addPattern_subset f l d st t 0 c hc)

/-- The closure `addPattern`, called with an allowed boost, keeps every element
of `results` built with an allowed boost. -/
theorem addPattern_boosted (options : Options) (f l d : JsString) (st : GenState)
    (t : Template) (extra : Nat) (ht : t ∈ ALL_PATTERNS) (hb : allowedBoost options t extra)
    (h : GenState.Boosted options f l d st) :
    GenState.Boosted options f l d (addPattern f l d st t extra) := by
  intro c hc
  rcases addPattern_results f l d st t extra with h1 | h1
  · rw [h1] at hc
    exact h c hc
  · rw [h1] at hc
    rcases List.mem_append.1 hc with hc | hc
    · exact h c hc
    · simp only [List.mem_singleton] at hc
      exact ⟨t, ht, extra, hb, hc⟩

/-- The guarded call, with a boost allowed for the template of the key, keeps
every element of `results` built with an allowed boost. -/
theorem addIfKnown_boosted (options : Options) (f l d : JsString) (st st1 : GenState)
    (key : JsString) (extra : Nat)
    (hb : ∀ t, PATTERN_MAP key = Lookup.template t → allowedBoost options t extra)
    (h : GenState.Boosted options f l d st)
    (hok : addIfKnown f l d st key extra = Except.ok st1) :
    GenState.Boosted options f l d st1 := by
  unfold addIfKnown at hok
  split at hok
  · rename_i t ht
    cases hok
    exact addPattern_boosted options f l d st t extra (PATTERN_MAP_mem key t ht) (hb t ht) h
  · cases hok
  · cases hok
    exact h

/-- The provider loop over ids of the provider conventions keeps every element
of `results` built with an allowed boost. -/
theorem addProviders_boosted (options : Options) (f l d : JsString) (ps : List JsString)
    (hps : ∃ all, options.providerPatterns = some all ∧ ∀ pid ∈ ps, pid ∈ all) :
    ∀ (st st1 : GenState), GenState.Boosted options f l d st →
      addProviders f l d st ps = Except.ok st1 → GenState.Boosted options f l d st1 := by
  induction ps with
  | nil =>
    intro st st1 h hok
    simp only [addProviders] at hok
    cases hok
    exact h
  | cons pid rest ih =>
    intro st st1 h hok
    obtain ⟨all, hall, hsub⟩ := hps
    simp only [addProviders] at hok
    split at hok
    · rename_i st2 h2
      refine ih ⟨all, hall, fun q hq => hsub q (List.mem_cons_of_mem _ hq)⟩ st2 st1 ?_ hok
      refine addIfKnown_boosted options f l d st st2 pid 20 ?_ h h2
      intro t ht
      refine Or.inr (Or.inl ⟨rfl, all, hall, ?_⟩)
      rw [PATTERN_MAP_id_eq pid t ht]
      exact hsub pid (List.mem_cons_self _ _)
    · cases hok

/-- The final loop keeps every element of `results` built with an allowed
boost. -/
theorem foldl_addPattern_boosted (options : Options) (f l d : JsString) (ts : List Template)
    (hts : ∀ t ∈ ts, t ∈ ALL_PATTERNS) :
    ∀ st, GenState.Boosted options f l d st →
      GenState.Boosted options f l d (ts.foldl (fun s t => addPattern f l d s t 0) st) := by
  induction ts with
  | nil => intro st h; exact h
  | cons t rest ih =>
    intro st h
    simp only [List.foldl_cons]
    exact ih (fun t1 h1 => hts t1 (List.mem_cons_of_mem _ h1)) _
      (addPattern_boosted options f l d st t 0 (hts t (List.mem_cons_self _ _))
        (Or.inr (Or.inr rfl)) h)

/-- A successful run returns the sorted `results` of a state whose elements all
carry an allowed boost, and which holds the boosted candidate of a detected
convention of the table. -/
theorem generateFrom_boosted (f l d : JsString) (options : Options) (res : List Candidate)
    (hok : generateFrom f l d options = Except.ok res) :
    ∃ st, GenState.Boosted options f l d st ∧ res = stableSort byWeight st.results ∧
      ∀ t ∈ ALL_PATTERNS, options.detectedPattern = some t.id →
        Candidate.mk (t.fn f l ++ '@' :: d) t.id (t.weight + 50) ∈ st.results := by
  have hempty : GenState.Boosted options f l d { seen := [], results := [] } := by
    intro c hc
    simp at hc
  unfold generateFrom at hok
  dsimp only at hok
  split at hok
  · cases hok
  · rename_i st1 h1
    split at hok
    · cases hok
    · rename_i st2 h2
      have hres := Except.ok.inj hok
      have hb1 : GenState.Boosted options f l d st1 ∧
          ∀ t ∈ ALL_PATTERNS, options.detectedPattern = some t.id →
            Candidate.mk (t.fn f l ++ '@' :: d) t.id (t.weight + 50) ∈ st1.results := by
        cases hdp : options.detectedPattern with
        | none =>
          rw [hdp] at h1
          cases h1
          exact ⟨hempty, fun t _ hc => by cases hc⟩
        | some dp =>
          rw [hdp] at h1
          dsimp only at h1
          split at h1
          · rename_i hnil
            cases h1
            refine ⟨hempty, ?_⟩
            intro t ht hc
            cases hc
            exact absurd hnil (ALL_PATTERNS_id_ne_nil t ht)
          · refine ⟨addIfKnown_boosted options f l d _ st1 dp 50 ?_ hempty h1, ?_⟩
            · intro t ht
              exact Or.inl ⟨rfl, by rw [hdp, PATTERN_MAP_id_eq dp t ht]⟩
            · intro t ht hc
              cases hc
              simp only [addIfKnown, PATTERN_MAP_id t ht] at h1
              cases h1
              simp [addPattern]
      have hb2 : GenState.Boosted options f l d st2 ∧ ∀ c ∈ st1.results, c ∈ st2.results := by
        cases hpp : options.providerPatterns with
        | none =>
          rw [hpp] at h2
          cases h2
          exact ⟨hb1.1, fun c hc => hc⟩
        | some ps =>
          rw [hpp] at h2
          exact ⟨addProviders_boosted options f l d ps ⟨ps, hpp, fun _ h => h⟩ st1 st2 hb1.1 h2,
            addProviders_subset f l d ps st1 st2 h2⟩
      refine ⟨addAll f l d st2,
        foldl_addPattern_boosted options f l d ALL_PATTERNS (fun _ h => h) st2 hb2.1,
        hres.symm, ?_⟩
      intro t ht hdet
      exact foldl_addPattern_subset f l d ALL_PATTERNS st2 _ (hb2.2 _ (hb1.2 t ht hdet))

/-- C26. Boosts never stack: on every input on which `generatePatterns`
succeeds, each returned candidate carries the id and the address of a template
of the table, and its weight is the static weight of that template plus exactly
one of 50 (and then the template is the detected convention), 20 (and then it
is a provider convention) or 0; so every weight lies between 1 and 83. The
candidate of a detected convention of the table is returned with static weight
plus 50, also when the convention is provider-preferred as well. -/
theorem boosts_never_stack (firstName lastName domain : JsString) (options : Options)
    (res : List Candidate)
    (hok : generatePatterns firstName lastName domain options = Except.ok res) :
    (∀ c ∈ res, ∃ t ∈ ALL_PATTERNS, c.pattern = t.id ∧
        c.email = templateAddress t firstName lastName domain ∧
        ((c.weight = t.weight + 50 ∧ options.detectedPattern = some t.id) ∨
          (c.weight = t.weight + 20 ∧ ∃ ps, options.providerPatterns = some ps ∧ t.id ∈ ps) ∨
          c.weight = t.weight) ∧
        1 ≤ c.weight ∧ c.weight ≤ 83) ∧
      (∀ t ∈ ALL_PATTERNS, options.detectedPattern = some t.id →
        Candidate.mk (templateAddress t firstName lastName domain) t.id (t.weight + 50)
          ∈ res) := by
  unfold generatePatterns at hok
  dsimp only at hok
  split at hok
  · cases hok
  · obtain ⟨st, hb, hres, hdet⟩ := generateFrom_boosted _ _ _ options res hok
    constructor
    · intro c hc
      rw [hres] at hc
      obtain ⟨t, ht, extra, hallow, hceq⟩ := hb c ((stableSort_perm byWeight st.results).subset hc)
      have hw := ALL_PATTERNS_weight t ht
      subst hceq
      refine ⟨t, ht, rfl, rfl, ?_, ?_, ?_⟩
      · rcases hallow with ⟨he, hd⟩ | ⟨he, hp⟩ | he
        · exact Or.inl ⟨by rw [he], hd⟩
        · exact Or.inr (Or.inl ⟨by rw [he], hp⟩)
        · exact Or.inr (Or.inr (by rw [he]; rfl))
      · simp only
        omega
      · simp only
        rcases hallow with ⟨he, _⟩ | ⟨he, _⟩ | he <;> omega
    · intro t ht hd
      rw [hres]
      exact (stableSort_perm byWeight st.results).symm.subset (hdet t ht hd)

/-- Witness of C26: the sample call. -/
theorem boosts_never_stack_witness :
    generatePatterns "Ada".toList "Lovelace".toList "Example.com ".toList adaOptions
        = Except.ok adaCandidates ∧
      (∀ c ∈ adaCandidates, ∃ t ∈ ALL_PATTERNS, c.pattern = t.id ∧
        c.email = templateAddress t "Ada".toList "Lovelace".toList "Example.com ".toList ∧
        ((c.weight = t.weight + 50 ∧ adaOptions.detectedPattern = some t.id) ∨
          (c.weight = t.weight + 20 ∧
            ∃ ps, adaOptions.providerPatterns = some ps ∧ t.id ∈ ps) ∨
          c.weight = t.weight) ∧
        1 ≤ c.weight ∧ c.weight ≤ 83) :=
  ⟨generatePatterns_ada,
    (boosts_never_stack "Ada".toList "Lovelace".toList "Example.com ".toList adaOptions
      adaCandidates generatePatterns_ada).1⟩

/-- The dotted convention, detected and provider-preferred at once, gets
33 + 50 = 83, and the two other provider conventions get their boost of 20. -/
theorem boosts_example :
    (generatePatterns "Ada".toList "Lovelace".toList "example.com".toList
        dottedOptions).toOption.map
          (fun res => (res.take 4).map (fun c => (c.pattern, c.weight)))
      = some [("first.last".toList, 83), ("first".toList, 35), ("firstlast".toList, 30),
          ("flast".toList, 13)] := by
  decide

/-- C30. When `generatePatterns` succeeds with a detected id of the template
table, and there are no provider conventions, or the static weight of the
detected template is at least 3, or `first.last` is not among the provider
conventions, then the first candidate returned is the one of the detected
template, its weight is the static weight plus 50, at least 51, and no
candidate returned weighs more. -/
theorem detected_first_cases (firstName lastName domain : JsString) (t : Template)
    (ht : t ∈ ALL_PATTERNS) (providers : Option (List JsString)) (res : List Candidate)
    (hcase : providers = none ∨ 3 ≤ t.weight ∨
      ∀ ps, providers = some ps → "first.last".toList ∉ ps)
    (hok : generatePatterns firstName lastName domain
      { detectedPattern := some t.id, providerPatterns := providers } = Except.ok res) :
    res.head? =
        some (Candidate.mk (templateAddress t firstName lastName domain) t.id (t.weight + 50)) ∧
      51 ≤ t.weight + 50 ∧
      ∀ c ∈ res, c.weight ≤ t.weight + 50 := by
  have hw : ∀ ps, providers = some ps →
      ∀ tp ∈ ALL_PATTERNS, tp.id ∈ ps → tp.weight + 20 ≤ t.weight + 50 := by
    rcases hcase with h | h | h
    · intro ps hps
      rw [h] at hps
      cases hps
    · exact provider_weights_of_three_le t h providers
    · exact provider_weights_of_no_dotted t providers h
  obtain ⟨_, _, _, st, _, hsorted⟩ := generatePatterns_ok firstName lastName domain _ res hok
  have hpair : res.Pairwise (fun a b => byWeight a b = true) := by
    rw [hsorted]
    exact stableSort_pairwise byWeight byWeight_total byWeight_trans st.results
  have hhead : ∃ rest, res =
      Candidate.mk (templateAddress t firstName lastName domain) t.id (t.weight + 50)
        :: rest := by
    unfold generatePatterns at hok
    dsimp only at hok
    split at hok
    · cases hok
    · exact generateFrom_detected _ _ _ t ht providers res hw hok
  obtain ⟨rest, hrest⟩ := hhead
  refine ⟨by rw [hrest]; rfl, ?_, ?_⟩
  · have := (ALL_PATTERNS_weight t ht).1
    omega
  · intro c hc
    rw [hrest] at hc hpair
    rcases List.mem_cons.1 hc with h | h
    · rw [h]
    · have := (List.pairwise_cons.1 hpair).1 c h
      simpa [byWeight] using this

/-- Witness of C30: the sample call, in which the detected underscore
convention has static weight 5. -/
theorem detected_first_cases_witness :
    generatePatterns "Ada".toList "Lovelace".toList "Example.com ".toList adaOptions
        = Except.ok adaCandidates ∧
      adaCandidates.head? = some (Candidate.mk
        (templateAddress { id := "first_last".toList, fn := fun f l => f ++ '_' :: l, weight := 5 }
          "Ada".toList "Lovelace".toList "Example.com ".toList)
        "first_last".toList (5 + 50)) ∧
      51 ≤ 5 + 50 ∧
      ∀ c ∈ adaCandidates, c.weight ≤ 5 + 50 :=
  ⟨generatePatterns_ada, detected_first_cases "Ada".toList "Lovelace".toList
    "Example.com ".toList
    { id := "first_last".toList, fn := fun f l => f ++ '_' :: l, weight := 5 }
    (by simp [ALL_PATTERNS])
    (some ["first.last".toList, "firstlast".toList, "first".toList]) adaCandidates
    (Or.inr (Or.inl (by decide)))
    generatePatterns_ada⟩

/-! ## Properties of pattern detection -/

theorem castVote_map (g : JsString → Nat) (x : JsString) :
    ∀ ks : List JsString, ks.Nodup →
      castVote (ks.map (fun k => (k, g k))) x =
        if x ∈ ks then ks.map (fun k => (k, g k + if k = x then 1 else 0))
        else ks.map (fun k => (k, g k)) ++ [(x, 1)]
  | [], _ => by simp [castVote]
  | k :: ks, h => by
    have hn := List.nodup_cons.mp h
    have ih := castVote_map g x ks hn.2
    by_cases hk : k = x
    · subst hk
      have hrest : ks.map (fun j => (j, g j + if j = k then 1 else 0)) =
          ks.map (fun j => (j, g j)) := by
        apply List.map_congr_left
        intro j hj
        have hjk : j ≠ k := fun e => hn.1 (e ▸ hj)
        simp [hjk]
      simp [castVote, hrest]
    · have hxk : ¬ x = k := fun e => hk e.symm
      simp only [List.map_cons, castVote, if_neg hk, ih, List.mem_cons, hxk, false_or,
        Nat.add_zero]
      split_ifs <;> simp

theorem firstVotes_snoc (vs : List JsString) (x : JsString) :
    firstVotes (vs ++ [x]) =
      if x ∈ firstVotes vs then firstVotes vs else firstVotes vs ++ [x] := by
  simp [firstVotes, List.foldl_append]

theorem mem_firstVotes (vs : List JsString) : ∀ k : JsString, k ∈ firstVotes vs ↔ k ∈ vs := by
  induction vs using List.reverseRecOn with
  | nil => simp [firstVotes]
  | append_singleton vs x ih =>
    intro k
    rw [firstVotes_snoc]
    split_ifs with hx
    · rw [ih] at hx
      simp only [ih, List.mem_append, List.mem_singleton]
      constructor
      · exact Or.inl
      · rintro (h | h)
        · exact h
        · exact h ▸ hx
    · simp [ih]

theorem nodup_firstVotes (vs : List JsString) : (firstVotes vs).Nodup := by
  induction vs using List.reverseRecOn with
  | nil => simp [firstVotes]
  | append_singleton vs x ih =>
    rw [firstVotes_snoc]
    split_ifs with hx
    · exact ih
    · rw [List.nodup_append]
      refine ⟨ih, List.nodup_singleton x, ?_⟩
      intro a ha hb
      rw [List.mem_singleton] at hb
      exact hx (hb ▸ ha)

/-- The object `patterns` after the votes: every shape voted for, in the order
of its first vote, with the number of its votes. -/
theorem tally_eq (vs : List JsString) :
    vs.foldl castVote [] = (firstVotes vs).map (fun k => (k, vs.count k)) := by
  induction vs using List.reverseRecOn with
  | nil => simp [firstVotes]
  | append_singleton vs x ih =>
    rw [List.foldl_append, List.foldl_cons, List.foldl_nil, ih,
      castVote_map _ x _ (nodup_firstVotes vs), firstVotes_snoc]
    split_ifs with hx
    · apply List.map_congr_left
      intro k _
      by_cases hk : k = x
      · subst hk
        simp
      · have hxk : ¬ x = k := fun e => hk e.symm
        simp [hk, hxk, List.count_singleton]
    · have hx0 : vs.count x = 0 :=
        List.count_eq_zero.mpr (fun h => hx ((mem_firstVotes vs x).mpr h))
      rw [List.map_append]
      congr 1
      · apply List.map_congr_left
        intro k hk
        have hkx : k ≠ x := fun e => hx (e ▸ hk)
        have hxk : ¬ x = k := fun e => hkx e.symm
        simp [hxk, List.count_singleton]
      · simp [hx0]

/-- A shape with an earlier first vote than another has a vote before any vote
of the other. -/
theorem firstVotes_order (vs : List JsString) :
    ∀ a p b, firstVotes vs = a ++ p :: b → ∀ q ∈ b,
      ∃ pre rest, vs = pre ++ p :: rest ∧ q ∉ pre := by
  induction vs using List.reverseRecOn with
  | nil =>
    intro a p b h
    simp [firstVotes] at h
  | append_singleton vs x ih =>
    intro a p b h q hq
    rw [firstVotes_snoc] at h
    split_ifs at h with hx
    · obtain ⟨pre, rest, hv, hpre⟩ := ih a p b h q hq
      exact ⟨pre, rest ++ [x], by simp [hv], hpre⟩
    · rcases List.eq_nil_or_concat b with hb | ⟨b', y, hb⟩
      · subst hb
        simp at hq
      · rw [List.concat_eq_append] at hb
        subst hb
        have h' : firstVotes vs ++ [x] = (a ++ p :: b') ++ [y] := by simp [h]
        have hinj := List.append_inj' h' rfl
        have hxy : x = y := by simpa using hinj.2
        rcases List.mem_append.mp hq with hq' | hq'
        · obtain ⟨pre, rest, hv, hpre⟩ := ih a p b' hinj.1 q hq'
          exact ⟨pre, rest ++ [x], by simp [hv], hpre⟩
        · have hqx : q = x := by
            rw [List.mem_singleton] at hq'
            rw [hq', hxy]
          have hp : p ∈ vs := by
            rw [← mem_firstVotes, hinj.1]
            simp
          obtain ⟨s, t, hst⟩ := List.append_of_mem hp
          have hqvs : q ∉ vs := fun hm => hx (hqx ▸ (mem_firstVotes vs q).mpr hm)
          refine ⟨s, t ++ [x], by simp [hst], ?_⟩
          intro hm
          exact hqvs (by rw [hst]; exact List.mem_append_left _ hm)

/-- The loop over the entries: the top is unchanged and no entry is above it, or
it is the first entry with the largest count. -/
theorem pickTop_foldl :
    ∀ (t : List (JsString × Nat)) (acc : Option JsString × Nat),
      (t.foldl pickTop acc = acc ∧ ∀ e ∈ t, e.2 ≤ acc.2) ∨
      ∃ pre e post, t = pre ++ e :: post ∧ t.foldl pickTop acc = (some e.1, e.2) ∧
        acc.2 < e.2 ∧ (∀ x ∈ pre, x.2 < e.2) ∧ ∀ x ∈ post, x.2 ≤ e.2
  | [], acc => Or.inl ⟨rfl, by simp⟩
  | e :: t, acc => by
    by_cases he : e.2 > acc.2
    · have hstep : (e :: t).foldl pickTop acc = t.foldl pickTop (some e.1, e.2) := by
        simp [List.foldl_cons, pickTop, he]
      rcases pickTop_foldl t (some e.1, e.2) with ⟨h1, h2⟩ | ⟨pre, e', post, h1, h2, h3, h4, h5⟩
      · exact Or.inr ⟨[], e, t, rfl, by rw [hstep, h1], he, by simp, h2⟩
      · refine Or.inr ⟨e :: pre, e', post, by simp [h1], by rw [hstep, h2], ?_, ?_, h5⟩
        · exact lt_trans he h3
        · intro x hx
          rcases List.mem_cons.mp hx with hx | hx
          · rw [hx]; exact h3
          · exact h4 x hx
    · have hstep : (e :: t).foldl pickTop acc = t.foldl pickTop acc := by
        simp [List.foldl_cons, pickTop, he]
      have hle : e.2 ≤ acc.2 := Nat.le_of_not_gt he
      rcases pickTop_foldl t acc with ⟨h1, h2⟩ | ⟨pre, e', post, h1, h2, h3, h4, h5⟩
      · refine Or.inl ⟨by rw [hstep, h1], ?_⟩
        intro x hx
        rcases List.mem_cons.mp hx with hx | hx
        · rw [hx]; exact hle
        · exact h2 x hx
      · refine Or.inr ⟨e :: pre, e', post, by simp [h1], by rw [hstep, h2], h3, ?_, h5⟩
        intro x hx
        rcases List.mem_cons.mp hx with hx | hx
        · rw [hx]; exact lt_of_le_of_lt hle h3
        · exact h4 x hx

theorem vote_foldl (ls : List JsString) : ∀ t : List (JsString × Nat),
    ls.foldl
      (fun t local_ =>
        if genericLocals.contains local_ then t
        else
          match shapeOf local_ with
          | some key => castVote t key
          | none => t)
      t =
    ((ls.filter (fun l => !genericLocals.contains l)).filterMap shapeOf).foldl castVote t := by
  induction ls with
  | nil => intro t; rfl
  | cons l ls ih =>
    intro t
    rw [List.foldl_cons, ih]
    by_cases hg : l ∈ genericLocals
    · simp [hg]
    · cases hs : shapeOf l with
      | none => simp [hg, hs]
      | some key => simp [hg, hs]

theorem votesOf_eq (emails : List JsString) (domain : JsString) :
    votesOf emails domain =
      (((emails.filter (fun e => ('@' :: domain).isSuffixOf e)).map
        (fun e => (splitAt e).headD [])).filter
        (fun l => !genericLocals.contains l)).filterMap shapeOf := by
  unfold votesOf
  rw [List.filter_map, List.filter_filter]
  have hfun : countsForDetection domain =
      (fun a => ((fun l => !genericLocals.contains l) ∘ fun e => (splitAt e).headD []) a &&
        ('@' :: domain).isSuffixOf a) := by
    funext a
    simp only [countsForDetection, Function.comp]
    exact Bool.and_comm _ _
  rw [hfun]

/-- The pattern `detectPattern` returns is the top of the tally of its votes. -/
theorem detectPattern_pattern (emails : List JsString) (domain : JsString) :
    (detectPattern emails domain).pattern =
      (((votesOf emails domain).foldl castVote []).foldl pickTop (none, 0)).1 := by
  rw [votesOf_eq, ← vote_foldl]
  unfold detectPattern
  by_cases h : (emails.filter (fun e => ('@' :: domain).isSuffixOf e)).length = 0
  · have h0 : emails.filter (fun e => ('@' :: domain).isSuffixOf e) = [] :=
      List.length_eq_zero.mp h
    simp [h0]
  · simp only [if_neg h]

/-- The top of the tally of a list of votes: none exactly when there is no vote,
otherwise a shape with the largest number of votes, and among those the one
whose first vote is earliest. -/
theorem top_of_tally (vs : List JsString) :
    (((vs.foldl castVote []).foldl pickTop (none, 0)).1 = none ↔ vs = []) ∧
    ∀ p, ((vs.foldl castVote []).foldl pickTop (none, 0)).1 = some p →
      p ∈ vs ∧ (∀ q, vs.count q ≤ vs.count p) ∧
      ∀ q, q ≠ p → vs.count q = vs.count p →
        ∃ pre rest, vs = pre ++ p :: rest ∧ q ∉ pre := by
  rw [tally_eq]
  rcases pickTop_foldl ((firstVotes vs).map (fun k => (k, vs.count k))) (none, 0) with
    ⟨h1, h2⟩ | ⟨pre, e, post, h1, h2, h3, h4, h5⟩
  · rw [h1]
    have hnil : vs = [] := by
      cases vs with
      | nil => rfl
      | cons x xs =>
        exfalso
        have hx : x ∈ firstVotes (x :: xs) := (mem_firstVotes _ x).mpr (by simp)
        have hle := h2 (x, (x :: xs).count x) (List.mem_map.mpr ⟨x, hx, rfl⟩)
        have hpos : 0 < (x :: xs).count x := List.count_pos_iff.mpr (by simp)
        simp only at hle
        omega
    refine ⟨⟨fun _ => hnil, fun _ => rfl⟩, ?_⟩
    intro p hp
    simp at hp
  · rw [h2]
    obtain ⟨a, r, hf, ha, hr⟩ := List.map_eq_append_iff.mp h1
    obtain ⟨p0, b, hr', hp0, hb⟩ := List.map_eq_cons_iff.mp hr
    subst hr'
    have he1 : e.1 = p0 := by rw [← hp0]
    have he2 : e.2 = vs.count p0 := by rw [← hp0]
    have hp0vs : p0 ∈ vs := by
      rw [← mem_firstVotes, hf]
      simp
    have hposp : 0 < vs.count p0 := List.count_pos_iff.mpr hp0vs
    have hcase : ∀ q, q ∈ vs → q ≠ p0 →
        (vs.count q < vs.count p0) ∨ (q ∈ b ∧ vs.count q ≤ vs.count p0) := by
      intro q hq hne
      have hqf : q ∈ a ++ p0 :: b := by
        rw [← hf]
        exact (mem_firstVotes vs q).mpr hq
      rcases List.mem_append.mp hqf with hqa | hqb
      · left
        have hm : (q, vs.count q) ∈ pre := by
          rw [← ha]
          exact List.mem_map.mpr ⟨q, hqa, rfl⟩
        have := h4 _ hm
        rw [he2] at this
        exact this
      · rcases List.mem_cons.mp hqb with hqp | hqb'
        · exact absurd hqp hne
        · right
          refine ⟨hqb', ?_⟩
          have hm : (q, vs.count q) ∈ post := by
            rw [← hb]
            exact List.mem_map.mpr ⟨q, hqb', rfl⟩
          have := h5 _ hm
          rw [he2] at this
          exact this
    constructor
    · constructor
      · intro h
        simp at h
      · intro h
        subst h
        simp [firstVotes] at hf
    · intro p hp
      have hpe : p = p0 := by
        have : e.1 = p := by simpa using hp
        rw [← this, he1]
      subst hpe
      refine ⟨hp0vs, ?_, ?_⟩
      · intro q
        by_cases hq : q ∈ vs
        · by_cases hne : q = p
          · rw [hne]
          · rcases hcase q hq hne with h | ⟨_, h⟩
            · exact Nat.le_of_lt h
            · exact h
        · rw [List.count_eq_zero.mpr hq]
          exact Nat.zero_le _
      · intro q hne hcount
        have hq : q ∈ vs := List.count_pos_iff.mp (by rw [hcount]; exact hposp)
        rcases hcase q hq hne with h | ⟨hqb, _⟩
        · omega
        · exact firstVotes_order vs a p b hf q hqb

/-- C21 (as the code has it): for the four locals john_doe, jane.roe, jim.poe,
jack_moe the dotted shape is the first to have two votes (two against one after
the third address), both shapes end with two votes, and `detectPattern` returns
the underscore shape, whose first vote came first. -/
theorem detectPattern_tie_counterexample :
    (detectPattern (tiedEmails.take 3) "x.com".toList).patternCounts =
      some [("first_last".toList, 1), ("first.last".toList, 2)] ∧
    (detectPattern tiedEmails "x.com".toList).patternCounts =
      some [("first_last".toList, 2), ("first.last".toList, 2)] ∧
    (detectPattern tiedEmails "x.com".toList).pattern = some "first_last".toList := by
  decide

/-- C21 (amended): the pattern `detectPattern` returns is null exactly when no
address casts a vote; otherwise it is a shape with the maximum number of votes,
and every other shape with as many votes has its first vote later in list order
than the first vote of the returned shape. -/
theorem detectPattern_top (emails : List JsString) (domain : JsString) :
    ((detectPattern emails domain).pattern = none ↔ votesOf emails domain = []) ∧
    ∀ p, (detectPattern emails domain).pattern = some p →
      p ∈ votesOf emails domain ∧
      (∀ q, (votesOf emails domain).count q ≤ (votesOf emails domain).count p) ∧
      ∀ q, q ≠ p → (votesOf emails domain).count q = (votesOf emails domain).count p →
        ∃ pre rest, votesOf emails domain = pre ++ p :: rest ∧ q ∉ pre := by
  rw [detectPattern_pattern]
  exact top_of_tally (votesOf emails domain)

/-- The pattern `detectPattern` returns is a function of the addresses that
count for detection, in their order. -/
theorem detectPattern_congr (emails emails' : List JsString) (domain : JsString)
    (h : emails.filter (countsForDetection domain) =
      emails'.filter (countsForDetection domain)) :
    (detectPattern emails domain).pattern = (detectPattern emails' domain).pattern := by
  rw [detectPattern_pattern, detectPattern_pattern]
  unfold votesOf
  rw [h]

/-- C27: adding or removing, anywhere in the list, an address that does not end
in `@` and the domain, or whose local part is one of the generic names, leaves
the pattern `detectPattern` returns unchanged; and when every address of the
list is of that kind the pattern is null. -/
theorem detectPattern_relevant_only (domain : JsString) (pre post : List JsString)
    (x : JsString) :
    ((('@' :: domain).isSuffixOf x = false ∨ (splitAt x).headD [] ∈ genericLocals) →
      (detectPattern (pre ++ x :: post) domain).pattern =
        (detectPattern (pre ++ post) domain).pattern) ∧
    ((∀ e ∈ pre, ('@' :: domain).isSuffixOf e = false ∨ (splitAt e).headD [] ∈ genericLocals) →
      (detectPattern pre domain).pattern = none) := by
  constructor
  · intro hx
    apply detectPattern_congr
    have hc : countsForDetection domain x = false := by
      rcases hx with h | h
      · simp only [countsForDetection, h, Bool.false_and]
      · have hc : genericLocals.contains ((splitAt x).headD []) = true := by simpa using h
        simp only [countsForDetection, hc, Bool.not_true, Bool.and_false]
    simp [List.filter_append, List.filter_cons, hc]
  · intro hall
    have hf : pre.filter (countsForDetection domain) = [] := by
      rw [List.filter_eq_nil_iff]
      intro e he
      rcases hall e he with h | h
      · simp only [countsForDetection, h, Bool.false_and, Bool.false_eq_true, not_false_eq_true]
      · have hc : genericLocals.contains ((splitAt e).headD []) = true := by simpa using h
        simp only [countsForDetection, hc, Bool.not_true, Bool.and_false, Bool.false_eq_true,
          not_false_eq_true]
    rw [detectPattern_pattern]
    unfold votesOf
    rw [hf]
    rfl

/-! ## Properties of the reply reader -/

theorem head?_filter_find? {α : Type} (p : α → Bool) :
    ∀ l : List α, (l.filter p).head? = l.find? p
  | [] => rfl
  | a :: l => by
    by_cases h : p a = true
    · simp [List.filter_cons, List.find?_cons, h]
    · have h' : p a = false := by simpa using h
      simp [List.filter_cons, List.find?_cons, h', head?_filter_find? p l]

theorem jsLength_pos (l : JsString) : decide (jsLength l > 0) = !l.isEmpty := by
  cases l with
  | nil => rfl
  | cons c cs =>
    have h : jsLength (c :: cs) > 0 := by
      simp only [jsLength, List.map_cons, List.sum_cons]
      split_ifs <;> omega
    simp [h]

/-- The line `onData` tests is the last non-empty line of the buffer. -/
theorem onData_lastLine (buffer : JsString) :
    ((splitCRLF buffer).filter (fun l => decide (jsLength l > 0))).getLast? =
      lastNonEmptyLine buffer := by
  have hp : (fun l : JsString => decide (jsLength l > 0)) = (fun l => !l.isEmpty) :=
    funext jsLength_pos
  rw [hp, List.getLast?_eq_head?_reverse, ← List.filter_reverse, head?_filter_find?]
  rfl

theorem onData_eq (buffer : JsString) :
    onData buffer =
      match lastNonEmptyLine buffer with
      | none => none
      | some lastLine =>
        if jsLength lastLine ≥ 4 ∧ (toUnits lastLine)[3]? = some 32 then
          some { code := parseInt10 ((toUnits lastLine).take 3), message := trim buffer }
        else none := by
  unfold onData
  simp only [onData_lastLine]

theorem mem_splitCRLF : ∀ (s l : JsString), l ∈ splitCRLF s → ∀ c ∈ l, c ∈ s
  | [], l, hl, c, hc => by
    simp only [splitCRLF, List.mem_singleton] at hl
    subst hl
    exact hc
  | [a], l, hl, c, hc => by
    simp only [splitCRLF, List.mem_singleton] at hl
    subst hl
    exact hc
  | a :: d :: rest, l, hl, c, hc => by
    rw [splitCRLF] at hl
    split_ifs at hl with h
    · rcases List.mem_cons.mp hl with h0 | h0
      · subst h0
        simp at hc
      · have := mem_splitCRLF rest l h0 c hc
        exact List.mem_cons_of_mem _ (List.mem_cons_of_mem _ this)
    · cases hs : splitCRLF (d :: rest) with
      | nil =>
        rw [hs] at hl
        simp only [List.mem_singleton] at hl
        subst hl
        simp only [List.mem_singleton] at hc
        subst hc
        exact List.mem_cons_self _ _
      | cons piece more =>
        rw [hs] at hl
        simp only at hl
        rcases List.mem_cons.mp hl with h0 | h0
        · subst h0
          rcases List.mem_cons.mp hc with h1 | h1
          · subst h1
            exact List.mem_cons_self _ _
          · have := mem_splitCRLF (d :: rest) piece (by rw [hs]; exact List.mem_cons_self _ _) c h1
            exact List.mem_cons_of_mem _ this
        · have := mem_splitCRLF (d :: rest) l (by rw [hs]; exact List.mem_cons_of_mem _ h0) c hc
          exact List.mem_cons_of_mem _ this

theorem toUnits_bmp : ∀ s : JsString, (∀ c ∈ s, c.val.toNat < 0x10000) →
    toUnits s = s.map (fun c => c.val.toNat)
  | [], _ => rfl
  | c :: cs, h => by
    have hc : c.val.toNat < 0x10000 := h c (List.mem_cons_self _ _)
    have ih := toUnits_bmp cs (fun x hx => h x (List.mem_cons_of_mem _ hx))
    unfold toUnits at ih ⊢
    rw [List.flatMap_cons, ih, if_pos hc]
    rfl

theorem jsLength_bmp : ∀ s : JsString, (∀ c ∈ s, c.val.toNat < 0x10000) →
    jsLength s = s.length
  | [], _ => rfl
  | c :: cs, h => by
    have hc : c.val.toNat < 0x10000 := h c (List.mem_cons_self _ _)
    have ih := jsLength_bmp cs (fun x hx => h x (List.mem_cons_of_mem _ hx))
    have hn : ¬ c.val ≥ 0x10000 := by
      intro hge
      have : (0x10000 : UInt32).toNat ≤ c.val.toNat := hge
      have h2 : (0x10000 : UInt32).toNat = 0x10000 := by decide
      omega
    unfold jsLength at ih ⊢
    rw [List.map_cons, List.sum_cons, ih, if_neg hn, List.length_cons]
    omega

/-- On a buffer of characters of the basic multilingual plane, ASCII among
them, code units are characters: the buffer is complete if and only if its
last non-empty line has at least four characters and the fourth is a space. -/
theorem onData_bmp (buffer : JsString) (hb : ∀ c ∈ buffer, c.val.toNat < 0x10000) :
    (onData buffer).isSome ↔
      ∃ ln, lastNonEmptyLine buffer = some ln ∧ 4 ≤ ln.length ∧ ln[3]? = some ' ' := by
  have hline : ∀ ln, lastNonEmptyLine buffer = some ln →
      ((jsLength ln ≥ 4 ∧ (toUnits ln)[3]? = some 32) ↔
        (4 ≤ ln.length ∧ ln[3]? = some ' ')) := by
    intro ln hl
    have hmem : ln ∈ splitCRLF buffer := by
      have := List.mem_of_find?_eq_some hl
      exact List.mem_reverse.mp this
    have hbmp : ∀ c ∈ ln, c.val.toNat < 0x10000 :=
      fun c hc => hb c (mem_splitCRLF buffer ln hmem c hc)
    rw [jsLength_bmp ln hbmp, toUnits_bmp ln hbmp, List.getElem?_map]
    constructor
    · rintro ⟨h1, h2⟩
      refine ⟨h1, ?_⟩
      cases h3 : ln[3]? with
      | none => rw [h3] at h2; cases h2
      | some c =>
        rw [h3] at h2
        have hv : c.val.toNat = 32 := Option.some.inj h2
        have hcv : c.val = (' ' : Char).val := UInt32.toNat.inj hv
        rw [Char.ext hcv]
    · rintro ⟨h1, h2⟩
      refine ⟨h1, ?_⟩
      rw [h2]
      rfl
  rw [onData_eq]
  cases hl : lastNonEmptyLine buffer with
  | none => simp
  | some ln =>
    have hiff := hline ln hl
    by_cases hc : jsLength ln ≥ 4 ∧ (toUnits ln)[3]? = some 32
    · simp only [if_pos hc, Option.isSome_some, true_iff]
      exact ⟨ln, rfl, (hiff.mp hc).1, (hiff.mp hc).2⟩
    · simp only [if_neg hc, Option.isSome_none, Bool.false_eq_true, false_iff]
      rintro ⟨ln', hl', h1, h2⟩
      have : ln' = ln := (Option.some.inj hl').symm
      subst this
      exact hc (hiff.mpr ⟨h1, h2⟩)

/-- C25: reading goes on exactly while `onData` finds the accumulated buffer
incomplete; the buffer is complete if and only if its last non-empty line
between CR LF pairs has at least 4 characters (UTF-16 code units, as JavaScript
counts them) and the 4th is a space; the code of the reply is then the integer
`parseInt` reads from the first three characters of that line. For the reply
of the three lines `250-a`, `250-b`, `250 c` the buffer is not complete after
the first or the second line, and under each of the four ways to chunk it at
line boundaries the reader resolves with code 250 at the last chunk and not
before. On a buffer without characters beyond U+FFFF, code units are
characters of the string. -/
theorem readResponse_completion (buffer data : JsString) (more : List JsString) :
    (readFrom buffer (data :: more) =
      match onData (buffer ++ data) with
      | some reply => some reply
      | none => readFrom (buffer ++ data) more) ∧
    ((onData buffer).isSome ↔
      ∃ line, lastNonEmptyLine buffer = some line ∧ 4 ≤ jsLength line ∧
        (toUnits line)[3]? = some 32) ∧
    (∀ reply, onData buffer = some reply →
      ∃ line, lastNonEmptyLine buffer = some line ∧
        reply.code = parseInt10 ((toUnits line).take 3)) ∧
    ((∀ c ∈ buffer, c.val.toNat < 0x10000) →
      ((onData buffer).isSome ↔
        ∃ ln, lastNonEmptyLine buffer = some ln ∧ 4 ≤ ln.length ∧ ln[3]? = some ' ')) ∧
    onData replyLine1 = none ∧ onData (replyLine1 ++ replyLine2) = none ∧
    ∀ chunks ∈ [[replyLine1, replyLine2, replyLine3], [replyLine1 ++ replyLine2, replyLine3],
        [replyLine1, replyLine2 ++ replyLine3], [replyLine1 ++ replyLine2 ++ replyLine3]],
      readResponse chunks = some { code := some 250, message := "250-a\r\n250-b\r\n250 c".toList } ∧
        readResponse chunks.dropLast = none := by
  refine ⟨rfl, ?_, ?_, onData_bmp buffer, by decide, by decide, by decide⟩
  · rw [onData_eq]
    cases hl : lastNonEmptyLine buffer with
    | none => simp
    | some line =>
      by_cases hc : jsLength line ≥ 4 ∧ (toUnits line)[3]? = some 32
      · simp only [if_pos hc, Option.isSome_some, true_iff]
        exact ⟨line, rfl, hc.1, hc.2⟩
      · simp only [if_neg hc, Option.isSome_none, Bool.false_eq_true, false_iff]
        rintro ⟨line', hl', h1, h2⟩
        have : line' = line := (Option.some.inj hl').symm
        subst this
        exact hc ⟨h1, h2⟩
  · intro reply hr
    rw [onData_eq] at hr
    cases hl : lastNonEmptyLine buffer with
    | none => simp [hl] at hr
    | some line =>
      rw [hl] at hr
      by_cases hc : jsLength line ≥ 4 ∧ (toUnits line)[3]? = some 32
      · simp only [if_pos hc] at hr
        refine ⟨line, rfl, ?_⟩
        rw [← Option.some.inj hr]
      · simp only [if_neg hc] at hr
        cases hr

/-! ## The batch controller on an empty batch -/

/-- With no lookup pending, no settlement happens: the state stays as it is. -/
theorem settlements_idle {μ : Type} (rows : List Row) (c : Nat)
    (lookup : Nat → FindRequest → Settlement μ) (s : BulkState μ) (hp : s.pending = []) :
    ∀ order : List Nat,
      order.foldl
        (fun s pick =>
          match s.pending[pick % s.pending.length]? with
          | some i => settle rows c lookup i s
          | none => s)
        s = s
  | [] => rfl
  | pick :: order => by
    rw [List.foldl_cons]
    have hstep : (match s.pending[pick % s.pending.length]? with
        | some i => settle rows c lookup i s
        | none => s) = s := by
      rw [hp]
      rfl
    rw [hstep]
    exact settlements_idle rows c lookup s hp order

/-- Under a cap of 0 the loop of `startNext` starts nothing, so no lookup ever
settles and the promise is never resolved, whatever the rows. -/
theorem processBulk_cap_zero {μ : Type} (rows : List Row)
    (lookup : Nat → FindRequest → Settlement μ) (order : List Nat) :
    (processBulk rows (some 0) lookup order).resolved = none := by
  have hstart : startNext (μ := μ) 0 rows.length (BulkState.init rows.length) =
      BulkState.init rows.length := by
    unfold startNext
    cases h : rows.length - (BulkState.init (μ := μ) rows.length).index with
    | zero => rfl
    | succ fuel =>
      unfold startLoop
      rw [if_neg]
      rintro ⟨h0, _⟩
      exact Nat.not_lt_zero _ h0
  unfold processBulk
  simp only [Option.getD_some]
  rw [hstart, settlements_idle rows 0 lookup (BulkState.init rows.length) rfl order]
  rfl

/-- C22 (as the code has it): for the empty list of rows, whatever the cap, the
lookups and the settlements offered, `processBulk` starts no lookup, completes
none, and its promise is never resolved: it returns no array, the empty one
included. -/
theorem processBulk_empty_never_resolves {μ : Type} (concurrency : Option Nat)
    (lookup : Nat → FindRequest → Settlement μ) (order : List Nat) :
    (processBulk ([] : List Row) concurrency lookup order).resolved = none ∧
      (processBulk ([] : List Row) concurrency lookup order).pending = [] ∧
      (processBulk ([] : List Row) concurrency lookup order).index = 0 ∧
      (processBulk ([] : List Row) concurrency lookup order).completed = 0 := by
  have hrun : processBulk ([] : List Row) concurrency lookup order = BulkState.init 0 := by
    unfold processBulk
    have hstart : startNext (μ := μ) (concurrency.getD 10) ([] : List Row).length
        (BulkState.init ([] : List Row).length) = BulkState.init 0 := rfl
    rw [hstart]
    exact settlements_idle [] (concurrency.getD 10) lookup (BulkState.init 0) rfl order
  rw [hrun]
  exact ⟨rfl, rfl, rfl, rfl⟩

/-! ## Properties of the CSV reader -/

/-- The reader returns one row for every line after the first. -/
theorem parseCSV_length (text : JsString) :
    (parseCSV text).length = (csvLines text).length - 1 := by
  unfold parseCSV
  cases csvLines text with
  | nil => rfl
  | cons firstLine dataLines => simp

/-- C28 (as the code has it): the text of the two lines
`Ada,Lovelace,example.com` and `Alan,Turing,example.org` has two non-empty
lines and no recognised header name in the first, and `parseCSV` returns one
row, that of the second line: the first line is never returned as a row. For
every text the rows are one fewer than the non-empty lines. -/
theorem parseCSV_drops_first_line :
    csvLines headerlessCsv =
      ["Ada,Lovelace,example.com".toList, "Alan,Turing,example.org".toList] ∧
    (∀ h ∈ (splitChar ',' "Ada,Lovelace,example.com".toList).map
        (fun h => stripQuotes (toLowerCase (trim h))), h ∉ headerNames) ∧
    parseCSV headerlessCsv =
      [{ firstName := some "Alan".toList, lastName := some "Turing".toList,
         domainOrCompany := some "example.org".toList, domain := none, company := none }] ∧
    ∀ text, (parseCSV text).length = (csvLines text).length - 1 := by
  refine ⟨by decide, by decide, by decide, parseCSV_length⟩

/-! ## Properties of the domain test -/

/-- An input `isDomain` accepts has exactly one dot. -/
theorem isDomain_one_dot (input : JsString) (h : isDomain input = true) :
    (trim input).count '.' = 1 := by
  unfold isDomain at h
  cases ht : trim input with
  | nil => rw [ht] at h; cases h
  | cons c rest =>
    rw [ht] at h
    simp only [Bool.and_eq_true] at h
    obtain ⟨hc, hrest⟩ := h
    have hcdot : c ≠ '.' := by
      intro e
      rw [e] at hc
      revert hc
      decide
    cases hd : rest.dropWhile isLabelChar with
    | nil => rw [hd] at hrest; cases hrest
    | cons d tld =>
      rw [hd] at hrest
      by_cases hdot : d = '.'
      · subst hdot
        simp only [Bool.and_eq_true, List.all_eq_true] at hrest
        have htld : tld.count '.' = 0 := by
          rw [List.count_eq_zero]
          intro hm
          have := hrest.2 '.' hm
          revert this
          decide
        have htake : (rest.takeWhile isLabelChar).count '.' = 0 := by
          rw [List.count_eq_zero]
          intro hm
          have := List.mem_takeWhile_imp hm
          revert this
          decide
        have hsplit : rest = rest.takeWhile isLabelChar ++ '.' :: tld := by
          rw [← hd, List.takeWhile_append_dropWhile]
        rw [List.count_cons, hsplit, List.count_append, List.count_cons, htake, htld]
        simp [hcdot]
      · exfalso
        revert hrest
        split
        · rename_i heq
          exact absurd (List.cons.inj heq).1 hdot
        · intro hf
          cases hf

/-- C29 (as the code has it): `isDomain` is false on `example.co.uk` and on
`mail.example.com`, as on every input that has not exactly one dot, so stage
L0 of `findEmail` passes `example.co.uk` to the company resolver and uses it
as the domain only if the resolver names it; on `example.com` the test is
true. -/
theorem isDomain_rejects_multi_label :
    isDomain "example.co.uk".toList = false ∧
    isDomain "mail.example.com".toList = false ∧
    isDomain "example.com".toList = true ∧
    (∀ resolver : JsString → Option JsString,
      resolveStage resolver "example.co.uk".toList =
        match resolver "example.co.uk".toList with
        | none => Resolution.unresolved "example.co.uk".toList
        | some d => Resolution.resolved "example.co.uk".toList d) ∧
    ∀ input, (trim input).count '.' ≠ 1 → isDomain input = false := by
  refine ⟨by decide, by decide, by decide, fun resolver => rfl, ?_⟩
  intro input hne
  cases h : isDomain input with
  | false => rfl
  | true => exact absurd (isDomain_one_dot input h) hne

end FindAnyMail
